import Mathlib

/-!
# WatchmanDetectorFactory::DefineDetector

A shallow embedding of `src/geo/WatchmanDetectorFactory.cc`.

* `double` values are elements of a linearly ordered field `R` with a floor
  function; the transcendental part of `<math.h>` (`M_PI`, `cos`, `sin`,
  `sqrt`) is a record `Libm R`, so every definition is executable over `ℚ`
  and is read over `ℝ` with `Real.pi`, `Real.cos`, `Real.sin`, `Real.sqrt`.
* wherever the C++ leaves ideal arithmetic (division by zero, square root of
  a negative number, a conversion whose value does not fit, signed overflow,
  an out-of-range vector index) the run stops with `Err.undefined`.
* `size_t` is a natural number reduced modulo `2 ^ 64`, `int` is an integer
  checked against the 32-bit range.
* the configuration database is a map from `(table, index, field)` to typed
  values, threaded through the run explicitly.
* the `info` log lines (48–54, 69–73, 128, 137, 142, 150) write no state and are
  left out; allocating a vector never fails.
* lines 29–41 are read a second time with the rounding of IEEE double precision
  (namespace `Binary64`), for the claim about `required_pmts` that depends on it.
-/

set_option linter.unusedSectionVars false

namespace RAT

/-! ## Outcomes -/

/-- Ways in which a run stops before reaching the end of the function. -/
inductive Err where
  /-- Raised by `Log::Die`. -/
  | die (msg : String)
  /-- A database accessor did not find the field it was asked for. -/
  | notFound (table index field : String)
  /-- The C++ has no defined (or no finite) value here. -/
  | undefined
  deriving DecidableEq, Repr

/-! ## `<math.h>` -/

/-- The part of `<math.h>` that is not rational: `M_PI`, `cos`, `sin`, `sqrt`. -/
structure Libm (R : Type) where
  pi : R
  cos : R → R
  sin : R → R
  sqrt : R → R

section Arithmetic

variable {R : Type} [LinearOrderedField R] [FloorRing R]

/-- C `ceil`: the least integral value not below `x`, as a `double`. -/
def math_h.ceil (x : R) : R := ((⌈x⌉ : ℤ) : R)

/-- C `round`: nearest integral value, halfway cases away from zero. -/
def math_h.round (x : R) : R :=
  if 0 ≤ x then ((⌊x + 1 / 2⌋ : ℤ) : R) else ((⌈x - 1 / 2⌉ : ℤ) : R)

/-- Truncation toward zero, the rule of every floating-to-integer conversion. -/
def trunc (x : R) : ℤ := if 0 ≤ x then ⌊x⌋ else ⌈x⌉

/-- Number of values of `size_t`. -/
def SIZE_RANGE : ℕ := 2 ^ 64

/-- Conversion `double → size_t`; undefined when the truncated value does not fit. -/
def toSizeT (x : R) : Except Err ℕ :=
  if 0 ≤ trunc x ∧ trunc x < (SIZE_RANGE : ℤ) then .ok (trunc x).toNat else .error .undefined

/-- An `int` result; undefined when it leaves the 32-bit range. -/
def checkInt (v : ℤ) : Except Err ℤ :=
  if -(2 : ℤ) ^ 31 ≤ v ∧ v < (2 : ℤ) ^ 31 then .ok v else .error .undefined

/-- Conversion `double → int`. -/
def toInt (x : R) : Except Err ℤ := checkInt (trunc x)

/-- Conversion `size_t → int` at a call that takes an `int`: reduction modulo `2 ^ 32`. -/
def sizeToInt (n : ℕ) : ℤ := ((n : ℤ) + 2 ^ 31) % 2 ^ 32 - 2 ^ 31

/-- Division of doubles; a zero divisor has no finite quotient. -/
def fdiv (a b : R) : Except Err R := if b = 0 then .error .undefined else .ok (a / b)

/-- Square root of a double; a negative argument has no real root. -/
def fsqrt (m : Libm R) (a : R) : Except Err R :=
  if a < 0 then .error .undefined else .ok (m.sqrt a)

/-- Checked `v[idx] = a` on a `std::vector`. -/
def vset {α : Type} (v : List α) (idx : ℕ) (a : α) : Except Err (List α) :=
  if idx < v.length then .ok (v.set idx a) else .error .undefined

end Arithmetic

/-! ## The configuration database -/

/-- A field of a database table. -/
inductive Value (R : Type) where
  | D (v : R)
  | I (v : ℤ)
  | S (v : String)
  | DArray (v : List R)
  | IArray (v : List ℤ)

/-- Address of a field: table name, index, field name. -/
structure Key where
  table : String
  index : String
  field : String
  deriving DecidableEq, Repr

/-- Modelled from the spec: the configuration store of `RAT/DB.hh`, which is
not part of the sources; a key-value/array store with typed accessors. -/
def DB (R : Type) : Type := Key → Option (Value R)

/-- Modelled from the spec: a `DBLinkPtr`, the (table, index) pair it names. -/
structure DBLink where
  table : String
  index : String
  deriving DecidableEq, Repr

/-- Stateful computations over the database that may stop with an error. -/
def Run (R : Type) (α : Type) : Type := DB R → Except Err α × DB R

/-- Sequencing of runs: an error stops the run and keeps the database as it is. -/
def Run.bind {R α β : Type} (x : Run R α) (f : α → Run R β) : Run R β :=
  fun db => match x db with
    | (.ok a, db1) => f a db1
    | (.error e, db1) => (.error e, db1)

instance (R : Type) : Monad (Run R) where
  pure a := fun db => (.ok a, db)
  bind := Run.bind

/-- A computation that does not touch the database. -/
def Run.lift {R α : Type} (e : Except Err α) : Run R α := fun db => (e, db)

/-- Overwrite one field. -/
def DB.write {R : Type} (db : DB R) (k : Key) (v : Value R) : DB R :=
  fun k1 => if k1 = k then some v else db k1

/-- Modelled from the spec: `DB::GetLink`, a lazy two-level lookup. -/
def GetLink (table index : String) : DBLink := ⟨table, index⟩

/-- Modelled from the spec: `DBLink::GetD`, typed scalar read. -/
def GetD {R : Type} (l : DBLink) (field : String) : Run R R :=
  fun db => match db ⟨l.table, l.index, field⟩ with
    | some (.D v) => (.ok v, db)
    | _ => (.error (.notFound l.table l.index field), db)

/-- Modelled from the spec: `DBLink::GetS`, typed scalar read. -/
def GetS {R : Type} (l : DBLink) (field : String) : Run R String :=
  fun db => match db ⟨l.table, l.index, field⟩ with
    | some (.S v) => (.ok v, db)
    | _ => (.error (.notFound l.table l.index field), db)

/-- Modelled from the spec: `DBLink::GetDArray`, typed array read. -/
def GetDArray {R : Type} (l : DBLink) (field : String) : Run R (List R) :=
  fun db => match db ⟨l.table, l.index, field⟩ with
    | some (.DArray v) => (.ok v, db)
    | _ => (.error (.notFound l.table l.index field), db)

/-- Modelled from the spec: `DB::SetDArray(table, field, value)`. -/
def SetDArray {R : Type} (table field : String) (v : List R) : Run R Unit :=
  fun db => (.ok (), db.write ⟨table, "", field⟩ (.DArray v))

/-- Modelled from the spec: `DB::SetIArray(table, field, value)`. -/
def SetIArray {R : Type} (table field : String) (v : List ℤ) : Run R Unit :=
  fun db => (.ok (), db.write ⟨table, "", field⟩ (.IArray v))

/-- Modelled from the spec: `DB::SetI(table, index, field, value)`. -/
def SetI {R : Type} (table index field : String) (v : ℤ) : Run R Unit :=
  fun db => (.ok (), db.write ⟨table, index, field⟩ (.I v))

/-- Modelled from the spec: the call `db->Load(name)`; the loader `Load` itself is a
parameter that returns the status and the database it leaves. -/
def LoadTemplate {R : Type} (Load : String → DB R → ℤ × DB R) (name : String) : Run R ℤ :=
  fun db => (.ok (Load name db).1, (Load name db).2)

/-- Modelled from the spec: `Log::Die` of `RAT/Log.hh`, the fatal error that ends the run
with a diagnostic message. -/
def Die {R α : Type} (msg : String) : Run R α := fun db => (.error (.die msg), db)

/-! ## Local state of `DefineDetector` -/

/-- The seven sensor vectors of lines 76–77. -/
structure PMTInfo (R : Type) where
  x : List R
  y : List R
  z : List R
  dir_x : List R
  dir_y : List R
  dir_z : List R
  type : List ℤ

section Layout

variable {R : Type} [LinearOrderedField R] [FloorRing R]

/-- Lines 25–28: the running maximum of `rho_edge`, started at `rho_edge[0]`. -/
def photocathode_radius (rho_edge : List R) : Except Err R :=
  match rho_edge with
  | [] => .error .undefined
  | r0 :: rest => .ok (rest.foldl (fun acc r => if acc < r then r else acc) r0)

/-- Line 29. -/
def photocathode_area (m : Libm R) (photocathode_radius : R) : R :=
  m.pi * photocathode_radius * photocathode_radius

/-- Line 36. -/
def cable_radius (steel_thickness shield_thickness detector_size : R) : R :=
  detector_size / 2 - shield_thickness + 4 * steel_thickness

/-- Line 37. -/
def pmt_radius (steel_thickness shield_thickness detector_size : R) : R :=
  detector_size / 2 - shield_thickness - 4 * steel_thickness

/-- Line 38. -/
def topbot_offset (shield_thickness detector_size : R) : R :=
  detector_size / 2 - shield_thickness

/-- Line 40. -/
def surface_area (m : Libm R) (pmt_radius topbot_offset : R) : R :=
  2 * m.pi * pmt_radius * pmt_radius + 2 * topbot_offset * 2 * m.pi * pmt_radius

/-- Line 41. -/
def required_pmts (photocathode_coverage surface_area photocathode_area : R) : Except Err R := do
  let q ← fdiv (photocathode_coverage * surface_area) photocathode_area
  pure (math_h.ceil q)

/-- Line 43. -/
def pmt_space (m : Libm R) (surface_area required_pmts : R) : Except Err R := do
  let q ← fdiv surface_area required_pmts
  fsqrt m q

/-- Line 45. -/
def cols (m : Libm R) (pmt_radius pmt_space : R) : Except Err ℕ := do
  let q ← fdiv (2 * m.pi * pmt_radius) pmt_space
  toSizeT (math_h.round q)

/-- Line 46. -/
def rows (topbot_offset pmt_space : R) : Except Err ℕ := do
  let q ← fdiv (2 * topbot_offset) pmt_space
  toSizeT (math_h.round q)

/-- Line 58. -/
def rdim (pmt_radius pmt_space : R) : Except Err ℤ := do
  let q ← fdiv pmt_radius pmt_space
  toInt (math_h.round q)

/-- The values `lo, lo+1, …, hi` taken by an `int` loop counter. -/
def intRange (lo hi : ℤ) : List ℤ :=
  (List.range (hi + 1 - lo).toNat).map (fun k => lo + (k : ℤ))

/-- Lines 61–63: the body of the lattice loops. -/
def topbotStep (m : Libm R) (pmt_radius pmt_space : R) (i j : ℤ)
    (topbot : List (ℤ × ℤ)) : Except Err (List (ℤ × ℤ)) := do
  let ii ← checkInt (i * i)
  let jj ← checkInt (j * j)
  let n ← checkInt (ii + jj)
  if pmt_space * m.sqrt (n : R) ≤ pmt_radius - pmt_space / 2 then
    pure (topbot ++ [(i, j)])
  else
    pure topbot

/-- Lines 57–65: the accepted end-cap lattice points, in enumeration order. -/
def topbot (m : Libm R) (pmt_radius pmt_space : R) (rdim : ℤ) : Except Err (List (ℤ × ℤ)) := do
  let lo ← checkInt (-rdim)
  (intRange lo rdim).foldlM
    (fun acc i => (intRange lo rdim).foldlM
      (fun acc j => topbotStep m pmt_radius pmt_space i j acc) acc) []

/-- Line 67, in `size_t` arithmetic. -/
def num_pmts (cols rows topbot_size : ℕ) : ℕ :=
  (cols * rows % SIZE_RANGE + 2 * topbot_size % SIZE_RANGE) % SIZE_RANGE

/-- Lines 76–77: seven vectors of `num_pmts` zeros. -/
def PMTInfo.alloc (num_pmts : ℕ) : PMTInfo R :=
  { x := List.replicate num_pmts 0
    y := List.replicate num_pmts 0
    z := List.replicate num_pmts 0
    dir_x := List.replicate num_pmts 0
    dir_y := List.replicate num_pmts 0
    dir_z := List.replicate num_pmts 0
    type := List.replicate num_pmts 0 }

/-- Lines 81–92: the body of the barrel loops. -/
def barrelStep (m : Libm R) (cols rows : ℕ) (pmt_radius topbot_offset pmt_space : R)
    (col row : ℕ) (v : PMTInfo R) : Except Err (PMTInfo R) := do
  let idx := (row + col * rows % SIZE_RANGE) % SIZE_RANGE
  let phi := 2 * m.pi * ((col : R) + 1 / 2) / (cols : R)
  let x ← vset v.x idx (pmt_radius * m.cos phi)
  let y ← vset v.y idx (pmt_radius * m.sin phi)
  let z ← vset v.z idx ((row : R) * 2 * topbot_offset / (rows : R) + pmt_space / 2 - topbot_offset)
  let dir_x ← vset v.dir_x idx (-m.cos phi)
  let dir_y ← vset v.dir_y idx (-m.sin phi)
  let dir_z ← vset v.dir_z idx 0
  let type ← vset v.type idx 1
  pure { x := x, y := y, z := z, dir_x := dir_x, dir_y := dir_y, dir_z := dir_z, type := type }

/-- Lines 79–94: the barrel loops. -/
def barrel (m : Libm R) (cols rows : ℕ) (pmt_radius topbot_offset pmt_space : R)
    (v : PMTInfo R) : Except Err (PMTInfo R) :=
  (List.range cols).foldlM
    (fun v col => (List.range rows).foldlM
      (fun v row => barrelStep m cols rows pmt_radius topbot_offset pmt_space col row v) v) v

/-- Lines 98–118: the body of the end-cap loop, for the lattice point `p = topbot[i]`.
Line 115 assigns `dir_y[idx]` a second time, not `dir_y[idx+1]`. -/
def endcapStep (cols rows : ℕ) (topbot_offset pmt_space : R)
    (i : ℕ) (p : ℤ × ℤ) (v : PMTInfo R) : Except Err (PMTInfo R) := do
  let idx := (rows * cols % SIZE_RANGE + i * 2 % SIZE_RANGE) % SIZE_RANGE
  let idx1 := (idx + 1) % SIZE_RANGE
  -- top = idx
  let x ← vset v.x idx (pmt_space * (p.1 : R))
  let y ← vset v.y idx (pmt_space * (p.2 : R))
  let z ← vset v.z idx topbot_offset
  let dir_y ← vset v.dir_y idx 0
  let dir_x ← vset v.dir_x idx 0
  let dir_z ← vset v.dir_z idx (-1)
  let type ← vset v.type idx 1
  -- bot = idx+1
  let x ← vset x idx1 (pmt_space * (p.1 : R))
  let y ← vset y idx1 (pmt_space * (p.2 : R))
  let z ← vset z idx1 (-topbot_offset)
  let dir_y ← vset dir_y idx 0
  let dir_x ← vset dir_x idx1 0
  let dir_z ← vset dir_z idx1 1
  let type ← vset type idx1 1
  pure { x := x, y := y, z := z, dir_x := dir_x, dir_y := dir_y, dir_z := dir_z, type := type }

/-- Lines 97–119: the end-cap loop over `topbot`. -/
def endcap (cols rows : ℕ) (topbot_offset pmt_space : R)
    (topbot : List (ℤ × ℤ)) (v : PMTInfo R) : Except Err (PMTInfo R) :=
  (List.range topbot.length).foldlM
    (fun v i => match topbot.get? i with
      | some p => endcapStep cols rows topbot_offset pmt_space i p v
      | none => .error .undefined) v

/-- Lines 122–126: the cable anchors, two vectors of `cols` zeros filled in turn. -/
def cable (m : Libm R) (cols : ℕ) (cable_radius : R) : Except Err (List R × List R) :=
  (List.range cols).foldlM
    (fun c col => do
      let cable_x ← vset c.1 col (cable_radius * m.cos ((col : R) * 2 * m.pi / (cols : R)))
      let cable_y ← vset c.2 col (cable_radius * m.sin ((col : R) * 2 * m.pi / (cols : R)))
      pure (cable_x, cable_y))
    (List.replicate cols 0, List.replicate cols 0)

/-- The local variables of `DefineDetector` that are live when it starts to publish. -/
structure Locals (R : Type) where
  photocathode_radius : R
  photocathode_area : R
  cable_radius : R
  pmt_radius : R
  topbot_offset : R
  surface_area : R
  required_pmts : R
  pmt_space : R
  cols : ℕ
  rows : ℕ
  rdim : ℤ
  topbot : List (ℤ × ℤ)
  num_pmts : ℕ
  pmt : PMTInfo R
  cable_x : List R
  cable_y : List R

/-- Lines 29–126 without the reads: the arithmetic and the vector loops. -/
def layout (m : Libm R) (photocathode_coverage photocathode_radius : R)
    (steel_thickness shield_thickness detector_size : R) : Except Err (Locals R) := do
  let photocathode_area := photocathode_area m photocathode_radius
  let cable_radius := cable_radius steel_thickness shield_thickness detector_size
  let pmt_radius := pmt_radius steel_thickness shield_thickness detector_size
  let topbot_offset := topbot_offset shield_thickness detector_size
  let surface_area := surface_area m pmt_radius topbot_offset
  let required_pmts ← required_pmts photocathode_coverage surface_area photocathode_area
  let pmt_space ← pmt_space m surface_area required_pmts
  let cols ← cols m pmt_radius pmt_space
  let rows ← rows topbot_offset pmt_space
  let rdim ← rdim pmt_radius pmt_space
  let topbot ← topbot m pmt_radius pmt_space rdim
  let num_pmts := num_pmts cols rows topbot.length
  let v ← barrel m cols rows pmt_radius topbot_offset pmt_space (PMTInfo.alloc num_pmts)
  let v ← endcap cols rows topbot_offset pmt_space topbot v
  let c ← cable m cols cable_radius
  pure { photocathode_radius := photocathode_radius
         photocathode_area := photocathode_area
         cable_radius := cable_radius
         pmt_radius := pmt_radius
         topbot_offset := topbot_offset
         surface_area := surface_area
         required_pmts := required_pmts
         pmt_space := pmt_space
         cols := cols
         rows := rows
         rdim := rdim
         topbot := topbot
         num_pmts := num_pmts
         pmt := v
         cable_x := c.1
         cable_y := c.2 }

/-- The template named at line 14. -/
def geo_template : String := "Watchman/Watchman.geo"

/-- Lines 12–157. `Load` is `DB::Load`, which is not part of the sources: it
returns the status the code tests and may change the database. -/
def DefineDetector (m : Libm R) (Load : String → DB R → ℤ × DB R) (detector : DBLink) :
    Run R Unit := do
  let photocathode_coverage ← GetD detector "photocathode_coverage"
  let status ← LoadTemplate Load geo_template
  (if status = 0 then
    Die "WatchmanDetectorFactory: could not load template Watchman/Watchman.geo"
  else pure ())
  -- calculate the area of the defined inner_pmts
  let inner_pmts := GetLink "GEO" "inner_pmts"
  let pmt_type ← GetS inner_pmts "pmt_type"
  let pmt := GetLink "PMT" pmt_type
  let rho_edge ← GetDArray pmt "rho_edge"
  let photocathode_radius ← Run.lift (photocathode_radius rho_edge)
  let shield := GetLink "GEO" "shield"
  let steel_thickness ← GetD shield "steel_thickness"
  let shield_thickness ← GetD shield "shield_thickness"
  let detector_size ← GetD shield "detector_size"
  let g ← Run.lift (layout m photocathode_coverage photocathode_radius
    steel_thickness shield_thickness detector_size)
  -- Override default PMTINFO information
  SetDArray "PMTINFO" "x" g.pmt.x
  SetDArray "PMTINFO" "y" g.pmt.y
  SetDArray "PMTINFO" "z" g.pmt.z
  SetDArray "PMTINFO" "dir_x" g.pmt.dir_x
  SetDArray "PMTINFO" "dir_y" g.pmt.dir_y
  SetDArray "PMTINFO" "dir_z" g.pmt.dir_z
  SetIArray "PMTINFO" "type" g.pmt.type
  -- Disable veto_pmts for dynamic coverage
  SetI "GEO" "veto_pmts" "enable" 0
  SetI "GEO" "shield" "veto_start" 0
  SetI "GEO" "shield" "veto_len" 0
  -- Update geometry fields related to normal PMTs
  SetI "GEO" "shield" "cols" (sizeToInt g.cols)
  SetI "GEO" "shield" "rows" (sizeToInt g.rows)
  SetI "GEO" "shield" "inner_start" 0
  SetI "GEO" "shield" "inner_len" (sizeToInt g.num_pmts)
  SetI "GEO" "inner_pmts" "start_num" 0
  SetI "GEO" "inner_pmts" "max_pmts" (sizeToInt g.num_pmts)
  -- Update cable positions to match shield
  SetDArray "cable_pos" "x" g.cable_x
  SetDArray "cable_pos" "y" g.cable_y
  SetDArray "cable_pos" "z" (List.replicate g.cols 0)
  SetDArray "cable_pos" "dir_x" (List.replicate g.cols 0)
  SetDArray "cable_pos" "dir_y" (List.replicate g.cols 0)
  SetDArray "cable_pos" "dir_z" (List.replicate g.cols 1)

end Layout

/-! ## Reading the vectors record by record -/

/-- One sensor record: the entries of the seven vectors at one index. -/
structure PMTRecord (R : Type) where
  x : R
  y : R
  z : R
  dir_x : R
  dir_y : R
  dir_z : R
  type : ℤ

section Records

variable {R : Type} [LinearOrderedField R] [FloorRing R]

/-- The seven vectors hold the record `r` at index `k`. -/
def PMTInfo.At (v : PMTInfo R) (k : ℕ) (r : PMTRecord R) : Prop :=
  v.x[k]? = some r.x ∧ v.y[k]? = some r.y ∧ v.z[k]? = some r.z ∧
  v.dir_x[k]? = some r.dir_x ∧ v.dir_y[k]? = some r.dir_y ∧ v.dir_z[k]? = some r.dir_z ∧
  v.type[k]? = some r.type

/-- All seven vectors have `n` entries. -/
def PMTInfo.Sized (v : PMTInfo R) (n : ℕ) : Prop :=
  v.x.length = n ∧ v.y.length = n ∧ v.z.length = n ∧
  v.dir_x.length = n ∧ v.dir_y.length = n ∧ v.dir_z.length = n ∧ v.type.length = n

/-- The record a freshly allocated slot holds. -/
def zeroRecord : PMTRecord R :=
  { x := 0, y := 0, z := 0, dir_x := 0, dir_y := 0, dir_z := 0, type := 0 }

/-- The record written by lines 84–92 for column `col` and row `row`. -/
def barrelRecord (m : Libm R) (cols rows : ℕ) (pmt_radius topbot_offset pmt_space : R)
    (col row : ℕ) : PMTRecord R :=
  { x := pmt_radius * m.cos (2 * m.pi * ((col : R) + 1 / 2) / (cols : R))
    y := pmt_radius * m.sin (2 * m.pi * ((col : R) + 1 / 2) / (cols : R))
    z := (row : R) * 2 * topbot_offset / (rows : R) + pmt_space / 2 - topbot_offset
    dir_x := -m.cos (2 * m.pi * ((col : R) + 1 / 2) / (cols : R))
    dir_y := -m.sin (2 * m.pi * ((col : R) + 1 / 2) / (cols : R))
    dir_z := 0
    type := 1 }

/-- The top record of lines 101–108 for the lattice point `p`. -/
def topRecord (topbot_offset pmt_space : R) (p : ℤ × ℤ) : PMTRecord R :=
  { x := pmt_space * (p.1 : R), y := pmt_space * (p.2 : R), z := topbot_offset
    dir_x := 0, dir_y := 0, dir_z := -1, type := 1 }

/-- The bottom record of lines 111–118 for the lattice point `p`. -/
def botRecord (topbot_offset pmt_space : R) (p : ℤ × ℤ) : PMTRecord R :=
  { x := pmt_space * (p.1 : R), y := pmt_space * (p.2 : R), z := -topbot_offset
    dir_x := 0, dir_y := 0, dir_z := 1, type := 1 }

end Records

/-- Store the record `r` at index `k` of the seven vectors. -/
def PMTInfo.setRecord {R : Type} (v : PMTInfo R) (k : ℕ) (r : PMTRecord R) : PMTInfo R :=
  { x := v.x.set k r.x, y := v.y.set k r.y, z := v.z.set k r.z
    dir_x := v.dir_x.set k r.dir_x, dir_y := v.dir_y.set k r.dir_y
    dir_z := v.dir_z.set k r.dir_z, type := v.type.set k r.type }

/-- The database after the 22 `Set` calls of lines 129–156, started in `db`. -/
def published {R : Type} [LinearOrderedField R] (g : Locals R) (db : DB R) : DB R :=
  ((((((((((((((((((((((db.write ⟨"PMTINFO", "", "x"⟩ (.DArray g.pmt.x)).write
    ⟨"PMTINFO", "", "y"⟩ (.DArray g.pmt.y)).write
    ⟨"PMTINFO", "", "z"⟩ (.DArray g.pmt.z)).write
    ⟨"PMTINFO", "", "dir_x"⟩ (.DArray g.pmt.dir_x)).write
    ⟨"PMTINFO", "", "dir_y"⟩ (.DArray g.pmt.dir_y)).write
    ⟨"PMTINFO", "", "dir_z"⟩ (.DArray g.pmt.dir_z)).write
    ⟨"PMTINFO", "", "type"⟩ (.IArray g.pmt.type)).write
    ⟨"GEO", "veto_pmts", "enable"⟩ (.I 0)).write
    ⟨"GEO", "shield", "veto_start"⟩ (.I 0)).write
    ⟨"GEO", "shield", "veto_len"⟩ (.I 0)).write
    ⟨"GEO", "shield", "cols"⟩ (.I (sizeToInt g.cols))).write
    ⟨"GEO", "shield", "rows"⟩ (.I (sizeToInt g.rows))).write
    ⟨"GEO", "shield", "inner_start"⟩ (.I 0)).write
    ⟨"GEO", "shield", "inner_len"⟩ (.I (sizeToInt g.num_pmts))).write
    ⟨"GEO", "inner_pmts", "start_num"⟩ (.I 0)).write
    ⟨"GEO", "inner_pmts", "max_pmts"⟩ (.I (sizeToInt g.num_pmts))).write
    ⟨"cable_pos", "", "x"⟩ (.DArray g.cable_x)).write
    ⟨"cable_pos", "", "y"⟩ (.DArray g.cable_y)).write
    ⟨"cable_pos", "", "z"⟩ (.DArray (List.replicate g.cols 0))).write
    ⟨"cable_pos", "", "dir_x"⟩ (.DArray (List.replicate g.cols 0))).write
    ⟨"cable_pos", "", "dir_y"⟩ (.DArray (List.replicate g.cols 0))).write
    ⟨"cable_pos", "", "dir_z"⟩ (.DArray (List.replicate g.cols 1)))

/-! ## Loop invariants -/

section Invariants

variable {R : Type} [LinearOrderedField R] [FloorRing R]

/-- Invariant of the barrel loops after `t` cells: the first `t` slots hold their barrel
records, the rest is as allocated. -/
def BarrelInv (m : Libm R) (cols rows : ℕ) (pmt_radius topbot_offset pmt_space : R)
    (n t : ℕ) (v : PMTInfo R) : Prop :=
  v.Sized n ∧
  (∀ k < t, v.At k
    (barrelRecord m cols rows pmt_radius topbot_offset pmt_space (k / rows) (k % rows))) ∧
  (∀ k, t ≤ k → k < n → v.At k zeroRecord)

/-- Invariant of the end-cap loop after `i` lattice points. -/
def EndcapInv (topbot_offset pmt_space : R) (topbot : List (ℤ × ℤ)) (v0 : PMTInfo R)
    (cr n i : ℕ) (v : PMTInfo R) : Prop :=
  v.Sized n ∧
  (∀ k < cr, ∀ r, v.At k r ↔ v0.At k r) ∧
  (∀ j < i, ∀ p, topbot[j]? = some p →
    v.At (cr + 2 * j) (topRecord topbot_offset pmt_space p) ∧
    v.At (cr + 2 * j + 1) (botRecord topbot_offset pmt_space p)) ∧
  (∀ k, cr + 2 * i ≤ k → k < n → v.At k zeroRecord)

end Invariants

/-! ## Runs of `DefineDetector` -/

section Runs

variable {R : Type} [LinearOrderedField R] [FloorRing R]

/-- The run of `DefineDetector` from `db` completes in `db2`, and `g` holds the local
variables it computed from the values it read. -/
def Locals.OfRun (g : Locals R) (m : Libm R) (Load : String → DB R → ℤ × DB R)
    (detector : DBLink) (db db2 : DB R) : Prop :=
  DefineDetector m Load detector db = (.ok (), db2) ∧
  ∃ cov pmt_type rho_edge st sh ds,
    db ⟨detector.table, detector.index, "photocathode_coverage"⟩ = some (.D cov) ∧
    (Load geo_template db).2 ⟨"GEO", "inner_pmts", "pmt_type"⟩ = some (.S pmt_type) ∧
    (Load geo_template db).2 ⟨"PMT", pmt_type, "rho_edge"⟩ = some (.DArray rho_edge) ∧
    RAT.photocathode_radius rho_edge = .ok g.photocathode_radius ∧
    (Load geo_template db).2 ⟨"GEO", "shield", "steel_thickness"⟩ = some (.D st) ∧
    (Load geo_template db).2 ⟨"GEO", "shield", "shield_thickness"⟩ = some (.D sh) ∧
    (Load geo_template db).2 ⟨"GEO", "shield", "detector_size"⟩ = some (.D ds) ∧
    layout m cov g.photocathode_radius st sh ds = .ok g

/-- The template does not load: `db->Load(geo_template)` returns 0. -/
def LoadFails (Load : String → DB R → ℤ × DB R) (db : DB R) : Prop :=
  (Load geo_template db).1 = 0

/-- One of the six keys the run reads is absent (or holds a value of another type) in
the database the run reads it from. -/
def MissingKey (Load : String → DB R → ℤ × DB R) (detector : DBLink) (db : DB R) : Prop :=
  (∀ v, db ⟨detector.table, detector.index, "photocathode_coverage"⟩ ≠ some (.D v)) ∨
  (∀ t, (Load geo_template db).2 ⟨"GEO", "inner_pmts", "pmt_type"⟩ ≠ some (.S t)) ∨
  (∃ t, (Load geo_template db).2 ⟨"GEO", "inner_pmts", "pmt_type"⟩ = some (.S t) ∧
    ∀ a, (Load geo_template db).2 ⟨"PMT", t, "rho_edge"⟩ ≠ some (.DArray a)) ∨
  (∀ v, (Load geo_template db).2 ⟨"GEO", "shield", "steel_thickness"⟩ ≠ some (.D v)) ∨
  (∀ v, (Load geo_template db).2 ⟨"GEO", "shield", "shield_thickness"⟩ ≠ some (.D v)) ∨
  (∀ v, (Load geo_template db).2 ⟨"GEO", "shield", "detector_size"⟩ ≠ some (.D v))

/-- The `rho_edge` array the run reads is empty. -/
def EmptyRhoEdge (Load : String → DB R → ℤ × DB R) (db : DB R) : Prop :=
  ∃ t, (Load geo_template db).2 ⟨"GEO", "inner_pmts", "pmt_type"⟩ = some (.S t) ∧
    (Load geo_template db).2 ⟨"PMT", t, "rho_edge"⟩ = some (.DArray [])

end Runs

/-! ## A worked configuration -/

section Example

variable (R : Type) [LinearOrderedField R]

/-- A database with coverage 7/8, edge radii `[0, 1]`, steel thickness 1/8, shield
thickness 1/2 and detector size 4. -/
def exampleDB : DB R := fun k =>
  if k = ⟨"DETECTOR", "", "photocathode_coverage"⟩ then some (.D (7 / 8))
  else if k = ⟨"GEO", "inner_pmts", "pmt_type"⟩ then some (.S "r7081")
  else if k = ⟨"PMT", "r7081", "rho_edge"⟩ then some (.DArray [0, 1])
  else if k = ⟨"GEO", "shield", "steel_thickness"⟩ then some (.D (1 / 8))
  else if k = ⟨"GEO", "shield", "shield_thickness"⟩ then some (.D (1 / 2))
  else if k = ⟨"GEO", "shield", "detector_size"⟩ then some (.D 4)
  else none

/-- The database `exampleDB` with an empty `rho_edge` array. -/
def emptyRhoDB : DB R := fun k =>
  if k = ⟨"PMT", "r7081", "rho_edge"⟩ then some (.DArray []) else exampleDB R k

/-- A database with every key present whose geometry is degenerate: coverage 1/2, edge
radii `[1]`, steel thickness 1, shield thickness 0 and detector size 2, so that
`pmt_radius = -3`. -/
def degenerateDB : DB R := fun k =>
  if k = ⟨"DETECTOR", "", "photocathode_coverage"⟩ then some (.D (1 / 2))
  else if k = ⟨"GEO", "inner_pmts", "pmt_type"⟩ then some (.S "r7081")
  else if k = ⟨"PMT", "r7081", "rho_edge"⟩ then some (.DArray [1])
  else if k = ⟨"GEO", "shield", "steel_thickness"⟩ then some (.D 1)
  else if k = ⟨"GEO", "shield", "shield_thickness"⟩ then some (.D 0)
  else if k = ⟨"GEO", "shield", "detector_size"⟩ then some (.D 2)
  else none

/-- The link to the table that holds the coverage in `exampleDB`. -/
def exampleDetector : DBLink := ⟨"DETECTOR", ""⟩

/-- A loader that finds the template and leaves the database as it is. -/
def exampleLoad : String → DB R → ℤ × DB R := fun _ db => (1, db)

end Example

/-! ## The end-cap acceptance test -/

section Acceptance

variable {R : Type} [LinearOrderedField R] [FloorRing R]

/-- Line 62: the lattice point `(i, j)` passes the half-pitch-margin test. -/
def Accepts (m : Libm R) (pmt_radius pmt_space : R) (i j : ℤ) : Prop :=
  pmt_space * m.sqrt ((i * i + j * j : ℤ) : R) ≤ pmt_radius - pmt_space / 2

instance (m : Libm R) (pmt_radius pmt_space : R) (i j : ℤ) :
    Decidable (Accepts m pmt_radius pmt_space i j) :=
  inferInstanceAs (Decidable (_ ≤ _))

end Acceptance

/-! ## Inputs and outputs of a run -/

section InputsOutputs

variable {R : Type} [LinearOrderedField R] [FloorRing R]

/-- The five input values a run reads (lines 13 and 21–34): the coverage from the detector
table of the initial database, and the edge radii of the configured sensor type, the steel
thickness, the shield thickness and the detector size from the database after the template
has been loaded. -/
def ReadsInputs (Load : String → DB R → ℤ × DB R) (detector : DBLink) (db : DB R)
    (cov : R) (rho_edge : List R) (st sh ds : R) : Prop :=
  db ⟨detector.table, detector.index, "photocathode_coverage"⟩ = some (.D cov) ∧
  (∃ pmt_type, (Load geo_template db).2 ⟨"GEO", "inner_pmts", "pmt_type"⟩
      = some (.S pmt_type) ∧
    (Load geo_template db).2 ⟨"PMT", pmt_type, "rho_edge"⟩ = some (.DArray rho_edge)) ∧
  (Load geo_template db).2 ⟨"GEO", "shield", "steel_thickness"⟩ = some (.D st) ∧
  (Load geo_template db).2 ⟨"GEO", "shield", "shield_thickness"⟩ = some (.D sh) ∧
  (Load geo_template db).2 ⟨"GEO", "shield", "detector_size"⟩ = some (.D ds)

/-- The 22 keys written by lines 129–156, in the order of the calls. -/
def outputKeys : List Key :=
  [⟨"PMTINFO", "", "x"⟩, ⟨"PMTINFO", "", "y"⟩, ⟨"PMTINFO", "", "z"⟩,
   ⟨"PMTINFO", "", "dir_x"⟩, ⟨"PMTINFO", "", "dir_y"⟩, ⟨"PMTINFO", "", "dir_z"⟩,
   ⟨"PMTINFO", "", "type"⟩,
   ⟨"GEO", "veto_pmts", "enable"⟩, ⟨"GEO", "shield", "veto_start"⟩,
   ⟨"GEO", "shield", "veto_len"⟩, ⟨"GEO", "shield", "cols"⟩, ⟨"GEO", "shield", "rows"⟩,
   ⟨"GEO", "shield", "inner_start"⟩, ⟨"GEO", "shield", "inner_len"⟩,
   ⟨"GEO", "inner_pmts", "start_num"⟩, ⟨"GEO", "inner_pmts", "max_pmts"⟩,
   ⟨"cable_pos", "", "x"⟩, ⟨"cable_pos", "", "y"⟩, ⟨"cable_pos", "", "z"⟩,
   ⟨"cable_pos", "", "dir_x"⟩, ⟨"cable_pos", "", "dir_y"⟩, ⟨"cable_pos", "", "dir_z"⟩]

end InputsOutputs

/-! ## Further configurations -/

section MoreExamples

variable (R : Type) [LinearOrderedField R]

/-- The database `exampleDB` in which some output keys already hold values of an earlier
run. -/
def staleDB : DB R := fun k =>
  if k = ⟨"PMTINFO", "", "x"⟩ then some (.DArray [42])
  else if k = ⟨"GEO", "shield", "cols"⟩ then some (.I 99)
  else if k = ⟨"cable_pos", "", "dir_z"⟩ then some (.DArray [5, 5])
  else exampleDB R k

/-- The database `exampleDB` with edge radii `[1/32768]`: a very small photocathode,
everything else unchanged. -/
def denseDB : DB R := fun k =>
  if k = ⟨"PMT", "r7081", "rho_edge"⟩ then some (.DArray [1 / 32768]) else exampleDB R k

end MoreExamples

/-! ## Lines 29–41 in IEEE double precision

The definitions above read a `double` as an element of an ordered field, with exact
operations. The namespace `Binary64` reads lines 29–41 with the arithmetic of the machine:
a `double` is a rational number, and every operation returns the exact result rounded to
53 significant bits, to nearest, ties to even. Results outside the normal range (below
`2^-1022` or from `2^1024` on in absolute value) and a zero divisor are `Err.undefined`. -/

namespace Binary64

/-- Rounding to the nearest integer, ties to the even one. -/
def roundTiesEven (x : ℚ) : ℤ :=
  if x - ⌊x⌋ < 1 / 2 then ⌊x⌋
  else if 1 / 2 < x - ⌊x⌋ then ⌊x⌋ + 1
  else if ⌊x⌋ % 2 = 0 then ⌊x⌋ else ⌊x⌋ + 1

/-- The binary exponent of a non-zero `x`: the `e` with `2^e ≤ |x| < 2^(e+1)`. -/
def exponent (x : ℚ) : ℤ := Int.log 2 |x|

/-- The `double` nearest to the rational `x`: `x` is scaled to `[2^52, 2^53)`, rounded to
an integer and scaled back. -/
def fl (x : ℚ) : Except Err ℚ :=
  if x = 0 then .ok 0
  else if exponent x < -1022 then .error .undefined
  else if (2 : ℚ) ^ (1024 : ℤ)
      ≤ |(roundTiesEven (x / 2 ^ (exponent x - 52)) : ℚ) * 2 ^ (exponent x - 52)| then
    .error .undefined
  else .ok ((roundTiesEven (x / 2 ^ (exponent x - 52)) : ℚ) * 2 ^ (exponent x - 52))

/-- The constant `M_PI` of `<math.h>`: the `double` nearest to `π`,
`3.141592653589793115997963468544185161590576171875`. -/
def M_PI : ℚ := 884279719003555 / 281474976710656

/-- Line 29: `M_PI*photocathode_radius*photocathode_radius`. -/
def photocathode_area (photocathode_radius : ℚ) : Except Err ℚ := do
  let t ← fl (M_PI * photocathode_radius)
  fl (t * photocathode_radius)

/-- Line 37: `detector_size/2.0 - shield_thickness - 4.0*steel_thickness`. -/
def pmt_radius (steel_thickness shield_thickness detector_size : ℚ) : Except Err ℚ := do
  let h ← fl (detector_size / 2)
  let a ← fl (h - shield_thickness)
  let b ← fl (4 * steel_thickness)
  fl (a - b)

/-- Line 38: `detector_size/2.0 - shield_thickness`. -/
def topbot_offset (shield_thickness detector_size : ℚ) : Except Err ℚ := do
  let h ← fl (detector_size / 2)
  fl (h - shield_thickness)

/-- Line 40:
`2.0*M_PI*pmt_radius*pmt_radius + 2.0*topbot_offset*2.0*M_PI*pmt_radius`. -/
def surface_area (pmt_radius topbot_offset : ℚ) : Except Err ℚ := do
  let a ← fl (2 * M_PI)
  let a ← fl (a * pmt_radius)
  let a ← fl (a * pmt_radius)
  let b ← fl (2 * topbot_offset)
  let b ← fl (b * 2)
  let b ← fl (b * M_PI)
  let b ← fl (b * pmt_radius)
  fl (a + b)

/-- Line 41: `ceil(photocathode_coverage * surface_area / photocathode_area)`. The ceiling
of a `double` is a `double`, so it is not rounded. -/
def required_pmts (photocathode_coverage surface_area photocathode_area : ℚ) :
    Except Err ℚ := do
  let p ← fl (photocathode_coverage * surface_area)
  if photocathode_area = 0 then .error .undefined
  else do
    let q ← fl (p / photocathode_area)
    pure ((⌈q⌉ : ℤ) : ℚ)

end Binary64

/-! ## Lemmas -/

section Lemmas

variable {R : Type} [LinearOrderedField R] [FloorRing R]

theorem bind_ok_iff {α β : Type} (x : Except Err α) (f : α → Except Err β) (b : β) :
    (x >>= f) = .ok b ↔ ∃ a, x = .ok a ∧ f a = .ok b := by
  cases x with
  | error e => simp [bind, Except.bind]
  | ok a => simp [bind, Except.bind]

theorem vset_ok_iff {α : Type} (v : List α) (idx : ℕ) (a : α) (w : List α) :
    vset v idx a = .ok w ↔ idx < v.length ∧ w = v.set idx a := by
  unfold vset
  split <;> simp_all [eq_comm]

theorem foldlM_ok_visit {σ α : Type} (f : σ → α → Except Err σ) (Q : σ → Prop)
    (hQ : ∀ s a s1, Q s → f s a = .ok s1 → Q s1) (l : List α) (s0 s : σ)
    (h0 : Q s0) (h : l.foldlM f s0 = .ok s) :
    Q s ∧ ∀ a ∈ l, ∃ s1 s2, Q s1 ∧ f s1 a = .ok s2 := by
  induction l generalizing s0 with
  | nil =>
    simp only [List.foldlM_nil, pure, Except.pure, Except.ok.injEq] at h
    subst h
    exact ⟨h0, by simp⟩
  | cons a l ih =>
    rw [List.foldlM_cons, bind_ok_iff] at h
    obtain ⟨s1, h1, h2⟩ := h
    obtain ⟨hq, hv⟩ := ih s1 (hQ _ _ _ h0 h1) h2
    refine ⟨hq, ?_⟩
    intro b hb
    rcases List.mem_cons.mp hb with rfl | hb
    · exact ⟨s0, s1, h0, h1⟩
    · exact hv b hb

theorem range_foldlM_inv {σ : Type} (f : σ → ℕ → Except Err σ) (P : ℕ → σ → Prop)
    (n : ℕ) (s0 : σ) (h0 : P 0 s0)
    (hstep : ∀ i s s1, i < n → P i s → f s i = .ok s1 → P (i + 1) s1)
    (s : σ) (h : (List.range n).foldlM f s0 = .ok s) : P n s := by
  induction n generalizing s with
  | zero =>
    simp only [List.range_zero, List.foldlM_nil, pure, Except.pure, Except.ok.injEq] at h
    subst h
    exact h0
  | succ n ih =>
    rw [List.range_succ, List.foldlM_append, bind_ok_iff] at h
    obtain ⟨s1, h1, h2⟩ := h
    rw [List.foldlM_cons, bind_ok_iff] at h2
    obtain ⟨s2, h3, h4⟩ := h2
    simp only [List.foldlM_nil, pure, Except.pure, Except.ok.injEq] at h4
    subst h4
    exact hstep n s1 _ (Nat.lt_succ_self n)
      (ih (fun i s s1 hi => hstep i s s1 (Nat.lt_succ_of_lt hi)) s1 h1) h3

theorem alloc_sized (n : ℕ) : (PMTInfo.alloc n : PMTInfo R).Sized n := by
  simp [PMTInfo.alloc, PMTInfo.Sized]

theorem alloc_at (n k : ℕ) (hk : k < n) : (PMTInfo.alloc n : PMTInfo R).At k zeroRecord := by
  simp [PMTInfo.alloc, PMTInfo.At, zeroRecord, List.getElem?_replicate, hk]

theorem setRecord_sized (v : PMTInfo R) (n k : ℕ) (r : PMTRecord R) (hv : v.Sized n) :
    (v.setRecord k r).Sized n := by
  simpa [PMTInfo.Sized, PMTInfo.setRecord] using hv

theorem setRecord_at_self (v : PMTInfo R) (n k : ℕ) (r : PMTRecord R) (hv : v.Sized n)
    (hk : k < n) : (v.setRecord k r).At k r := by
  obtain ⟨h1, h2, h3, h4, h5, h6, h7⟩ := hv
  simp [PMTInfo.At, PMTInfo.setRecord, *]

theorem setRecord_at_ne (v : PMTInfo R) (k j : ℕ) (r s : PMTRecord R) (hjk : j ≠ k) :
    (v.setRecord k r).At j s ↔ v.At j s := by
  simp [PMTInfo.At, PMTInfo.setRecord, List.getElem?_set_ne (Ne.symm hjk)]

theorem barrelStep_ok_iff (m : Libm R) (cols rows : ℕ) (pmt_radius topbot_offset pmt_space : R)
    (col row : ℕ) (v w : PMTInfo R) (n : ℕ) (hv : v.Sized n) :
    barrelStep m cols rows pmt_radius topbot_offset pmt_space col row v = .ok w ↔
      (row + col * rows % SIZE_RANGE) % SIZE_RANGE < n ∧
      w = v.setRecord ((row + col * rows % SIZE_RANGE) % SIZE_RANGE)
        (barrelRecord m cols rows pmt_radius topbot_offset pmt_space col row) := by
  obtain ⟨h1, h2, h3, h4, h5, h6, h7⟩ := hv
  simp only [barrelStep, bind_ok_iff, vset_ok_iff, pure, Except.pure, Except.ok.injEq,
    PMTInfo.setRecord, barrelRecord]
  generalize (row + col * rows % SIZE_RANGE) % SIZE_RANGE = idx
  constructor
  · rintro ⟨_, ⟨hx, rfl⟩, _, ⟨hy, rfl⟩, _, ⟨hz, rfl⟩, _, ⟨hdx, rfl⟩, _, ⟨hdy, rfl⟩,
      _, ⟨hdz, rfl⟩, _, ⟨ht, rfl⟩, rfl⟩
    exact ⟨by omega, rfl⟩
  · rintro ⟨hlt, rfl⟩
    exact ⟨_, ⟨by omega, rfl⟩, _, ⟨by omega, rfl⟩, _, ⟨by omega, rfl⟩, _, ⟨by omega, rfl⟩,
      _, ⟨by omega, rfl⟩, _, ⟨by omega, rfl⟩, _, ⟨by omega, rfl⟩, rfl⟩

/-- The end-cap step writes the top record at `idx`, then the bottom record at `idx + 1`
except for `dir_y`, whose second write goes to `idx` again. -/
theorem endcapStep_ok_iff (cols rows : ℕ) (topbot_offset pmt_space : R) (i : ℕ) (p : ℤ × ℤ)
    (v w : PMTInfo R) (n : ℕ) (hv : v.Sized n) :
    endcapStep cols rows topbot_offset pmt_space i p v = .ok w ↔
      (rows * cols % SIZE_RANGE + i * 2 % SIZE_RANGE) % SIZE_RANGE < n ∧
      ((rows * cols % SIZE_RANGE + i * 2 % SIZE_RANGE) % SIZE_RANGE + 1) % SIZE_RANGE < n ∧
      w = { (v.setRecord ((rows * cols % SIZE_RANGE + i * 2 % SIZE_RANGE) % SIZE_RANGE)
              (topRecord topbot_offset pmt_space p)).setRecord
              (((rows * cols % SIZE_RANGE + i * 2 % SIZE_RANGE) % SIZE_RANGE + 1) % SIZE_RANGE)
              (botRecord topbot_offset pmt_space p) with
            dir_y := (v.dir_y.set
              ((rows * cols % SIZE_RANGE + i * 2 % SIZE_RANGE) % SIZE_RANGE) 0).set
              ((rows * cols % SIZE_RANGE + i * 2 % SIZE_RANGE) % SIZE_RANGE) 0 } := by
  obtain ⟨h1, h2, h3, h4, h5, h6, h7⟩ := hv
  simp only [endcapStep, bind_ok_iff, vset_ok_iff, pure, Except.pure, Except.ok.injEq,
    PMTInfo.setRecord, topRecord, botRecord]
  generalize (rows * cols % SIZE_RANGE + i * 2 % SIZE_RANGE) % SIZE_RANGE = idx
  generalize (idx + 1) % SIZE_RANGE = idx1
  constructor
  · rintro ⟨_, ⟨hx, rfl⟩, _, ⟨hy, rfl⟩, _, ⟨hz, rfl⟩, _, ⟨hdy, rfl⟩, _, ⟨hdx, rfl⟩,
      _, ⟨hdz, rfl⟩, _, ⟨ht, rfl⟩, _, ⟨hx1, rfl⟩, _, ⟨hy1, rfl⟩, _, ⟨hz1, rfl⟩,
      _, ⟨hdy1, rfl⟩, _, ⟨hdx1, rfl⟩, _, ⟨hdz1, rfl⟩, _, ⟨ht1, rfl⟩, rfl⟩
    simp only [List.length_set] at hx1
    exact ⟨by omega, by omega, rfl⟩
  · rintro ⟨hlt, hlt1, rfl⟩
    refine ⟨_, ⟨by omega, rfl⟩, _, ⟨by omega, rfl⟩, _, ⟨by omega, rfl⟩, _, ⟨by omega, rfl⟩,
      _, ⟨by omega, rfl⟩, _, ⟨by omega, rfl⟩, _, ⟨by omega, rfl⟩,
      _, ⟨?_, rfl⟩, _, ⟨?_, rfl⟩, _, ⟨?_, rfl⟩, _, ⟨?_, rfl⟩,
      _, ⟨?_, rfl⟩, _, ⟨?_, rfl⟩, _, ⟨?_, rfl⟩, rfl⟩ <;>
    simp only [List.length_set] <;> omega

theorem no_wrap (cols rows n : ℕ)
    (hb : ∀ col < cols, ∀ row < rows,
      (row + col * rows % SIZE_RANGE) % SIZE_RANGE < num_pmts cols rows n)
    (he : ∀ i < n,
      (rows * cols % SIZE_RANGE + i * 2 % SIZE_RANGE) % SIZE_RANGE < num_pmts cols rows n ∧
      ((rows * cols % SIZE_RANGE + i * 2 % SIZE_RANGE) % SIZE_RANGE + 1) % SIZE_RANGE
        < num_pmts cols rows n) :
    cols * rows + 2 * n < SIZE_RANGE ∧ num_pmts cols rows n = cols * rows + 2 * n := by
  have hW : SIZE_RANGE = 18446744073709551616 := by norm_num [SIZE_RANGE]
  have hN : num_pmts cols rows n < SIZE_RANGE := Nat.mod_lt _ (by rw [hW]; norm_num)
  have key : cols * rows + 2 * n < SIZE_RANGE := by
    by_contra hcon
    push_neg at hcon
    by_cases hcr : SIZE_RANGE ≤ cols * rows
    · have hrows : 0 < rows := by
        rcases Nat.eq_zero_or_pos rows with h | h
        · subst h; rw [hW] at hcr; simp at hcr
        · exact h
      have hcol : (SIZE_RANGE - 1) / rows < cols := by
        rw [Nat.div_lt_iff_lt_mul hrows]; omega
      have h := hb _ hcol _ (Nat.mod_lt (SIZE_RANGE - 1) hrows)
      rw [Nat.add_mod_mod, Nat.mod_add_div'] at h
      rw [hW] at h hN
      omega
    · push_neg at hcr
      have hi : (SIZE_RANGE - 1 - cols * rows) / 2 < n := by
        rw [hW] at hcon hcr ⊢; omega
      obtain ⟨h1, h2⟩ := he _ hi
      rw [Nat.mul_comm rows cols] at h1 h2
      generalize cols * rows = cr at *
      rw [hW] at h1 h2 hN hcon hcr hi
      omega
  refine ⟨key, ?_⟩
  unfold num_pmts
  rw [hW] at key ⊢
  generalize cols * rows = cr at *
  omega

theorem SIZE_RANGE_eq : SIZE_RANGE = 18446744073709551616 := by norm_num [SIZE_RANGE]

theorem barrel_sized_bounds (m : Libm R) (cols rows : ℕ)
    (pmt_radius topbot_offset pmt_space : R) (v0 v : PMTInfo R) (n : ℕ) (h0 : v0.Sized n)
    (h : barrel m cols rows pmt_radius topbot_offset pmt_space v0 = .ok v) :
    v.Sized n ∧ ∀ col < cols, ∀ row < rows,
      (row + col * rows % SIZE_RANGE) % SIZE_RANGE < n := by
  have hstep : ∀ (col : ℕ) (s : PMTInfo R) (row : ℕ) (s1 : PMTInfo R), s.Sized n →
      barrelStep m cols rows pmt_radius topbot_offset pmt_space col row s = .ok s1 →
      s1.Sized n := by
    intro col s row s1 hs hb
    rw [barrelStep_ok_iff _ _ _ _ _ _ _ _ _ _ n hs] at hb
    rw [hb.2]
    exact setRecord_sized _ _ _ _ hs
  have hinner : ∀ (s : PMTInfo R) (col : ℕ) (s1 : PMTInfo R), s.Sized n →
      (List.range rows).foldlM
        (fun v row => barrelStep m cols rows pmt_radius topbot_offset pmt_space col row v) s
        = .ok s1 → s1.Sized n := by
    intro s col s1 hs hf
    exact (foldlM_ok_visit _ (fun s => s.Sized n) (hstep col) _ _ _ hs hf).1
  obtain ⟨hv, hvisit⟩ := foldlM_ok_visit _ (fun s => s.Sized n) hinner _ _ _ h0 h
  refine ⟨hv, ?_⟩
  intro col hcol row hrow
  obtain ⟨s1, s2, hs1, hf⟩ := hvisit col (List.mem_range.mpr hcol)
  obtain ⟨t1, t2, ht1, hb⟩ :=
    (foldlM_ok_visit _ (fun s => s.Sized n) (hstep col) _ _ _ hs1 hf).2 row
      (List.mem_range.mpr hrow)
  rw [barrelStep_ok_iff _ _ _ _ _ _ _ _ _ _ n ht1] at hb
  exact hb.1

theorem endcap_sized_bounds (cols rows : ℕ) (topbot_offset pmt_space : R)
    (topbot : List (ℤ × ℤ)) (v0 v : PMTInfo R) (n : ℕ) (h0 : v0.Sized n)
    (h : endcap cols rows topbot_offset pmt_space topbot v0 = .ok v) :
    v.Sized n ∧ ∀ i < topbot.length,
      (rows * cols % SIZE_RANGE + i * 2 % SIZE_RANGE) % SIZE_RANGE < n ∧
      ((rows * cols % SIZE_RANGE + i * 2 % SIZE_RANGE) % SIZE_RANGE + 1) % SIZE_RANGE < n := by
  have hstep : ∀ (s : PMTInfo R) (i : ℕ) (s1 : PMTInfo R), s.Sized n →
      (match topbot.get? i with
        | some p => endcapStep cols rows topbot_offset pmt_space i p s
        | none => .error .undefined) = .ok s1 →
      s1.Sized n ∧
      (rows * cols % SIZE_RANGE + i * 2 % SIZE_RANGE) % SIZE_RANGE < n ∧
      ((rows * cols % SIZE_RANGE + i * 2 % SIZE_RANGE) % SIZE_RANGE + 1) % SIZE_RANGE < n := by
    intro s i s1 hs hb
    cases hp : topbot.get? i with
    | none => rw [hp] at hb; cases hb
    | some p =>
      rw [hp] at hb
      simp only [] at hb
      rw [endcapStep_ok_iff _ _ _ _ _ _ _ _ n hs] at hb
      obtain ⟨hb1, hb2, rfl⟩ := hb
      refine ⟨?_, hb1, hb2⟩
      obtain ⟨h1, h2, h3, h4, h5, h6, h7⟩ := hs
      simp [PMTInfo.Sized, PMTInfo.setRecord, *]
  obtain ⟨hv, hvisit⟩ :=
    foldlM_ok_visit _ (fun s => s.Sized n) (fun s i s1 hs hb => (hstep s i s1 hs hb).1) _ _ _ h0 h
  refine ⟨hv, ?_⟩
  intro i hi
  obtain ⟨s1, s2, hs1, hf⟩ := hvisit i (List.mem_range.mpr hi)
  exact (hstep s1 i s2 hs1 hf).2

theorem barrelStep_inv (m : Libm R) (cols rows : ℕ) (pmt_radius topbot_offset pmt_space : R)
    (n : ℕ) (hcr : cols * rows ≤ n) (hn : n < SIZE_RANGE) (col row : ℕ) (hcol : col < cols)
    (hrow : row < rows) (s s1 : PMTInfo R)
    (hs : BarrelInv m cols rows pmt_radius topbot_offset pmt_space n (col * rows + row) s)
    (hb : barrelStep m cols rows pmt_radius topbot_offset pmt_space col row s = .ok s1) :
    BarrelInv m cols rows pmt_radius topbot_offset pmt_space n (col * rows + (row + 1)) s1 := by
  obtain ⟨hsz, hlo, hhi⟩ := hs
  rw [barrelStep_ok_iff _ _ _ _ _ _ _ _ _ _ n hsz] at hb
  have hle : (col + 1) * rows ≤ cols * rows := Nat.mul_le_mul_right rows hcol
  have hidx : (row + col * rows % SIZE_RANGE) % SIZE_RANGE = col * rows + row := by
    rw [Nat.add_mod_mod, Nat.mod_eq_of_lt]
    · exact Nat.add_comm _ _
    · rw [Nat.add_mul] at hle; omega
  rw [hidx] at hb
  obtain ⟨hlt, rfl⟩ := hb
  refine ⟨setRecord_sized _ _ _ _ hsz, ?_, ?_⟩
  · intro k hk
    by_cases hkk : k = col * rows + row
    · subst hkk
      have h1 : (col * rows + row) / rows = col := by
        rw [Nat.add_comm, Nat.add_mul_div_right _ _ (by omega), Nat.div_eq_of_lt hrow,
          Nat.zero_add]
      have h2 : (col * rows + row) % rows = row := by
        rw [Nat.add_comm, Nat.add_mul_mod_self_right, Nat.mod_eq_of_lt hrow]
      rw [h1, h2]
      exact setRecord_at_self _ _ _ _ hsz hlt
    · rw [setRecord_at_ne _ _ _ _ _ hkk]
      exact hlo k (by omega)
  · intro k hk hkn
    rw [setRecord_at_ne _ _ _ _ _ (by omega)]
    exact hhi k (by omega) hkn

theorem barrel_content (m : Libm R) (cols rows : ℕ) (pmt_radius topbot_offset pmt_space : R)
    (n : ℕ) (hcr : cols * rows ≤ n) (hn : n < SIZE_RANGE) (v : PMTInfo R)
    (h : barrel m cols rows pmt_radius topbot_offset pmt_space (PMTInfo.alloc n) = .ok v) :
    BarrelInv m cols rows pmt_radius topbot_offset pmt_space n (cols * rows) v := by
  refine range_foldlM_inv _
    (fun col s => BarrelInv m cols rows pmt_radius topbot_offset pmt_space n (col * rows) s)
    cols _ ?_ ?_ v h
  · exact ⟨alloc_sized n, by intro k hk; simp at hk, fun k _ hk => alloc_at n k hk⟩
  · intro col s s1 hcol hs hf
    have := range_foldlM_inv _
      (fun row s =>
        BarrelInv m cols rows pmt_radius topbot_offset pmt_space n (col * rows + row) s)
      rows s (by simpa using hs)
      (fun row t t1 hrow ht hb => barrelStep_inv m cols rows pmt_radius topbot_offset pmt_space
        n hcr hn col row hcol hrow t t1 ht hb) s1 hf
    simpa [Nat.add_mul] using this

theorem endcapStep_inv (cols rows : ℕ) (topbot_offset pmt_space : R) (topbot : List (ℤ × ℤ))
    (v0 : PMTInfo R) (n : ℕ) (hn : n < SIZE_RANGE) (hcr : n = cols * rows + 2 * topbot.length)
    (i : ℕ) (hi : i < topbot.length) (s s1 : PMTInfo R)
    (hs : EndcapInv topbot_offset pmt_space topbot v0 (cols * rows) n i s)
    (hb : (match topbot.get? i with
        | some p => endcapStep cols rows topbot_offset pmt_space i p s
        | none => .error .undefined) = .ok s1) :
    EndcapInv topbot_offset pmt_space topbot v0 (cols * rows) n (i + 1) s1 := by
  obtain ⟨hsz, hlo, hmid, hhi⟩ := hs
  cases hp : topbot.get? i with
  | none => rw [hp] at hb; cases hb
  | some p =>
    rw [hp] at hb
    simp only [] at hb
    rw [endcapStep_ok_iff _ _ _ _ _ _ _ _ n hsz] at hb
    have hidx : (rows * cols % SIZE_RANGE + i * 2 % SIZE_RANGE) % SIZE_RANGE
        = cols * rows + 2 * i := by
      rw [← Nat.add_mod, Nat.mul_comm rows cols, Nat.mul_comm i 2, Nat.mod_eq_of_lt]
      omega
    have hidx1 : (cols * rows + 2 * i + 1) % SIZE_RANGE = cols * rows + 2 * i + 1 := by
      rw [Nat.mod_eq_of_lt]; omega
    rw [hidx, hidx1] at hb
    obtain ⟨hlt, hlt1, rfl⟩ := hb
    have hz := hhi (cols * rows + 2 * i + 1) (by omega) hlt1
    obtain ⟨h1, h2, h3, h4, h5, h6, h7⟩ := hsz
    have hne : cols * rows + 2 * i ≠ cols * rows + 2 * i + 1 := by omega
    have hother : ∀ k, k ≠ cols * rows + 2 * i → k ≠ cols * rows + 2 * i + 1 → ∀ r,
        PMTInfo.At
          { (s.setRecord (cols * rows + 2 * i)
              (topRecord topbot_offset pmt_space p)).setRecord (cols * rows + 2 * i + 1)
              (botRecord topbot_offset pmt_space p) with
            dir_y := (s.dir_y.set (cols * rows + 2 * i) 0).set (cols * rows + 2 * i) 0 } k r
          ↔ s.At k r := by
      intro k hk hk1 r
      simp [PMTInfo.At, PMTInfo.setRecord, List.getElem?_set_ne (Ne.symm hk),
        List.getElem?_set_ne (Ne.symm hk1)]
    refine ⟨?_, ?_, ?_, ?_⟩
    · simp [PMTInfo.Sized, PMTInfo.setRecord, *]
    · intro k hk r
      rw [hother k (by omega) (by omega)]
      exact hlo k hk r
    · intro j hj q hq
      by_cases hji : j = i
      · subst hji
        rw [List.get?_eq_getElem?] at hp
        rw [hp] at hq
        cases hq
        constructor
        · simp [PMTInfo.At, PMTInfo.setRecord, topRecord, botRecord,
            List.getElem?_set_ne hne.symm, List.getElem?_set_ne hne, *]
        · obtain ⟨-, -, -, -, hzy, -, -⟩ := hz
          simp only [zeroRecord] at hzy
          simp only [PMTInfo.At, PMTInfo.setRecord, topRecord, botRecord]
          refine ⟨?_, ?_, ?_, ?_, ?_, ?_, ?_⟩
          all_goals first
            | rw [List.getElem?_set_self (by simp only [List.length_set]; omega)]
            | (rw [List.getElem?_set_ne hne, List.getElem?_set_ne hne]; exact hzy)
      · have hjlt : j < i := by omega
        rw [hother _ (by omega) (by omega), hother _ (by omega) (by omega)]
        exact hmid j hjlt q hq
    · intro k hk hkn
      rw [hother k (by omega) (by omega)]
      exact hhi k (by omega) hkn

theorem endcap_content (cols rows : ℕ) (topbot_offset pmt_space : R) (topbot : List (ℤ × ℤ))
    (v0 v : PMTInfo R) (n : ℕ) (hn : n < SIZE_RANGE)
    (hcr : n = cols * rows + 2 * topbot.length) (h0 : v0.Sized n)
    (hz : ∀ k, cols * rows ≤ k → k < n → v0.At k zeroRecord)
    (h : endcap cols rows topbot_offset pmt_space topbot v0 = .ok v) :
    EndcapInv topbot_offset pmt_space topbot v0 (cols * rows) n topbot.length v := by
  refine range_foldlM_inv _
    (fun i s => EndcapInv topbot_offset pmt_space topbot v0 (cols * rows) n i s)
    topbot.length _ ?_ ?_ v h
  · exact ⟨h0, fun k _ r => Iff.rfl, by intro j hj; simp at hj, by simpa using hz⟩
  · intro i s s1 hi hs hb
    exact endcapStep_inv cols rows topbot_offset pmt_space topbot v0 n hn hcr i hi s s1 hs hb

theorem layout_ok_iff (m : Libm R) (photocathode_coverage photocathode_radius : R)
    (steel_thickness shield_thickness detector_size : R) (g : Locals R) :
    layout m photocathode_coverage photocathode_radius steel_thickness shield_thickness
      detector_size = .ok g ↔
    g.photocathode_radius = photocathode_radius ∧
    g.photocathode_area = photocathode_area m g.photocathode_radius ∧
    g.cable_radius = cable_radius steel_thickness shield_thickness detector_size ∧
    g.pmt_radius = pmt_radius steel_thickness shield_thickness detector_size ∧
    g.topbot_offset = topbot_offset shield_thickness detector_size ∧
    g.surface_area = surface_area m g.pmt_radius g.topbot_offset ∧
    required_pmts photocathode_coverage g.surface_area g.photocathode_area
      = .ok g.required_pmts ∧
    pmt_space m g.surface_area g.required_pmts = .ok g.pmt_space ∧
    cols m g.pmt_radius g.pmt_space = .ok g.cols ∧
    rows g.topbot_offset g.pmt_space = .ok g.rows ∧
    rdim g.pmt_radius g.pmt_space = .ok g.rdim ∧
    topbot m g.pmt_radius g.pmt_space g.rdim = .ok g.topbot ∧
    g.num_pmts = num_pmts g.cols g.rows g.topbot.length ∧
    (∃ v, barrel m g.cols g.rows g.pmt_radius g.topbot_offset g.pmt_space
        (PMTInfo.alloc g.num_pmts) = .ok v ∧
      endcap g.cols g.rows g.topbot_offset g.pmt_space g.topbot v = .ok g.pmt) ∧
    cable m g.cols g.cable_radius = .ok (g.cable_x, g.cable_y) := by
  simp only [layout, bind_ok_iff, pure, Except.pure, Except.ok.injEq]
  constructor
  · rintro ⟨rp, h2, ps, h3, c, h4, r, h5, rd, h6, tb, h7, v1, h8, v2, h9, cb, h10, rfl⟩
    exact ⟨rfl, rfl, rfl, rfl, rfl, rfl, h2, h3, h4, h5, h6, h7, rfl, ⟨v1, h8, h9⟩, h10⟩
  · rintro ⟨e1, e2, e3, e4, e5, e6, h2, h3, h4, h5, h6, h7, e8, ⟨v1, h8, h9⟩, h10⟩
    obtain ⟨a1, a2, a3, a4, a5, a6, a7, a8, a9, a10, a11, a12, a13, a14, a15, a16⟩ := g
    simp only at e1 e2 e3 e4 e5 e6 h2 h3 h4 h5 h6 h7 e8 h8 h9 h10
    subst e1 e2 e3 e4 e5 e6 e8
    exact ⟨_, h2, _, h3, _, h4, _, h5, _, h6, _, h7, _, h8, _, h9, _, h10, rfl⟩

theorem layout_records (m : Libm R) (photocathode_coverage photocathode_radius : R)
    (steel_thickness shield_thickness detector_size : R) (g : Locals R)
    (h : layout m photocathode_coverage photocathode_radius steel_thickness shield_thickness
      detector_size = .ok g) :
    g.cols * g.rows + 2 * g.topbot.length < SIZE_RANGE ∧
    g.num_pmts = g.cols * g.rows + 2 * g.topbot.length ∧
    g.pmt.Sized g.num_pmts ∧
    (∀ col < g.cols, ∀ row < g.rows, g.pmt.At (row + col * g.rows)
      (barrelRecord m g.cols g.rows g.pmt_radius g.topbot_offset g.pmt_space col row)) ∧
    (∀ k p, g.topbot[k]? = some p →
      g.pmt.At (g.rows * g.cols + 2 * k) (topRecord g.topbot_offset g.pmt_space p) ∧
      g.pmt.At (g.rows * g.cols + 2 * k + 1) (botRecord g.topbot_offset g.pmt_space p)) := by
  rw [layout_ok_iff] at h
  obtain ⟨-, -, -, -, -, -, -, -, -, -, -, -, hnum, ⟨v, hbar, hend⟩, -⟩ := h
  obtain ⟨hvs, hbb⟩ := barrel_sized_bounds m _ _ _ _ _ _ _ _ (alloc_sized g.num_pmts) hbar
  obtain ⟨hgs, heb⟩ := endcap_sized_bounds _ _ _ _ _ _ _ _ hvs hend
  rw [hnum] at hbb heb
  obtain ⟨hlt, hN⟩ := no_wrap g.cols g.rows g.topbot.length hbb heb
  rw [← hnum] at hN
  have hNlt : g.num_pmts < SIZE_RANGE := by omega
  obtain ⟨-, hblo, hbhi⟩ := barrel_content m g.cols g.rows g.pmt_radius g.topbot_offset
    g.pmt_space g.num_pmts (by omega) hNlt v hbar
  obtain ⟨-, helo, hemid, -⟩ := endcap_content g.cols g.rows g.topbot_offset g.pmt_space
    g.topbot v g.pmt g.num_pmts hNlt hN hvs hbhi hend
  refine ⟨hlt, hN, hgs, ?_, ?_⟩
  · intro col hcol row hrow
    have hle : (col + 1) * g.rows ≤ g.cols * g.rows := Nat.mul_le_mul_right g.rows hcol
    rw [Nat.add_mul] at hle
    have hk : row + col * g.rows < g.cols * g.rows := by omega
    have h1 : (row + col * g.rows) / g.rows = col := by
      rw [Nat.add_mul_div_right _ _ (by omega), Nat.div_eq_of_lt hrow, Nat.zero_add]
    have h2 : (row + col * g.rows) % g.rows = row := by
      rw [Nat.add_mul_mod_self_right, Nat.mod_eq_of_lt hrow]
    have := hblo _ hk
    rw [h1, h2] at this
    exact (helo _ hk _).mpr this
  · intro k p hp
    have hk : k < g.topbot.length := by
      by_contra hcon
      rw [List.getElem?_eq_none (by omega)] at hp
      cases hp
    rw [Nat.mul_comm g.rows g.cols]
    exact hemid k hk p hp

theorem cable_ok (m : Libm R) (cols : ℕ) (cable_radius : R) (c : List R × List R)
    (h : cable m cols cable_radius = .ok c) :
    c.1.length = cols ∧ c.2.length = cols ∧
    ∀ col < cols,
      c.1[col]? = some (cable_radius * m.cos ((col : R) * 2 * m.pi / (cols : R))) ∧
      c.2[col]? = some (cable_radius * m.sin ((col : R) * 2 * m.pi / (cols : R))) := by
  have := range_foldlM_inv _
    (fun i (s : List R × List R) => s.1.length = cols ∧ s.2.length = cols ∧
      ∀ col < i,
        s.1[col]? = some (cable_radius * m.cos ((col : R) * 2 * m.pi / (cols : R))) ∧
        s.2[col]? = some (cable_radius * m.sin ((col : R) * 2 * m.pi / (cols : R))))
    cols _ ⟨by simp, by simp, by intro k hk; simp at hk⟩ ?_ c h
  · exact this
  · intro i s s1 hi ⟨hl1, hl2, hc⟩ hb
    simp only [bind_ok_iff, vset_ok_iff, pure, Except.pure, Except.ok.injEq] at hb
    obtain ⟨_, ⟨hx, rfl⟩, _, ⟨hy, rfl⟩, rfl⟩ := hb
    refine ⟨by simpa using hl1, by simpa using hl2, ?_⟩
    intro col hcol
    by_cases hci : col = i
    · subst hci
      exact ⟨List.getElem?_set_self hx, List.getElem?_set_self hy⟩
    · have hne : i ≠ col := Ne.symm hci
      simp only [List.getElem?_set_ne hne]
      exact hc col (by omega)

theorem Run_bind_ok_iff {α β : Type} (x : Run R α) (f : α → Run R β) (db db2 : DB R) (b : β) :
    Run.bind x f db = (.ok b, db2) ↔ ∃ a db1, x db = (.ok a, db1) ∧ f a db1 = (.ok b, db2) := by
  unfold Run.bind
  rcases hx : x db with ⟨_ | a, db1⟩
  · simp
  · constructor
    · intro h; exact ⟨a, db1, rfl, h⟩
    · rintro ⟨a1, d1, h1, h2⟩
      cases h1
      exact h2

theorem Run_bind_error_iff {α β : Type} (x : Run R α) (f : α → Run R β) (db db2 : DB R)
    (e : Err) :
    Run.bind x f db = (.error e, db2) ↔
      x db = (.error e, db2) ∨ ∃ a db1, x db = (.ok a, db1) ∧ f a db1 = (.error e, db2) := by
  unfold Run.bind
  rcases hx : x db with ⟨_ | a, db1⟩
  · simp
  · constructor
    · intro h; exact Or.inr ⟨a, db1, rfl, h⟩
    · rintro (h | ⟨a1, d1, h1, h2⟩)
      · cases h
      · cases h1
        exact h2

theorem GetD_ok_iff (l : DBLink) (f : String) (db db1 : DB R) (a : R) :
    GetD l f db = (.ok a, db1) ↔ db ⟨l.table, l.index, f⟩ = some (.D a) ∧ db1 = db := by
  unfold GetD
  split
  · next v hv => rw [hv]; simp [eq_comm]
  · next hne => simpa using fun h => absurd h (hne a)

theorem GetS_ok_iff (l : DBLink) (f : String) (db db1 : DB R) (a : String) :
    GetS l f db = (.ok a, db1) ↔ db ⟨l.table, l.index, f⟩ = some (.S a) ∧ db1 = db := by
  unfold GetS
  split
  · next v hv => rw [hv]; simp [eq_comm]
  · next hne => simpa using fun h => absurd h (hne a)

theorem GetDArray_ok_iff (l : DBLink) (f : String) (db db1 : DB R) (a : List R) :
    GetDArray l f db = (.ok a, db1) ↔ db ⟨l.table, l.index, f⟩ = some (.DArray a) ∧ db1 = db := by
  unfold GetDArray
  split
  · next v hv => rw [hv]; simp [eq_comm]
  · next hne => simpa using fun h => absurd h (hne a)

theorem GetD_error_iff (l : DBLink) (f : String) (db db1 : DB R) (e : Err) :
    GetD l f db = (.error e, db1) ↔
      (∀ v, db ⟨l.table, l.index, f⟩ ≠ some (.D v)) ∧ e = .notFound l.table l.index f ∧
        db1 = db := by
  unfold GetD
  split
  · next v hv => rw [hv]; simp
  · next hne => simpa [eq_comm] using fun _ _ v => hne v

theorem GetS_error_iff (l : DBLink) (f : String) (db db1 : DB R) (e : Err) :
    GetS l f db = (.error e, db1) ↔
      (∀ v, db ⟨l.table, l.index, f⟩ ≠ some (.S v)) ∧ e = .notFound l.table l.index f ∧
        db1 = db := by
  unfold GetS
  split
  · next v hv => rw [hv]; simp
  · next hne => simpa [eq_comm] using fun _ _ v => hne v

theorem GetDArray_error_iff (l : DBLink) (f : String) (db db1 : DB R) (e : Err) :
    GetDArray l f db = (.error e, db1) ↔
      (∀ v, db ⟨l.table, l.index, f⟩ ≠ some (.DArray v)) ∧ e = .notFound l.table l.index f ∧
        db1 = db := by
  unfold GetDArray
  split
  · next v hv => rw [hv]; simp
  · next hne => simpa [eq_comm] using fun _ _ v => hne v

theorem LoadTemplate_error_iff (Load : String → DB R → ℤ × DB R) (n : String) (db db1 : DB R)
    (e : Err) : LoadTemplate Load n db = (.error e, db1) ↔ False := by
  simp [LoadTemplate]

theorem dieIf_error_iff (c : Prop) [Decidable c] (msg : String) (db db1 : DB R) (e : Err) :
    (if c then Die msg else (pure () : Run R Unit)) db = (.error e, db1) ↔
      c ∧ e = .die msg ∧ db1 = db := by
  by_cases hc : c
  · simp [hc, Die, eq_comm]
  · simp [hc, pure]

theorem lift_error_iff {α : Type} (x : Except Err α) (db db1 : DB R) (e : Err) :
    (Run.lift x : Run R α) db = (.error e, db1) ↔ x = .error e ∧ db1 = db := by
  simp [Run.lift, eq_comm]

theorem SetDArray_error_iff (t f : String) (v : List R) (db db1 : DB R) (e : Err) :
    SetDArray t f v db = (.error e, db1) ↔ False := by
  simp [SetDArray]

theorem SetIArray_error_iff (t f : String) (v : List ℤ) (db db1 : DB R) (e : Err) :
    SetIArray t f v db = (.error e, db1) ↔ False := by
  simp [SetIArray]

theorem SetI_error_iff (t i f : String) (v : ℤ) (db db1 : DB R) (e : Err) :
    SetI t i f v db = (.error e, db1) ↔ False := by
  simp [SetI]

theorem LoadTemplate_ok_iff (Load : String → DB R → ℤ × DB R) (n : String) (db db1 : DB R)
    (a : ℤ) :
    LoadTemplate Load n db = (.ok a, db1) ↔ a = (Load n db).1 ∧ db1 = (Load n db).2 := by
  simp [LoadTemplate, eq_comm]

theorem dieIf_ok_iff (c : Prop) [Decidable c] (msg : String) (db db1 : DB R) (u : Unit) :
    (if c then Die msg else pure ()) db = (.ok u, db1) ↔ ¬c ∧ db1 = db := by
  by_cases hc : c
  · simp [hc, Die]
  · simp [hc, pure, eq_comm]

theorem lift_ok_iff {α : Type} (x : Except Err α) (db db1 : DB R) (a : α) :
    Run.lift x db = (.ok a, db1) ↔ x = .ok a ∧ db1 = db := by
  simp [Run.lift, eq_comm]

theorem SetDArray_ok_iff (t f : String) (v : List R) (db db1 : DB R) (u : Unit) :
    SetDArray t f v db = (.ok u, db1) ↔ db1 = db.write ⟨t, "", f⟩ (.DArray v) := by
  simp [SetDArray, eq_comm]

theorem SetIArray_ok_iff (t f : String) (v : List ℤ) (db db1 : DB R) (u : Unit) :
    SetIArray t f v db = (.ok u, db1) ↔ db1 = db.write ⟨t, "", f⟩ (.IArray v) := by
  simp [SetIArray, eq_comm]

theorem SetI_ok_iff (t i f : String) (v : ℤ) (db db1 : DB R) (u : Unit) :
    SetI t i f v db = (.ok u, db1) ↔ db1 = db.write ⟨t, i, f⟩ (.I v) := by
  simp [SetI, eq_comm]

theorem DefineDetector_ok_iff (m : Libm R) (Load : String → DB R → ℤ × DB R) (det : DBLink)
    (db db2 : DB R) :
    DefineDetector m Load det db = (.ok (), db2) ↔
    ∃ cov pmt_type rho_edge pr st sh ds g,
      db ⟨det.table, det.index, "photocathode_coverage"⟩ = some (.D cov) ∧
      (Load geo_template db).1 ≠ 0 ∧
      (Load geo_template db).2 ⟨"GEO", "inner_pmts", "pmt_type"⟩ = some (.S pmt_type) ∧
      (Load geo_template db).2 ⟨"PMT", pmt_type, "rho_edge"⟩ = some (.DArray rho_edge) ∧
      photocathode_radius rho_edge = .ok pr ∧
      (Load geo_template db).2 ⟨"GEO", "shield", "steel_thickness"⟩ = some (.D st) ∧
      (Load geo_template db).2 ⟨"GEO", "shield", "shield_thickness"⟩ = some (.D sh) ∧
      (Load geo_template db).2 ⟨"GEO", "shield", "detector_size"⟩ = some (.D ds) ∧
      layout m cov pr st sh ds = .ok g ∧
      db2 = published g (Load geo_template db).2 := by
  unfold DefineDetector
  simp only [bind, Run_bind_ok_iff, GetD_ok_iff, GetS_ok_iff, GetDArray_ok_iff,
    LoadTemplate_ok_iff, dieIf_ok_iff, lift_ok_iff, SetDArray_ok_iff, SetIArray_ok_iff,
    SetI_ok_iff, GetLink, published]
  constructor
  · rintro ⟨cov, _, ⟨h1, rfl⟩, _, _, ⟨rfl, rfl⟩, _, _, ⟨h2, rfl⟩, pt, _, ⟨h3, rfl⟩,
      rho, _, ⟨h4, rfl⟩, pr, _, ⟨h5, rfl⟩, st, _, ⟨h6, rfl⟩, sh, _, ⟨h7, rfl⟩,
      ds, _, ⟨h8, rfl⟩, g, _, ⟨h9, rfl⟩, h10⟩
    refine ⟨cov, pt, rho, pr, st, sh, ds, g, h1, h2, h3, h4, h5, h6, h7, h8, h9, ?_⟩
    simp only [exists_eq_left, exists_const] at h10
    exact h10
  · rintro ⟨cov, pt, rho, pr, st, sh, ds, g, h1, h2, h3, h4, h5, h6, h7, h8, h9, rfl⟩
    refine ⟨cov, _, ⟨h1, rfl⟩, _, _, ⟨rfl, rfl⟩, (), _, ⟨h2, rfl⟩, pt, _, ⟨h3, rfl⟩,
      rho, _, ⟨h4, rfl⟩, pr, _, ⟨h5, rfl⟩, st, _, ⟨h6, rfl⟩, sh, _, ⟨h7, rfl⟩,
      ds, _, ⟨h8, rfl⟩, g, _, ⟨h9, rfl⟩, ?_⟩
    simp only [exists_eq_left, exists_const]

/-- Where a run that stops has stopped, in reading order. -/
theorem DefineDetector_error_cases (m : Libm R) (Load : String → DB R → ℤ × DB R)
    (det : DBLink) (db db2 : DB R) (e : Err)
    (h : DefineDetector m Load det db = (.error e, db2)) :
    ((∀ v, db ⟨det.table, det.index, "photocathode_coverage"⟩ ≠ some (.D v)) ∧
      e = .notFound det.table det.index "photocathode_coverage" ∧ db2 = db) ∨
    ∃ cov, db ⟨det.table, det.index, "photocathode_coverage"⟩ = some (.D cov) ∧
      db2 = (Load geo_template db).2 ∧
      (((Load geo_template db).1 = 0 ∧ e = .die
          "WatchmanDetectorFactory: could not load template Watchman/Watchman.geo") ∨
       ((Load geo_template db).1 ≠ 0 ∧
        (((∀ v, (Load geo_template db).2 ⟨"GEO", "inner_pmts", "pmt_type"⟩ ≠ some (.S v)) ∧
          e = .notFound "GEO" "inner_pmts" "pmt_type") ∨
         ∃ t, (Load geo_template db).2 ⟨"GEO", "inner_pmts", "pmt_type"⟩ = some (.S t) ∧
          (((∀ v, (Load geo_template db).2 ⟨"PMT", t, "rho_edge"⟩ ≠ some (.DArray v)) ∧
            e = .notFound "PMT" t "rho_edge") ∨
           ∃ rho, (Load geo_template db).2 ⟨"PMT", t, "rho_edge"⟩ = some (.DArray rho) ∧
            (photocathode_radius rho = .error e ∨
             ∃ pr, photocathode_radius rho = .ok pr ∧
              (((∀ v, (Load geo_template db).2 ⟨"GEO", "shield", "steel_thickness"⟩
                  ≠ some (.D v)) ∧ e = .notFound "GEO" "shield" "steel_thickness") ∨
               ∃ st, (Load geo_template db).2 ⟨"GEO", "shield", "steel_thickness"⟩
                  = some (.D st) ∧
                (((∀ v, (Load geo_template db).2 ⟨"GEO", "shield", "shield_thickness"⟩
                    ≠ some (.D v)) ∧ e = .notFound "GEO" "shield" "shield_thickness") ∨
                 ∃ sh, (Load geo_template db).2 ⟨"GEO", "shield", "shield_thickness"⟩
                    = some (.D sh) ∧
                  (((∀ v, (Load geo_template db).2 ⟨"GEO", "shield", "detector_size"⟩
                      ≠ some (.D v)) ∧ e = .notFound "GEO" "shield" "detector_size") ∨
                   ∃ ds, (Load geo_template db).2 ⟨"GEO", "shield", "detector_size"⟩
                      = some (.D ds) ∧
                    layout m cov pr st sh ds = .error e)))))))) := by
  unfold DefineDetector at h
  simp only [bind, Run_bind_error_iff, GetD_ok_iff, GetS_ok_iff, GetDArray_ok_iff,
    LoadTemplate_ok_iff, dieIf_ok_iff, lift_ok_iff, SetDArray_ok_iff, SetIArray_ok_iff,
    SetI_ok_iff, GetLink, GetD_error_iff, GetS_error_iff, GetDArray_error_iff,
    LoadTemplate_error_iff, dieIf_error_iff, lift_error_iff, SetDArray_error_iff,
    SetIArray_error_iff, SetI_error_iff, false_or, exists_const, and_false, exists_false,
    or_false] at h
  rcases h with h | ⟨cov, _, ⟨hc, rfl⟩, _, _, ⟨rfl, rfl⟩, h⟩
  · exact Or.inl h
  refine Or.inr ⟨cov, hc, ?_⟩
  rcases h with ⟨h0, rfl, rfl⟩ | ⟨_, ⟨h0, rfl⟩, h⟩
  · exact ⟨rfl, Or.inl ⟨h0, rfl⟩⟩
  rcases h with ⟨h1, rfl, rfl⟩ | ⟨t, _, ⟨h1, rfl⟩, h⟩
  · exact ⟨rfl, Or.inr ⟨h0, Or.inl ⟨h1, rfl⟩⟩⟩
  rcases h with ⟨h2, rfl, rfl⟩ | ⟨rho, _, ⟨h2, rfl⟩, h⟩
  · exact ⟨rfl, Or.inr ⟨h0, Or.inr ⟨t, h1, Or.inl ⟨h2, rfl⟩⟩⟩⟩
  rcases h with ⟨h3, rfl⟩ | ⟨pr, _, ⟨h3, rfl⟩, h⟩
  · exact ⟨rfl, Or.inr ⟨h0, Or.inr ⟨t, h1, Or.inr ⟨rho, h2, Or.inl h3⟩⟩⟩⟩
  rcases h with ⟨h4, rfl, rfl⟩ | ⟨st, _, ⟨h4, rfl⟩, h⟩
  · exact ⟨rfl, Or.inr ⟨h0, Or.inr ⟨t, h1, Or.inr ⟨rho, h2, Or.inr ⟨pr, h3,
      Or.inl ⟨h4, rfl⟩⟩⟩⟩⟩⟩
  rcases h with ⟨h5, rfl, rfl⟩ | ⟨sh, _, ⟨h5, rfl⟩, h⟩
  · exact ⟨rfl, Or.inr ⟨h0, Or.inr ⟨t, h1, Or.inr ⟨rho, h2, Or.inr ⟨pr, h3,
      Or.inr ⟨st, h4, Or.inl ⟨h5, rfl⟩⟩⟩⟩⟩⟩⟩
  rcases h with ⟨h6, rfl, rfl⟩ | ⟨ds, _, ⟨h6, rfl⟩, h7, rfl⟩
  · exact ⟨rfl, Or.inr ⟨h0, Or.inr ⟨t, h1, Or.inr ⟨rho, h2, Or.inr ⟨pr, h3,
      Or.inr ⟨st, h4, Or.inr ⟨sh, h5, Or.inl ⟨h6, rfl⟩⟩⟩⟩⟩⟩⟩⟩
  · exact ⟨rfl, Or.inr ⟨h0, Or.inr ⟨t, h1, Or.inr ⟨rho, h2, Or.inr ⟨pr, h3,
      Or.inr ⟨st, h4, Or.inr ⟨sh, h5, Or.inr ⟨ds, h6, h7⟩⟩⟩⟩⟩⟩⟩⟩

theorem DefineDetector_error_db (m : Libm R) (Load : String → DB R → ℤ × DB R) (det : DBLink)
    (db db2 : DB R) (e : Err) (h : DefineDetector m Load det db = (.error e, db2)) :
    db2 = db ∨ db2 = (Load geo_template db).2 := by
  rcases DefineDetector_error_cases m Load det db db2 e h with ⟨-, -, h⟩ | ⟨_, -, h, -⟩
  · exact Or.inl h
  · exact Or.inr h

theorem range_foldlM_ok {σ : Type} (f : σ → ℕ → Except Err σ) (P : ℕ → σ → Prop)
    (n : ℕ) (s0 : σ) (h0 : P 0 s0)
    (hstep : ∀ i s, i < n → P i s → ∃ s1, f s i = .ok s1 ∧ P (i + 1) s1) :
    ∃ s, (List.range n).foldlM f s0 = .ok s ∧ P n s := by
  induction n with
  | zero => exact ⟨s0, rfl, h0⟩
  | succ n ih =>
    obtain ⟨s1, h1, hp1⟩ := ih (fun i s hi => hstep i s (Nat.lt_succ_of_lt hi))
    obtain ⟨s2, h2, hp2⟩ := hstep n s1 (Nat.lt_succ_self n) hp1
    refine ⟨s2, ?_, hp2⟩
    rw [List.range_succ, List.foldlM_append, h1]
    simp only [bind, Except.bind, List.foldlM_cons, List.foldlM_nil, h2]
    rfl

theorem barrel_succeeds (m : Libm R) (cols rows : ℕ) (pmt_radius topbot_offset pmt_space : R)
    (v0 : PMTInfo R) (n : ℕ) (h0 : v0.Sized n) (hcr : cols * rows ≤ n) :
    ∃ v, barrel m cols rows pmt_radius topbot_offset pmt_space v0 = .ok v ∧ v.Sized n := by
  refine range_foldlM_ok _ (fun _ s => s.Sized n) cols v0 h0 ?_
  intro col s hcol hs
  refine range_foldlM_ok _ (fun _ s => s.Sized n) rows s hs ?_
  intro row t hrow ht
  have hle : (col + 1) * rows ≤ cols * rows := Nat.mul_le_mul_right rows hcol
  rw [Nat.add_mul] at hle
  have hidx : (row + col * rows % SIZE_RANGE) % SIZE_RANGE < n := by
    rw [Nat.add_mod_mod]
    exact lt_of_le_of_lt (Nat.mod_le _ _) (by omega)
  exact ⟨_, (barrelStep_ok_iff m cols rows pmt_radius topbot_offset pmt_space col row t _ n
    ht).mpr ⟨hidx, rfl⟩, setRecord_sized _ _ _ _ ht⟩

theorem endcap_succeeds (cols rows : ℕ) (topbot_offset pmt_space : R) (topbot : List (ℤ × ℤ))
    (v0 : PMTInfo R) (n : ℕ) (h0 : v0.Sized n) (hn : cols * rows + 2 * topbot.length ≤ n) :
    ∃ v, endcap cols rows topbot_offset pmt_space topbot v0 = .ok v ∧ v.Sized n := by
  refine range_foldlM_ok _ (fun _ s => s.Sized n) topbot.length v0 h0 ?_
  intro i s hi hs
  have hp : topbot.get? i = some topbot[i] := by
    rw [List.get?_eq_getElem?]; exact List.getElem?_eq_getElem hi
  have hidx : (rows * cols % SIZE_RANGE + i * 2 % SIZE_RANGE) % SIZE_RANGE
      ≤ cols * rows + 2 * i := by
    rw [← Nat.add_mod, Nat.mul_comm rows cols, Nat.mul_comm i 2]
    exact Nat.mod_le _ _
  have hidx1 : ((rows * cols % SIZE_RANGE + i * 2 % SIZE_RANGE) % SIZE_RANGE + 1) % SIZE_RANGE
      ≤ cols * rows + 2 * i + 1 :=
    le_trans (Nat.mod_le _ _) (by omega)
  rw [hp]
  refine ⟨_, (endcapStep_ok_iff cols rows topbot_offset pmt_space i _ s _ n hs).mpr
    ⟨by omega, by omega, rfl⟩, ?_⟩
  obtain ⟨h1, h2, h3, h4, h5, h6, h7⟩ := hs
  simp [PMTInfo.Sized, PMTInfo.setRecord, *]

theorem cable_succeeds (m : Libm R) (cols : ℕ) (cable_radius : R) :
    ∃ c, cable m cols cable_radius = .ok c := by
  have hstep : ∀ i (s : List R × List R), i < cols →
      s.1.length = cols ∧ s.2.length = cols →
      ∃ s1, (do
        let cable_x ← vset s.1 i (cable_radius * m.cos ((i : R) * 2 * m.pi / (cols : R)))
        let cable_y ← vset s.2 i (cable_radius * m.sin ((i : R) * 2 * m.pi / (cols : R)))
        pure (cable_x, cable_y)) = Except.ok s1 ∧ s1.1.length = cols ∧ s1.2.length = cols := by
    intro i s hi ⟨h1, h2⟩
    refine ⟨(s.1.set i (cable_radius * m.cos ((i : R) * 2 * m.pi / (cols : R))),
      s.2.set i (cable_radius * m.sin ((i : R) * 2 * m.pi / (cols : R)))), ?_,
      by simpa using h1, by simpa using h2⟩
    simp only [bind_ok_iff, vset_ok_iff, pure, Except.pure, Except.ok.injEq]
    exact ⟨_, ⟨by omega, rfl⟩, _, ⟨by omega, rfl⟩, rfl⟩
  obtain ⟨c, hc, -⟩ := range_foldlM_ok _
    (fun _ (s : List R × List R) => s.1.length = cols ∧ s.2.length = cols) cols
    (List.replicate cols 0, List.replicate cols 0) (by simp) hstep
  exact ⟨c, hc⟩

/-- The run of lines 29–126 completes as soon as the arithmetic is defined and the
sensor count fits `size_t`. -/
theorem layout_succeeds (m : Libm R) (photocathode_coverage photocathode_radius : R)
    (steel_thickness shield_thickness detector_size : R)
    (N s : R) (c r : ℕ) (d : ℤ) (tb : List (ℤ × ℤ))
    (hN : required_pmts photocathode_coverage
      (surface_area m (pmt_radius steel_thickness shield_thickness detector_size)
        (topbot_offset shield_thickness detector_size))
      (photocathode_area m photocathode_radius) = .ok N)
    (hs : pmt_space m
      (surface_area m (pmt_radius steel_thickness shield_thickness detector_size)
        (topbot_offset shield_thickness detector_size)) N = .ok s)
    (hc : cols m (pmt_radius steel_thickness shield_thickness detector_size) s = .ok c)
    (hr : rows (topbot_offset shield_thickness detector_size) s = .ok r)
    (hd : rdim (pmt_radius steel_thickness shield_thickness detector_size) s = .ok d)
    (htb : topbot m (pmt_radius steel_thickness shield_thickness detector_size) s d = .ok tb)
    (hlt : c * r + 2 * tb.length < SIZE_RANGE) :
    ∃ g, layout m photocathode_coverage photocathode_radius steel_thickness shield_thickness
        detector_size = .ok g ∧
      g.required_pmts = N ∧ g.pmt_space = s ∧ g.cols = c ∧ g.rows = r ∧ g.rdim = d ∧
      g.topbot = tb := by
  have hnum : num_pmts c r tb.length = c * r + 2 * tb.length := by
    unfold num_pmts
    rw [← Nat.add_mod, Nat.mod_eq_of_lt hlt]
  obtain ⟨v1, hv1, hs1⟩ := barrel_succeeds m c r
    (pmt_radius steel_thickness shield_thickness detector_size)
    (topbot_offset shield_thickness detector_size) s
    (PMTInfo.alloc (num_pmts c r tb.length)) _ (alloc_sized _) (by omega)
  obtain ⟨v2, hv2, -⟩ := endcap_succeeds c r (topbot_offset shield_thickness detector_size) s
    tb v1 _ hs1 (by omega)
  obtain ⟨cb, hcb⟩ := cable_succeeds m c
    (cable_radius steel_thickness shield_thickness detector_size)
  refine ⟨{ photocathode_radius := photocathode_radius
            photocathode_area := photocathode_area m photocathode_radius
            cable_radius := cable_radius steel_thickness shield_thickness detector_size
            pmt_radius := pmt_radius steel_thickness shield_thickness detector_size
            topbot_offset := topbot_offset shield_thickness detector_size
            surface_area :=
              surface_area m (pmt_radius steel_thickness shield_thickness detector_size)
                (topbot_offset shield_thickness detector_size)
            required_pmts := N, pmt_space := s, cols := c, rows := r, rdim := d, topbot := tb
            num_pmts := num_pmts c r tb.length, pmt := v2, cable_x := cb.1, cable_y := cb.2 },
    ?_, rfl, rfl, rfl, rfl, rfl, rfl⟩
  rw [layout_ok_iff]
  exact ⟨rfl, rfl, rfl, rfl, rfl, rfl, hN, hs, hc, hr, hd, htb, rfl, ⟨v1, hv1, hv2⟩, hcb⟩

theorem published_lookup (g : Locals R) (db : DB R) :
    published g db ⟨"PMTINFO", "", "x"⟩ = some (.DArray g.pmt.x) ∧
    published g db ⟨"PMTINFO", "", "y"⟩ = some (.DArray g.pmt.y) ∧
    published g db ⟨"PMTINFO", "", "z"⟩ = some (.DArray g.pmt.z) ∧
    published g db ⟨"PMTINFO", "", "dir_x"⟩ = some (.DArray g.pmt.dir_x) ∧
    published g db ⟨"PMTINFO", "", "dir_y"⟩ = some (.DArray g.pmt.dir_y) ∧
    published g db ⟨"PMTINFO", "", "dir_z"⟩ = some (.DArray g.pmt.dir_z) ∧
    published g db ⟨"PMTINFO", "", "type"⟩ = some (.IArray g.pmt.type) ∧
    published g db ⟨"GEO", "veto_pmts", "enable"⟩ = some (.I 0) ∧
    published g db ⟨"GEO", "shield", "veto_start"⟩ = some (.I 0) ∧
    published g db ⟨"GEO", "shield", "veto_len"⟩ = some (.I 0) ∧
    published g db ⟨"GEO", "shield", "cols"⟩ = some (.I (sizeToInt g.cols)) ∧
    published g db ⟨"GEO", "shield", "rows"⟩ = some (.I (sizeToInt g.rows)) ∧
    published g db ⟨"GEO", "shield", "inner_start"⟩ = some (.I 0) ∧
    published g db ⟨"GEO", "shield", "inner_len"⟩ = some (.I (sizeToInt g.num_pmts)) ∧
    published g db ⟨"GEO", "inner_pmts", "start_num"⟩ = some (.I 0) ∧
    published g db ⟨"GEO", "inner_pmts", "max_pmts"⟩ = some (.I (sizeToInt g.num_pmts)) ∧
    published g db ⟨"cable_pos", "", "x"⟩ = some (.DArray g.cable_x) ∧
    published g db ⟨"cable_pos", "", "y"⟩ = some (.DArray g.cable_y) ∧
    published g db ⟨"cable_pos", "", "z"⟩ = some (.DArray (List.replicate g.cols 0)) ∧
    published g db ⟨"cable_pos", "", "dir_x"⟩ = some (.DArray (List.replicate g.cols 0)) ∧
    published g db ⟨"cable_pos", "", "dir_y"⟩ = some (.DArray (List.replicate g.cols 0)) ∧
    published g db ⟨"cable_pos", "", "dir_z"⟩ = some (.DArray (List.replicate g.cols 1)) := by
  simp [published, DB.write]

theorem exampleDB_lookup (R : Type) [LinearOrderedField R] :
    exampleDB R ⟨"DETECTOR", "", "photocathode_coverage"⟩ = some (.D (7 / 8)) ∧
    exampleDB R ⟨"GEO", "inner_pmts", "pmt_type"⟩ = some (.S "r7081") ∧
    exampleDB R ⟨"PMT", "r7081", "rho_edge"⟩ = some (.DArray [0, 1]) ∧
    exampleDB R ⟨"GEO", "shield", "steel_thickness"⟩ = some (.D (1 / 8)) ∧
    exampleDB R ⟨"GEO", "shield", "shield_thickness"⟩ = some (.D (1 / 2)) ∧
    exampleDB R ⟨"GEO", "shield", "detector_size"⟩ = some (.D 4) := by
  simp [exampleDB]

theorem OfRun_published (g : Locals R) (m : Libm R) (Load : String → DB R → ℤ × DB R)
    (det : DBLink) (db db2 : DB R) (hg : g.OfRun m Load det db db2) :
    db2 = published g (Load geo_template db).2 := by
  obtain ⟨h, cov, pt, rho, st, sh, ds, h1, h3, h4, h5, h6, h7, h8, h9⟩ := hg
  rw [DefineDetector_ok_iff] at h
  obtain ⟨cov', pt', rho', pr', st', sh', ds', g', k1, k2, k3, k4, k5, k6, k7, k8, k9, k10⟩ := h
  rw [h1] at k1
  rw [h3] at k3
  cases k1
  cases k3
  rw [h4] at k4
  cases k4
  rw [h5] at k5
  cases k5
  rw [h6] at k6
  rw [h7] at k7
  rw [h8] at k8
  cases k6
  cases k7
  cases k8
  rw [h9] at k9
  cases k9
  exact k10

theorem OfRun_layout (g : Locals R) (m : Libm R) (Load : String → DB R → ℤ × DB R)
    (det : DBLink) (db db2 : DB R) (hg : g.OfRun m Load det db db2) :
    ∃ cov st sh ds, layout m cov g.photocathode_radius st sh ds = .ok g := by
  obtain ⟨-, cov, pt, rho, st, sh, ds, -, -, -, -, -, -, -, h9⟩ := hg
  exact ⟨cov, st, sh, ds, h9⟩

theorem DefineDetector_ok_iff_OfRun (m : Libm R) (Load : String → DB R → ℤ × DB R)
    (det : DBLink) (db db2 : DB R) :
    DefineDetector m Load det db = (.ok (), db2) ↔ ∃ g : Locals R, g.OfRun m Load det db db2 := by
  constructor
  · intro h
    have h' := h
    rw [DefineDetector_ok_iff] at h'
    obtain ⟨cov, pt, rho, pr, st, sh, ds, g, k1, k2, k3, k4, k5, k6, k7, k8, k9, k10⟩ := h'
    have hpr : g.photocathode_radius = pr := ((layout_ok_iff _ _ _ _ _ _ _).mp k9).1
    subst hpr
    exact ⟨g, h, cov, pt, rho, st, sh, ds, k1, k3, k4, k5, k6, k7, k8, k9⟩
  · rintro ⟨g, hg⟩
    exact hg.1

end Lemmas

/-! ## The worked configuration over the reals -/

section RealExample

theorem round_eq_of_mem {R : Type} [LinearOrderedField R] [FloorRing R] (q : R) (k : ℤ)
    (h0 : 0 ≤ q) (h1 : (k : R) - 1 / 2 ≤ q) (h2 : q < (k : R) + 1 / 2) :
    math_h.round q = (k : R) := by
  unfold math_h.round
  rw [if_pos h0]
  congr 1
  rw [Int.floor_eq_iff]
  constructor <;> linarith

theorem toSizeT_intCast {R : Type} [LinearOrderedField R] [FloorRing R] (k : ℤ) (h0 : 0 ≤ k)
    (h1 : k < (SIZE_RANGE : ℤ)) : toSizeT (k : R) = .ok k.toNat := by
  have ht : trunc (k : R) = k := by
    unfold trunc
    rw [if_pos (by exact_mod_cast h0), Int.floor_intCast]
  unfold toSizeT
  rw [ht, if_pos ⟨h0, h1⟩]

theorem toInt_intCast {R : Type} [LinearOrderedField R] [FloorRing R] (k : ℤ)
    (h0 : -(2 : ℤ) ^ 31 ≤ k) (h1 : k < (2 : ℤ) ^ 31) : toInt (k : R) = .ok k := by
  have ht : trunc (k : R) = k := by
    unfold trunc
    split
    · exact Int.floor_intCast k
    · exact Int.ceil_intCast k
  unfold toInt checkInt
  rw [ht, if_pos ⟨h0, h1⟩]

theorem example_pmt_space_bounds :
    (189 / 100 : ℝ) < Real.sqrt (8 * Real.pi / 7) ∧ Real.sqrt (8 * Real.pi / 7) < 19 / 10 := by
  have h1 := Real.pi_gt_d2
  have h2 := Real.pi_lt_d2
  constructor
  · rw [Real.lt_sqrt (by norm_num)]
    norm_num at h1 ⊢
    linarith
  · rw [Real.sqrt_lt' (by norm_num)]
    norm_num at h2 ⊢
    linarith

theorem example_pmt_radius : pmt_radius (1 / 8 : ℝ) (1 / 2) 4 = 1 := by
  norm_num [pmt_radius]

theorem example_topbot_offset : topbot_offset (1 / 2 : ℝ) 4 = 3 / 2 := by
  norm_num [topbot_offset]

theorem example_cable_radius : cable_radius (1 / 8 : ℝ) (1 / 2) 4 = 2 := by
  norm_num [cable_radius]

theorem example_photocathode_radius : photocathode_radius ([0, 1] : List ℝ) = .ok 1 := by
  simp [photocathode_radius]

theorem example_surface_area :
    surface_area ⟨Real.pi, Real.cos, Real.sin, Real.sqrt⟩ (1 : ℝ) (3 / 2) = 8 * Real.pi := by
  simp only [surface_area]
  ring

theorem example_required_pmts :
    required_pmts (7 / 8 : ℝ) (8 * Real.pi)
      (photocathode_area ⟨Real.pi, Real.cos, Real.sin, Real.sqrt⟩ 1) = .ok 7 := by
  have hpi : Real.pi ≠ 0 := Real.pi_ne_zero
  have hq : (7 / 8 : ℝ) * (8 * Real.pi) / (Real.pi * 1 * 1) = ((7 : ℤ) : ℝ) := by
    field_simp
  simp only [required_pmts, fdiv, photocathode_area, bind, Except.bind]
  rw [if_neg (by simpa using hpi)]
  simp only [pure, Except.pure, math_h.ceil, hq, Int.ceil_intCast]
  norm_num

theorem example_pmt_space :
    pmt_space ⟨Real.pi, Real.cos, Real.sin, Real.sqrt⟩ (8 * Real.pi) (7 : ℝ)
      = .ok (Real.sqrt (8 * Real.pi / 7)) := by
  have hpos : ¬ (8 * Real.pi / 7 < 0) := not_lt.mpr (by positivity)
  simp only [pmt_space, fdiv, fsqrt, bind, Except.bind]
  rw [if_neg (by norm_num)]
  simp only [if_neg hpos]

theorem example_cols :
    cols ⟨Real.pi, Real.cos, Real.sin, Real.sqrt⟩ (1 : ℝ) (Real.sqrt (8 * Real.pi / 7))
      = .ok 3 := by
  obtain ⟨hlo, hhi⟩ := example_pmt_space_bounds
  have h1 := Real.pi_gt_d2
  have h2 := Real.pi_lt_d2
  generalize Real.sqrt (8 * Real.pi / 7) = s at hlo hhi ⊢
  have hs : s ≠ 0 := by linarith
  have hspos : 0 < s := by linarith
  have hr : math_h.round (2 * Real.pi * 1 / s) = ((3 : ℤ) : ℝ) := by
    apply round_eq_of_mem
    · positivity
    · rw [le_div_iff₀ hspos]; norm_num at h1 ⊢; linarith
    · rw [div_lt_iff₀ hspos]; norm_num at h2 ⊢; linarith
  simp only [cols, fdiv, bind, Except.bind, if_neg hs, hr]
  rw [toSizeT_intCast 3 (by norm_num) (by norm_num [SIZE_RANGE])]
  rfl

theorem example_rows :
    rows (3 / 2 : ℝ) (Real.sqrt (8 * Real.pi / 7)) = .ok 2 := by
  obtain ⟨hlo, hhi⟩ := example_pmt_space_bounds
  generalize Real.sqrt (8 * Real.pi / 7) = s at hlo hhi ⊢
  have hs : s ≠ 0 := by linarith
  have hspos : 0 < s := by linarith
  have hr : math_h.round (2 * (3 / 2) / s) = ((2 : ℤ) : ℝ) := by
    apply round_eq_of_mem
    · positivity
    · rw [le_div_iff₀ hspos]; norm_num; linarith
    · rw [div_lt_iff₀ hspos]; norm_num; linarith
  simp only [rows, fdiv, bind, Except.bind, if_neg hs, hr]
  rw [toSizeT_intCast 2 (by norm_num) (by norm_num [SIZE_RANGE])]
  rfl

theorem example_rdim :
    rdim (1 : ℝ) (Real.sqrt (8 * Real.pi / 7)) = .ok 1 := by
  obtain ⟨hlo, hhi⟩ := example_pmt_space_bounds
  generalize Real.sqrt (8 * Real.pi / 7) = s at hlo hhi ⊢
  have hs : s ≠ 0 := by linarith
  have hspos : 0 < s := by linarith
  have hr : math_h.round (1 / s) = ((1 : ℤ) : ℝ) := by
    apply round_eq_of_mem
    · positivity
    · rw [le_div_iff₀ hspos]; norm_num; linarith
    · rw [div_lt_iff₀ hspos]; norm_num; linarith
  simp only [rdim, fdiv, bind, Except.bind, if_neg hs, hr]
  exact toInt_intCast 1 (by norm_num) (by norm_num)

theorem intRange_example : intRange (-1) 1 = [-1, 0, 1] := by decide

theorem topbotStep_eq {R : Type} [LinearOrderedField R] [FloorRing R] (m : Libm R)
    (pmt_radius pmt_space : R) (i j : ℤ) (tb : List (ℤ × ℤ))
    (h : i * i + j * j < 2 ^ 31) :
    topbotStep m pmt_radius pmt_space i j tb =
      .ok (if pmt_space * m.sqrt ((i * i + j * j : ℤ) : R) ≤ pmt_radius - pmt_space / 2
        then tb ++ [(i, j)] else tb) := by
  have hi : 0 ≤ i * i := mul_self_nonneg i
  have hj : 0 ≤ j * j := mul_self_nonneg j
  have c1 : checkInt (i * i) = .ok (i * i) := by
    unfold checkInt; rw [if_pos ⟨by omega, by omega⟩]
  have c2 : checkInt (j * j) = .ok (j * j) := by
    unfold checkInt; rw [if_pos ⟨by omega, by omega⟩]
  have c3 : checkInt (i * i + j * j) = .ok (i * i + j * j) := by
    unfold checkInt; rw [if_pos ⟨by omega, by omega⟩]
  simp only [topbotStep, bind, Except.bind, c1, c2, c3]
  split <;> rfl

theorem example_topbotStep (s : ℝ) (hlo : 189 / 100 < s) (hhi : s < 19 / 10) (i j : ℤ)
    (hi0 : -1 ≤ i) (hi1 : i ≤ 1) (hj0 : -1 ≤ j) (hj1 : j ≤ 1) (tb : List (ℤ × ℤ)) :
    topbotStep ⟨Real.pi, Real.cos, Real.sin, Real.sqrt⟩ (1 : ℝ) s i j tb =
      .ok (if i = 0 ∧ j = 0 then tb ++ [(i, j)] else tb) := by
  have h2 : (1 : ℝ) ≤ Real.sqrt 2 := by
    rw [Real.one_le_sqrt]; norm_num
  have h2s : s ≤ s * Real.sqrt 2 := by nlinarith
  rw [topbotStep_eq _ _ _ _ _ _ (by nlinarith)]
  congr 1
  interval_cases i <;> interval_cases j <;> norm_num <;> linarith

theorem example_topbot :
    topbot ⟨Real.pi, Real.cos, Real.sin, Real.sqrt⟩ (1 : ℝ) (Real.sqrt (8 * Real.pi / 7)) 1
      = .ok [(0, 0)] := by
  obtain ⟨hlo, hhi⟩ := example_pmt_space_bounds
  generalize Real.sqrt (8 * Real.pi / 7) = s at hlo hhi ⊢
  have c0 : checkInt (-1) = .ok (-1) := by
    unfold checkInt; rw [if_pos (by norm_num)]
  simp only [topbot, bind, Except.bind, c0, intRange_example, List.foldlM_cons,
    List.foldlM_nil, pure, Except.pure]
  simp [example_topbotStep s hlo hhi]

theorem example_layout :
    ∃ g, layout ⟨Real.pi, Real.cos, Real.sin, Real.sqrt⟩ (7 / 8 : ℝ) 1 (1 / 8) (1 / 2) 4
        = .ok g ∧
      g.required_pmts = 7 ∧ g.pmt_space = Real.sqrt (8 * Real.pi / 7) ∧ g.cols = 3 ∧
      g.rows = 2 ∧ g.rdim = 1 ∧ g.topbot = [(0, 0)] := by
  apply layout_succeeds
  · rw [example_pmt_radius, example_topbot_offset, example_surface_area]
    exact example_required_pmts
  · rw [example_pmt_radius, example_topbot_offset, example_surface_area]
    exact example_pmt_space
  · rw [example_pmt_radius]; exact example_cols
  · rw [example_topbot_offset]; exact example_rows
  · rw [example_pmt_radius]; exact example_rdim
  · rw [example_pmt_radius]; exact example_topbot
  · norm_num [SIZE_RANGE]

theorem example_run :
    ∃ (g : Locals ℝ) (db2 : DB ℝ),
      g.OfRun ⟨Real.pi, Real.cos, Real.sin, Real.sqrt⟩ (exampleLoad ℝ) exampleDetector
        (exampleDB ℝ) db2 ∧
      g.pmt_radius = 1 ∧ g.topbot_offset = 3 / 2 ∧ g.cable_radius = 2 ∧
      g.pmt_space = Real.sqrt (8 * Real.pi / 7) ∧ g.cols = 3 ∧ g.rows = 2 ∧
      g.topbot = [(0, 0)] := by
  obtain ⟨g, hg, -, hs, hc, hr, -, htb⟩ := example_layout
  obtain ⟨e1, e2, e3, e4, e5, e6⟩ := exampleDB_lookup ℝ
  have hl := (layout_ok_iff _ _ _ _ _ _ _).mp hg
  have hpr : g.photocathode_radius = 1 := hl.1
  have hrun : DefineDetector ⟨Real.pi, Real.cos, Real.sin, Real.sqrt⟩ (exampleLoad ℝ)
      exampleDetector (exampleDB ℝ) = (.ok (), published g (exampleDB ℝ)) := by
    rw [DefineDetector_ok_iff]
    exact ⟨7 / 8, "r7081", [0, 1], 1, 1 / 8, 1 / 2, 4, g, e1, by simp [exampleLoad], e2, e3,
      example_photocathode_radius, e4, e5, e6, hg, rfl⟩
  refine ⟨g, published g (exampleDB ℝ), ⟨hrun, 7 / 8, "r7081", [0, 1], 1 / 8, 1 / 2, 4, e1,
    e2, e3, ?_, e4, e5, e6, ?_⟩, ?_, ?_, ?_, hs, hc, hr, htb⟩
  · rw [hpr]; exact example_photocathode_radius
  · rw [hpr]; exact hg
  · rw [hl.2.2.2.1]; exact example_pmt_radius
  · rw [hl.2.2.2.2.1]; exact example_topbot_offset
  · rw [hl.2.2.1]; exact example_cable_radius

end RealExample

/-! ## Claims -/

section Claims

variable {R : Type} [LinearOrderedField R] [FloorRing R]

theorem OfRun_records (g : Locals R) (m : Libm R) (Load : String → DB R → ℤ × DB R)
    (det : DBLink) (db db2 : DB R) (hg : g.OfRun m Load det db db2) :
    g.cols * g.rows + 2 * g.topbot.length < SIZE_RANGE ∧
    g.num_pmts = g.cols * g.rows + 2 * g.topbot.length ∧
    g.pmt.Sized g.num_pmts ∧
    (∀ col < g.cols, ∀ row < g.rows, g.pmt.At (row + col * g.rows)
      (barrelRecord m g.cols g.rows g.pmt_radius g.topbot_offset g.pmt_space col row)) ∧
    (∀ k p, g.topbot[k]? = some p →
      g.pmt.At (g.rows * g.cols + 2 * k) (topRecord g.topbot_offset g.pmt_space p) ∧
      g.pmt.At (g.rows * g.cols + 2 * k + 1) (botRecord g.topbot_offset g.pmt_space p)) := by
  obtain ⟨cov, st, sh, ds, h⟩ := OfRun_layout g m Load det db db2 hg
  exact layout_records m cov _ st sh ds g h

/-- C1. When `DefineDetector` completes, `num_pmts` is `cols * rows` plus twice the number
of accepted end-cap lattice points (as natural numbers, without wrap-around), and each of
the seven arrays published under `PMTINFO` has exactly `num_pmts` entries. -/
theorem num_pmts_and_published_lengths (g : Locals R) (m : Libm R)
    (Load : String → DB R → ℤ × DB R) (detector : DBLink) (db db2 : DB R)
    (hg : g.OfRun m Load detector db db2) :
    g.num_pmts = g.cols * g.rows + 2 * g.topbot.length ∧
    (db2 ⟨"PMTINFO", "", "x"⟩ = some (.DArray g.pmt.x) ∧ g.pmt.x.length = g.num_pmts) ∧
    (db2 ⟨"PMTINFO", "", "y"⟩ = some (.DArray g.pmt.y) ∧ g.pmt.y.length = g.num_pmts) ∧
    (db2 ⟨"PMTINFO", "", "z"⟩ = some (.DArray g.pmt.z) ∧ g.pmt.z.length = g.num_pmts) ∧
    (db2 ⟨"PMTINFO", "", "dir_x"⟩ = some (.DArray g.pmt.dir_x) ∧
      g.pmt.dir_x.length = g.num_pmts) ∧
    (db2 ⟨"PMTINFO", "", "dir_y"⟩ = some (.DArray g.pmt.dir_y) ∧
      g.pmt.dir_y.length = g.num_pmts) ∧
    (db2 ⟨"PMTINFO", "", "dir_z"⟩ = some (.DArray g.pmt.dir_z) ∧
      g.pmt.dir_z.length = g.num_pmts) ∧
    (db2 ⟨"PMTINFO", "", "type"⟩ = some (.IArray g.pmt.type) ∧
      g.pmt.type.length = g.num_pmts) := by
  obtain ⟨-, hnum, ⟨s1, s2, s3, s4, s5, s6, s7⟩, -, -⟩ :=
    OfRun_records g m Load detector db db2 hg
  have hpub := OfRun_published g m Load detector db db2 hg
  obtain ⟨p1, p2, p3, p4, p5, p6, p7, -⟩ := published_lookup g (Load geo_template db).2
  rw [← hpub] at p1 p2 p3 p4 p5 p6 p7
  exact ⟨hnum, ⟨p1, s1⟩, ⟨p2, s2⟩, ⟨p3, s3⟩, ⟨p4, s4⟩, ⟨p5, s5⟩, ⟨p6, s6⟩, ⟨p7, s7⟩⟩

/-- Witness for C1: the worked configuration completes over the reals with 3 columns,
2 rows, one accepted lattice point and 8 sensors. -/
theorem num_pmts_and_published_lengths_witness :
    ∃ (g : Locals ℝ) (db2 : DB ℝ),
      g.OfRun ⟨Real.pi, Real.cos, Real.sin, Real.sqrt⟩ (exampleLoad ℝ) exampleDetector
        (exampleDB ℝ) db2 ∧
      g.cols = 3 ∧ g.rows = 2 ∧ g.topbot.length = 1 ∧ g.num_pmts = 8 ∧
      db2 ⟨"PMTINFO", "", "x"⟩ = some (.DArray g.pmt.x) ∧ g.pmt.x.length = 8 ∧
      db2 ⟨"PMTINFO", "", "type"⟩ = some (.IArray g.pmt.type) ∧ g.pmt.type.length = 8 := by
  obtain ⟨g, db2, hg, -, -, -, -, hc, hr, htb⟩ := example_run
  have h := num_pmts_and_published_lengths g _ _ _ _ _ hg
  have hn : g.num_pmts = 8 := by rw [h.1, hc, hr, htb]; rfl
  refine ⟨g, db2, hg, hc, hr, by rw [htb]; rfl, hn, h.2.1.1, ?_, h.2.2.2.2.2.2.2.1, ?_⟩
  · rw [h.2.1.2, hn]
  · rw [h.2.2.2.2.2.2.2.2, hn]

/-- C2. Every entry of the published `type` array is 1: barrel and end-cap writes
together cover every index below `num_pmts`. -/
theorem published_type_all_one (g : Locals R) (m : Libm R)
    (Load : String → DB R → ℤ × DB R) (detector : DBLink) (db db2 : DB R)
    (hg : g.OfRun m Load detector db db2) :
    db2 ⟨"PMTINFO", "", "type"⟩ = some (.IArray g.pmt.type) ∧
    g.pmt.type.length = g.num_pmts ∧
    ∀ n < g.num_pmts, g.pmt.type[n]? = some 1 := by
  obtain ⟨hlt, hnum, hsz, hbar, hend⟩ := OfRun_records g m Load detector db db2 hg
  have hpub := OfRun_published g m Load detector db db2 hg
  obtain ⟨-, -, -, -, -, -, p7, -⟩ := published_lookup g (Load geo_template db).2
  rw [← hpub] at p7
  refine ⟨p7, hsz.2.2.2.2.2.2, ?_⟩
  intro n hn
  by_cases hb : n < g.cols * g.rows
  · have hrows : 0 < g.rows := by
      rcases Nat.eq_zero_or_pos g.rows with h0 | h0
      · rw [h0] at hb; simp at hb
      · exact h0
    have hcol : n / g.rows < g.cols := by
      rw [Nat.div_lt_iff_lt_mul hrows]; exact hb
    have := hbar (n / g.rows) hcol (n % g.rows) (Nat.mod_lt n hrows)
    rw [Nat.mod_add_div'] at this
    exact this.2.2.2.2.2.2
  · have hk : (n - g.cols * g.rows) / 2 < g.topbot.length := by omega
    have hp := List.getElem?_eq_getElem hk
    obtain ⟨htop, hbot⟩ := hend _ _ hp
    rw [Nat.mul_comm g.rows g.cols] at htop hbot
    rcases Nat.mod_two_eq_zero_or_one (n - g.cols * g.rows) with h0 | h1
    · have hidx : g.cols * g.rows + 2 * ((n - g.cols * g.rows) / 2) = n := by omega
      rw [hidx] at htop
      exact htop.2.2.2.2.2.2
    · have hidx : g.cols * g.rows + 2 * ((n - g.cols * g.rows) / 2) + 1 = n := by omega
      rw [hidx] at hbot
      exact hbot.2.2.2.2.2.2

/-- Witness for C2: in the worked configuration all 8 entries of the published `type`
array are 1. -/
theorem published_type_all_one_witness :
    ∃ (g : Locals ℝ) (db2 : DB ℝ),
      g.OfRun ⟨Real.pi, Real.cos, Real.sin, Real.sqrt⟩ (exampleLoad ℝ) exampleDetector
        (exampleDB ℝ) db2 ∧
      db2 ⟨"PMTINFO", "", "type"⟩ = some (.IArray g.pmt.type) ∧
      g.pmt.type = [1, 1, 1, 1, 1, 1, 1, 1] := by
  obtain ⟨g, db2, hg, -, -, -, -, hc, hr, htb⟩ := example_run
  obtain ⟨h1, h2, h3⟩ := published_type_all_one g _ _ _ _ _ hg
  have hn : g.num_pmts = 8 := by
    rw [(OfRun_records g _ _ _ _ _ hg).2.1, hc, hr, htb]; rfl
  refine ⟨g, db2, hg, h1, ?_⟩
  rw [hn] at h2 h3
  apply List.ext_getElem?
  intro n
  by_cases hn8 : n < 8
  · rw [h3 n hn8]
    interval_cases n <;> rfl
  · rw [List.getElem?_eq_none (by omega), List.getElem?_eq_none (by simp; omega)]

/-- C3. Over the reals, with `pmt_radius > 0`, the barrel record of column `c` and row `r`
sits at index `r + c * rows` and has direction `(-cos φ, -sin φ, 0)` with
`φ = 2π(c + 1/2)/cols`: a unit vector whose scalar product with the record's `(x, y)` is
`-pmt_radius < 0`, so it points toward the cylinder axis. -/
theorem barrel_direction_inward (g : Locals ℝ) (Load : String → DB ℝ → ℤ × DB ℝ)
    (detector : DBLink) (db db2 : DB ℝ)
    (hg : g.OfRun ⟨Real.pi, Real.cos, Real.sin, Real.sqrt⟩ Load detector db db2)
    (c r : ℕ) (hc : c < g.cols) (hr : r < g.rows) (hR : 0 < g.pmt_radius) :
    ∃ x y dir_x dir_y : ℝ,
      g.pmt.x[r + c * g.rows]? = some x ∧ g.pmt.y[r + c * g.rows]? = some y ∧
      g.pmt.dir_x[r + c * g.rows]? = some dir_x ∧
      g.pmt.dir_y[r + c * g.rows]? = some dir_y ∧
      g.pmt.dir_z[r + c * g.rows]? = some 0 ∧
      dir_x = -Real.cos (2 * Real.pi * ((c : ℝ) + 1 / 2) / (g.cols : ℝ)) ∧
      dir_y = -Real.sin (2 * Real.pi * ((c : ℝ) + 1 / 2) / (g.cols : ℝ)) ∧
      dir_x ^ 2 + dir_y ^ 2 = 1 ∧
      dir_x * x + dir_y * y = -g.pmt_radius ∧
      dir_x * x + dir_y * y < 0 := by
  obtain ⟨-, -, -, hbar, -⟩ := OfRun_records g _ Load detector db db2 hg
  obtain ⟨hx, hy, -, hdx, hdy, hdz, -⟩ := hbar c hc r hr
  simp only [barrelRecord] at hx hy hdx hdy hdz
  have hcs := Real.cos_sq_add_sin_sq (2 * Real.pi * ((c : ℝ) + 1 / 2) / (g.cols : ℝ))
  refine ⟨_, _, _, _, hx, hy, hdx, hdy, hdz, rfl, rfl, ?_, ?_, ?_⟩
  · nlinarith
  · nlinarith
  · nlinarith

/-- Witness for C3: in the worked configuration (`pmt_radius = 1`, 3 columns, 2 rows) the
record of column 0 and row 0 has a unit direction pointing toward the axis. -/
theorem barrel_direction_inward_witness :
    ∃ (g : Locals ℝ) (db2 : DB ℝ),
      g.OfRun ⟨Real.pi, Real.cos, Real.sin, Real.sqrt⟩ (exampleLoad ℝ) exampleDetector
        (exampleDB ℝ) db2 ∧
      0 < g.cols ∧ 0 < g.rows ∧ 0 < g.pmt_radius ∧
      ∃ x y dir_x dir_y : ℝ,
        g.pmt.x[0 + 0 * g.rows]? = some x ∧ g.pmt.y[0 + 0 * g.rows]? = some y ∧
        g.pmt.dir_x[0 + 0 * g.rows]? = some dir_x ∧
        g.pmt.dir_y[0 + 0 * g.rows]? = some dir_y ∧
        g.pmt.dir_z[0 + 0 * g.rows]? = some 0 ∧
        dir_x = -Real.cos (2 * Real.pi * (((0 : ℕ) : ℝ) + 1 / 2) / (g.cols : ℝ)) ∧
        dir_y = -Real.sin (2 * Real.pi * (((0 : ℕ) : ℝ) + 1 / 2) / (g.cols : ℝ)) ∧
        dir_x ^ 2 + dir_y ^ 2 = 1 ∧
        dir_x * x + dir_y * y = -g.pmt_radius ∧
        dir_x * x + dir_y * y < 0 := by
  obtain ⟨g, db2, hg, hR, -, -, -, hc, hr, -⟩ := example_run
  have hc0 : 0 < g.cols := by rw [hc]; norm_num
  have hr0 : 0 < g.rows := by rw [hr]; norm_num
  have hR0 : 0 < g.pmt_radius := by rw [hR]; norm_num
  exact ⟨g, db2, hg, hc0, hr0, hR0,
    barrel_direction_inward g _ _ _ _ hg 0 0 hc0 hr0 hR0⟩

/-- C4. For the `k`-th accepted end-cap lattice point the top record (index
`rows * cols + 2k`) has direction exactly `(0, 0, -1)` and the bottom record (index
`rows * cols + 2k + 1`) exactly `(0, 0, 1)`; the bottom `dir_y` is the zero the vector was
allocated with. The records' `z` are `topbot_offset` and `-topbot_offset`, so with
`topbot_offset > 0` the product `dir_z * z` is negative for both. -/
theorem endcap_direction (g : Locals R) (m : Libm R) (Load : String → DB R → ℤ × DB R)
    (detector : DBLink) (db db2 : DB R) (hg : g.OfRun m Load detector db db2)
    (k : ℕ) (p : ℤ × ℤ) (hp : g.topbot[k]? = some p) :
    g.pmt.dir_x[g.rows * g.cols + 2 * k]? = some 0 ∧
    g.pmt.dir_y[g.rows * g.cols + 2 * k]? = some 0 ∧
    g.pmt.dir_z[g.rows * g.cols + 2 * k]? = some (-1) ∧
    g.pmt.dir_x[g.rows * g.cols + 2 * k + 1]? = some 0 ∧
    g.pmt.dir_y[g.rows * g.cols + 2 * k + 1]? = some 0 ∧
    g.pmt.dir_z[g.rows * g.cols + 2 * k + 1]? = some 1 ∧
    g.pmt.z[g.rows * g.cols + 2 * k]? = some g.topbot_offset ∧
    g.pmt.z[g.rows * g.cols + 2 * k + 1]? = some (-g.topbot_offset) ∧
    (0 < g.topbot_offset →
      (-1 : R) * g.topbot_offset < 0 ∧ (1 : R) * (-g.topbot_offset) < 0) := by
  obtain ⟨-, -, -, -, hend⟩ := OfRun_records g m Load detector db db2 hg
  obtain ⟨⟨-, -, hz, hdx, hdy, hdz, -⟩, ⟨-, -, hz1, hdx1, hdy1, hdz1, -⟩⟩ := hend k p hp
  simp only [topRecord, botRecord] at hz hdx hdy hdz hz1 hdx1 hdy1 hdz1
  refine ⟨hdx, hdy, hdz, hdx1, hdy1, hdz1, hz, hz1, ?_⟩
  intro hT
  constructor <;> linarith

/-- Witness for C4: the lattice point `(0, 0)` of the worked configuration, whose records
sit at indices 6 and 7. -/
theorem endcap_direction_witness :
    ∃ (g : Locals ℝ) (db2 : DB ℝ),
      g.OfRun ⟨Real.pi, Real.cos, Real.sin, Real.sqrt⟩ (exampleLoad ℝ) exampleDetector
        (exampleDB ℝ) db2 ∧
      g.topbot[0]? = some (0, 0) ∧ g.rows * g.cols + 2 * 0 = 6 ∧
      g.pmt.dir_x[g.rows * g.cols + 2 * 0]? = some 0 ∧
      g.pmt.dir_y[g.rows * g.cols + 2 * 0]? = some 0 ∧
      g.pmt.dir_z[g.rows * g.cols + 2 * 0]? = some (-1) ∧
      g.pmt.dir_x[g.rows * g.cols + 2 * 0 + 1]? = some 0 ∧
      g.pmt.dir_y[g.rows * g.cols + 2 * 0 + 1]? = some 0 ∧
      g.pmt.dir_z[g.rows * g.cols + 2 * 0 + 1]? = some 1 := by
  obtain ⟨g, db2, hg, -, -, -, -, hc, hr, htb⟩ := example_run
  have hp : g.topbot[0]? = some (0, 0) := by rw [htb]; rfl
  obtain ⟨h1, h2, h3, h4, h5, h6, -, -, -⟩ := endcap_direction g _ _ _ _ _ hg 0 (0, 0) hp
  exact ⟨g, db2, hg, hp, by rw [hc, hr], h1, h2, h3, h4, h5, h6⟩

/-- C5. For the `k`-th accepted lattice point `(i, j)` the records at `rows * cols + 2k`
(top) and `rows * cols + 2k + 1` (bottom) both have `(x, y) = (pmt_space * i, pmt_space * j)`,
with `z = topbot_offset` for the top and `z = -topbot_offset` for the bottom; both indices lie
in `[cols * rows, num_pmts)`, after every barrel index `r + c * rows`. -/
theorem endcap_position (g : Locals R) (m : Libm R) (Load : String → DB R → ℤ × DB R)
    (detector : DBLink) (db db2 : DB R) (hg : g.OfRun m Load detector db db2)
    (k : ℕ) (i j : ℤ) (hp : g.topbot[k]? = some (i, j)) :
    g.pmt.x[g.rows * g.cols + 2 * k]? = some (g.pmt_space * (i : R)) ∧
    g.pmt.y[g.rows * g.cols + 2 * k]? = some (g.pmt_space * (j : R)) ∧
    g.pmt.z[g.rows * g.cols + 2 * k]? = some g.topbot_offset ∧
    g.pmt.x[g.rows * g.cols + 2 * k + 1]? = some (g.pmt_space * (i : R)) ∧
    g.pmt.y[g.rows * g.cols + 2 * k + 1]? = some (g.pmt_space * (j : R)) ∧
    g.pmt.z[g.rows * g.cols + 2 * k + 1]? = some (-g.topbot_offset) ∧
    g.cols * g.rows ≤ g.rows * g.cols + 2 * k ∧
    g.rows * g.cols + 2 * k + 1 < g.num_pmts ∧
    ∀ c < g.cols, ∀ r < g.rows, r + c * g.rows < g.cols * g.rows := by
  obtain ⟨-, hnum, -, -, hend⟩ := OfRun_records g m Load detector db db2 hg
  obtain ⟨⟨hx, hy, hz, -⟩, ⟨hx1, hy1, hz1, -⟩⟩ := hend k (i, j) hp
  simp only [topRecord, botRecord] at hx hy hz hx1 hy1 hz1
  have hk : k < g.topbot.length := by
    by_contra hcon
    rw [List.getElem?_eq_none (by omega)] at hp
    cases hp
  refine ⟨hx, hy, hz, hx1, hy1, hz1, ?_, ?_, ?_⟩
  · rw [Nat.mul_comm g.rows g.cols]; omega
  · rw [hnum, Nat.mul_comm g.rows g.cols]; omega
  · intro c hc r hr
    have hle : (c + 1) * g.rows ≤ g.cols * g.rows := Nat.mul_le_mul_right g.rows hc
    rw [Nat.add_mul] at hle
    omega

/-- Witness for C5: the lattice point `(0, 0)` of the worked configuration. -/
theorem endcap_position_witness :
    ∃ (g : Locals ℝ) (db2 : DB ℝ),
      g.OfRun ⟨Real.pi, Real.cos, Real.sin, Real.sqrt⟩ (exampleLoad ℝ) exampleDetector
        (exampleDB ℝ) db2 ∧
      g.topbot[0]? = some (0, 0) ∧
      g.pmt.x[g.rows * g.cols + 2 * 0]? = some (g.pmt_space * ((0 : ℤ) : ℝ)) ∧
      g.pmt.z[g.rows * g.cols + 2 * 0]? = some g.topbot_offset ∧
      g.pmt.z[g.rows * g.cols + 2 * 0 + 1]? = some (-g.topbot_offset) ∧
      g.topbot_offset = 3 / 2 := by
  obtain ⟨g, db2, hg, -, hT, -, -, hc, hr, htb⟩ := example_run
  have hp : g.topbot[0]? = some (0, 0) := by rw [htb]; rfl
  obtain ⟨h1, -, h3, -, -, h6, -⟩ := endcap_position g _ _ _ _ _ hg 0 0 0 hp
  exact ⟨g, db2, hg, hp, h1, h3, h6, hT⟩

/-- C6. Over the reals, the six arrays published under `cable_pos` have `cols` entries
each, and for every column `c` the anchor satisfies `x² + y² = cable_radius²` (its distance
from the axis is `cable_radius` when that is not negative), `z = 0` and direction
`(0, 0, 1)`. -/
theorem cable_anchors (g : Locals ℝ) (Load : String → DB ℝ → ℤ × DB ℝ)
    (detector : DBLink) (db db2 : DB ℝ)
    (hg : g.OfRun ⟨Real.pi, Real.cos, Real.sin, Real.sqrt⟩ Load detector db db2) :
    ∃ x y z dir_x dir_y dir_z : List ℝ,
      db2 ⟨"cable_pos", "", "x"⟩ = some (.DArray x) ∧
      db2 ⟨"cable_pos", "", "y"⟩ = some (.DArray y) ∧
      db2 ⟨"cable_pos", "", "z"⟩ = some (.DArray z) ∧
      db2 ⟨"cable_pos", "", "dir_x"⟩ = some (.DArray dir_x) ∧
      db2 ⟨"cable_pos", "", "dir_y"⟩ = some (.DArray dir_y) ∧
      db2 ⟨"cable_pos", "", "dir_z"⟩ = some (.DArray dir_z) ∧
      x.length = g.cols ∧ y.length = g.cols ∧ z.length = g.cols ∧
      dir_x.length = g.cols ∧ dir_y.length = g.cols ∧ dir_z.length = g.cols ∧
      ∀ c < g.cols, ∃ xc yc : ℝ,
        x[c]? = some xc ∧ y[c]? = some yc ∧
        xc ^ 2 + yc ^ 2 = g.cable_radius ^ 2 ∧
        (0 ≤ g.cable_radius → Real.sqrt (xc ^ 2 + yc ^ 2) = g.cable_radius) ∧
        z[c]? = some 0 ∧ dir_x[c]? = some 0 ∧ dir_y[c]? = some 0 ∧ dir_z[c]? = some 1 := by
  have hpub := OfRun_published g _ Load detector db db2 hg
  obtain ⟨-, -, -, -, -, -, -, -, -, -, -, -, -, -, -, -, p1, p2, p3, p4, p5, p6⟩ :=
    published_lookup g (Load geo_template db).2
  rw [← hpub] at p1 p2 p3 p4 p5 p6
  obtain ⟨cov, st, sh, ds, hl⟩ := OfRun_layout g _ Load detector db db2 hg
  have hcable := ((layout_ok_iff _ _ _ _ _ _ _).mp hl).2.2.2.2.2.2.2.2.2.2.2.2.2.2
  obtain ⟨hx, hy, hxy⟩ := cable_ok _ _ _ _ hcable
  refine ⟨_, _, _, _, _, _, p1, p2, p3, p4, p5, p6, hx, hy, by simp, by simp, by simp,
    by simp, ?_⟩
  intro c hc
  obtain ⟨h1, h2⟩ := hxy c hc
  have hcs := Real.cos_sq_add_sin_sq ((c : ℝ) * 2 * Real.pi / (g.cols : ℝ))
  have hsq : (g.cable_radius * Real.cos ((c : ℝ) * 2 * Real.pi / (g.cols : ℝ))) ^ 2 +
      (g.cable_radius * Real.sin ((c : ℝ) * 2 * Real.pi / (g.cols : ℝ))) ^ 2
      = g.cable_radius ^ 2 := by
    nlinarith
  refine ⟨_, _, h1, h2, hsq, ?_, ?_, ?_, ?_, ?_⟩
  · intro h0
    rw [hsq, Real.sqrt_sq h0]
  all_goals simp [List.getElem?_replicate, hc]

/-- Witness for C6: the worked configuration publishes cable arrays of length 3 with
anchors at distance `cable_radius = 2` from the axis. -/
theorem cable_anchors_witness :
    ∃ (g : Locals ℝ) (db2 : DB ℝ),
      g.OfRun ⟨Real.pi, Real.cos, Real.sin, Real.sqrt⟩ (exampleLoad ℝ) exampleDetector
        (exampleDB ℝ) db2 ∧
      g.cols = 3 ∧ g.cable_radius = 2 ∧
      ∃ x y z dir_x dir_y dir_z : List ℝ,
        db2 ⟨"cable_pos", "", "x"⟩ = some (.DArray x) ∧
        db2 ⟨"cable_pos", "", "y"⟩ = some (.DArray y) ∧
        db2 ⟨"cable_pos", "", "z"⟩ = some (.DArray z) ∧
        db2 ⟨"cable_pos", "", "dir_x"⟩ = some (.DArray dir_x) ∧
        db2 ⟨"cable_pos", "", "dir_y"⟩ = some (.DArray dir_y) ∧
        db2 ⟨"cable_pos", "", "dir_z"⟩ = some (.DArray dir_z) ∧
        x.length = g.cols ∧ y.length = g.cols ∧ z.length = g.cols ∧
        dir_x.length = g.cols ∧ dir_y.length = g.cols ∧ dir_z.length = g.cols ∧
        ∀ c < g.cols, ∃ xc yc : ℝ,
          x[c]? = some xc ∧ y[c]? = some yc ∧
          xc ^ 2 + yc ^ 2 = g.cable_radius ^ 2 ∧
          (0 ≤ g.cable_radius → Real.sqrt (xc ^ 2 + yc ^ 2) = g.cable_radius) ∧
          z[c]? = some 0 ∧ dir_x[c]? = some 0 ∧ dir_y[c]? = some 0 ∧ dir_z[c]? = some 1 := by
  obtain ⟨g, db2, hg, -, -, hcr, -, hc, -, -⟩ := example_run
  exact ⟨g, db2, hg, hc, hcr, cable_anchors g _ _ _ _ hg⟩

/-- C8 as stated fails: for steel thickness 0.006, shield thickness 0.2 and detector size 20
the formula of line 37 does not give `pmt_radius = 9.176`. -/
theorem example_pmt_radius_ne : pmt_radius (0.006 : ℚ) 0.2 20 ≠ 9.176 := by
  norm_num [pmt_radius]

/-- C8, amended. For steel thickness 0.006, shield thickness 0.2 and detector size 20, in
exact rational arithmetic, `pmt_radius = 9.776` and `topbot_offset = 9.8`, where
`pmt_radius = size/2 - shield_thickness - 4 * steel_thickness` and
`topbot_offset = size/2 - shield_thickness`. -/
theorem example_derived_radii :
    pmt_radius (0.006 : ℚ) 0.2 20 = 9.776 ∧ topbot_offset (0.2 : ℚ) 20 = 9.8 ∧
    ∀ steel_thickness shield_thickness detector_size : ℚ,
      pmt_radius steel_thickness shield_thickness detector_size
        = detector_size / 2 - shield_thickness - 4 * steel_thickness ∧
      topbot_offset shield_thickness detector_size = detector_size / 2 - shield_thickness := by
  refine ⟨by norm_num [pmt_radius], by norm_num [topbot_offset], ?_⟩
  intro st sh ds
  exact ⟨rfl, rfl⟩

/-- C9 as stated fails: in the worked configuration (2 rows, `topbot_offset = 3/2`,
`pmt_space = √(8π/7) ≈ 1.89`) the `z` of row 0 and of row `rows - 1 - 0` are not negatives
of each other. -/
theorem barrel_rows_not_centred :
    ∃ (g : Locals ℝ) (db2 : DB ℝ),
      g.OfRun ⟨Real.pi, Real.cos, Real.sin, Real.sqrt⟩ (exampleLoad ℝ) exampleDetector
        (exampleDB ℝ) db2 ∧
      1 ≤ g.rows ∧ 0 < g.cols ∧ 0 < g.rows ∧
      ∃ z0 z1 : ℝ, g.pmt.z[0 + 0 * g.rows]? = some z0 ∧
        g.pmt.z[(g.rows - 1 - 0) + 0 * g.rows]? = some z1 ∧ z0 ≠ -z1 := by
  obtain ⟨g, db2, hg, -, hT, -, hs, hc, hr, -⟩ := example_run
  obtain ⟨-, -, -, hbar, -⟩ := OfRun_records g _ _ _ _ _ hg
  have h0 := (hbar 0 (by omega) 0 (by omega)).2.2.1
  have h1 := (hbar 0 (by omega) (g.rows - 1 - 0) (by omega)).2.2.1
  simp only [barrelRecord] at h0 h1
  refine ⟨g, db2, hg, by omega, by omega, by omega, _, _, h0, h1, ?_⟩
  obtain ⟨hlo, -⟩ := example_pmt_space_bounds
  rw [← hs] at hlo
  rw [hr, hT]
  norm_num
  intro h
  linarith

/-- C9, amended. For every column `c` and row `r` of a completed run, the `z` of row `r` is
`r * 2 * topbot_offset / rows + pmt_space / 2 - topbot_offset`, and the `z` of rows `r` and
`rows - 1 - r` add up to `pmt_space - 2 * topbot_offset / rows`; they are negatives of each
other exactly when `pmt_space * rows = 2 * topbot_offset`. -/
theorem barrel_row_pair_sum (g : Locals R) (m : Libm R) (Load : String → DB R → ℤ × DB R)
    (detector : DBLink) (db db2 : DB R) (hg : g.OfRun m Load detector db db2)
    (c r : ℕ) (hc : c < g.cols) (hr : r < g.rows) :
    ∃ z z1 : R, g.pmt.z[r + c * g.rows]? = some z ∧
      g.pmt.z[(g.rows - 1 - r) + c * g.rows]? = some z1 ∧
      z = (r : R) * 2 * g.topbot_offset / (g.rows : R) + g.pmt_space / 2 - g.topbot_offset ∧
      z + z1 = g.pmt_space - 2 * g.topbot_offset / (g.rows : R) ∧
      (z = -z1 ↔ g.pmt_space * (g.rows : R) = 2 * g.topbot_offset) := by
  obtain ⟨-, -, -, hbar, -⟩ := OfRun_records g m Load detector db db2 hg
  have h0 := (hbar c hc r hr).2.2.1
  have h1 := (hbar c hc (g.rows - 1 - r) (by omega)).2.2.1
  simp only [barrelRecord] at h0 h1
  have hrows : (0 : R) < (g.rows : R) := by exact_mod_cast (by omega : 0 < g.rows)
  have hcast : ((g.rows - 1 - r : ℕ) : R) = (g.rows : R) - 1 - (r : R) := by
    rw [Nat.sub_sub, Nat.cast_sub (by omega)]
    push_cast
    ring
  have hsum : ((r : R) * 2 * g.topbot_offset / (g.rows : R) + g.pmt_space / 2
        - g.topbot_offset) +
      (((g.rows - 1 - r : ℕ) : R) * 2 * g.topbot_offset / (g.rows : R) + g.pmt_space / 2
        - g.topbot_offset) = g.pmt_space - 2 * g.topbot_offset / (g.rows : R) := by
    rw [hcast]
    field_simp
    ring
  refine ⟨_, _, h0, h1, rfl, hsum, ?_⟩
  constructor
  · intro h
    have h2 : g.pmt_space - 2 * g.topbot_offset / (g.rows : R) = 0 := by
      rw [← hsum, h]; ring
    have h3 : g.pmt_space = 2 * g.topbot_offset / (g.rows : R) := by linarith
    rw [h3]
    field_simp
  · intro h
    have h3 : g.pmt_space - 2 * g.topbot_offset / (g.rows : R) = 0 := by
      rw [sub_eq_zero, eq_div_iff hrows.ne']
      exact h
    rw [h3] at hsum
    linarith

/-- Witness for C9 (amended): column 0 and row 0 of the worked configuration. -/
theorem barrel_row_pair_sum_witness :
    ∃ (g : Locals ℝ) (db2 : DB ℝ),
      g.OfRun ⟨Real.pi, Real.cos, Real.sin, Real.sqrt⟩ (exampleLoad ℝ) exampleDetector
        (exampleDB ℝ) db2 ∧
      0 < g.cols ∧ 0 < g.rows ∧
      ∃ z z1 : ℝ, g.pmt.z[0 + 0 * g.rows]? = some z ∧
        g.pmt.z[(g.rows - 1 - 0) + 0 * g.rows]? = some z1 ∧
        z = ((0 : ℕ) : ℝ) * 2 * g.topbot_offset / (g.rows : ℝ) + g.pmt_space / 2
          - g.topbot_offset ∧
        z + z1 = g.pmt_space - 2 * g.topbot_offset / (g.rows : ℝ) ∧
        (z = -z1 ↔ g.pmt_space * (g.rows : ℝ) = 2 * g.topbot_offset) := by
  obtain ⟨g, db2, hg, -, -, -, -, hc, hr, -⟩ := example_run
  have hc0 : 0 < g.cols := by omega
  have hr0 : 0 < g.rows := by omega
  exact ⟨g, db2, hg, hc0, hr0, barrel_row_pair_sum g _ _ _ _ _ hg 0 0 hc0 hr0⟩

theorem present_not_missing (Load : String → DB R → ℤ × DB R) (det : DBLink) (db : DB R)
    (cov : R) (t : String) (rho : List R) (st sh ds : R)
    (h1 : db ⟨det.table, det.index, "photocathode_coverage"⟩ = some (.D cov))
    (h2 : (Load geo_template db).1 ≠ 0)
    (h3 : (Load geo_template db).2 ⟨"GEO", "inner_pmts", "pmt_type"⟩ = some (.S t))
    (h4 : (Load geo_template db).2 ⟨"PMT", t, "rho_edge"⟩ = some (.DArray rho))
    (h6 : (Load geo_template db).2 ⟨"GEO", "shield", "steel_thickness"⟩ = some (.D st))
    (h7 : (Load geo_template db).2 ⟨"GEO", "shield", "shield_thickness"⟩ = some (.D sh))
    (h8 : (Load geo_template db).2 ⟨"GEO", "shield", "detector_size"⟩ = some (.D ds)) :
    ¬ (LoadFails Load db ∨ MissingKey Load det db) := by
  rintro (h | h | h | ⟨t1, ht1, h⟩ | h | h | h)
  · exact h2 h
  · exact h cov h1
  · exact h t h3
  · rw [h3] at ht1
    cases ht1
    exact h rho h4
  · exact h st h6
  · exact h sh h7
  · exact h ds h8

/-- C10, amended. If the template fails to load, the run stops with a diagnostic; if a
required key is missing, it stops with a diagnostic (`Log::Die` or the accessor's error)
provided the `rho_edge` array is not empty; whenever the run stops, for whatever reason, no
`Set` call has been made (the database is the one it started from, or the one `Load` left);
whenever it completes, all 22 output keys have been written. -/
theorem publish_all_or_nothing (m : Libm R) (Load : String → DB R → ℤ × DB R)
    (detector : DBLink) (db : DB R) :
    (LoadFails Load db →
      ∃ e, (DefineDetector m Load detector db).1 = .error e ∧ e ≠ .undefined) ∧
    (MissingKey Load detector db → ¬ EmptyRhoEdge Load db →
      ∃ e, (DefineDetector m Load detector db).1 = .error e ∧ e ≠ .undefined) ∧
    (∀ e, (DefineDetector m Load detector db).1 = .error e →
      (DefineDetector m Load detector db).2 = db ∨
      (DefineDetector m Load detector db).2 = (Load geo_template db).2) ∧
    ((DefineDetector m Load detector db).1 = .ok () →
      ∃ g : Locals R, g.OfRun m Load detector db (DefineDetector m Load detector db).2 ∧
        (DefineDetector m Load detector db).2 = published g (Load geo_template db).2) := by
  rcases hout : DefineDetector m Load detector db with ⟨res, db2⟩
  refine ⟨?_, ?_, ?_, ?_⟩
  · intro hfail
    cases res with
    | ok u =>
      exfalso
      rw [DefineDetector_ok_iff] at hout
      obtain ⟨cov, pt, rho, pr, st, sh, ds, g, -, k2, -⟩ := hout
      exact k2 hfail
    | error e =>
      refine ⟨e, rfl, ?_⟩
      rcases DefineDetector_error_cases m Load detector db db2 e hout with
        ⟨-, he, -⟩ | ⟨cov, -, -, h⟩
      · rw [he]; simp
      rcases h with ⟨-, he⟩ | ⟨k2, -⟩
      · rw [he]; simp
      · exact absurd hfail k2
  · intro hfail hrho
    cases res with
    | ok u =>
      exfalso
      rw [DefineDetector_ok_iff] at hout
      obtain ⟨cov, pt, rho, pr, st, sh, ds, g, k1, k2, k3, k4, k5, k6, k7, k8, -, -⟩ := hout
      exact present_not_missing Load detector db cov pt rho st sh ds k1 k2 k3 k4 k6 k7 k8
        (Or.inr hfail)
    | error e =>
      refine ⟨e, rfl, ?_⟩
      rcases DefineDetector_error_cases m Load detector db db2 e hout with
        ⟨-, he, -⟩ | ⟨cov, k1, -, h⟩
      · rw [he]; simp
      rcases h with ⟨-, he⟩ | ⟨k2, h⟩
      · rw [he]; simp
      rcases h with ⟨-, he⟩ | ⟨t, k3, h⟩
      · rw [he]; simp
      rcases h with ⟨-, he⟩ | ⟨rho, k4, h⟩
      · rw [he]; simp
      rcases h with he | ⟨pr, k5, h⟩
      · exfalso
        cases rho with
        | nil => exact hrho ⟨t, k3, k4⟩
        | cons a l => simp [photocathode_radius] at he
      rcases h with ⟨-, he⟩ | ⟨st, k6, h⟩
      · rw [he]; simp
      rcases h with ⟨-, he⟩ | ⟨sh, k7, h⟩
      · rw [he]; simp
      rcases h with ⟨-, he⟩ | ⟨ds, k8, -⟩
      · rw [he]; simp
      · exact absurd (Or.inr hfail)
          (present_not_missing Load detector db cov t rho st sh ds k1 k2 k3 k4 k6 k7 k8)
  · intro e he
    simp only at he
    subst he
    exact DefineDetector_error_db m Load detector db db2 e hout
  · intro hok
    simp only at hok
    subst hok
    obtain ⟨g, hg⟩ := (DefineDetector_ok_iff_OfRun m Load detector db db2).mp hout
    exact ⟨g, hg, OfRun_published g m Load detector db db2 hg⟩

theorem degenerate_layout :
    layout ⟨Real.pi, Real.cos, Real.sin, Real.sqrt⟩ (1 / 2 : ℝ) 1 1 0 2 = .error .undefined := by
  have hpi := Real.pi_pos
  have hR : pmt_radius (1 : ℝ) 0 2 = -3 := by norm_num [pmt_radius]
  have hT : topbot_offset (0 : ℝ) 2 = 1 := by norm_num [topbot_offset]
  have hS : surface_area ⟨Real.pi, Real.cos, Real.sin, Real.sqrt⟩ (-3 : ℝ) 1
      = 6 * Real.pi := by
    simp only [surface_area]; ring
  have hq : (1 / 2 : ℝ) * (6 * Real.pi) / (Real.pi * 1 * 1) = ((3 : ℤ) : ℝ) := by
    field_simp
    ring
  have hreq : required_pmts (1 / 2 : ℝ) (6 * Real.pi)
      (photocathode_area ⟨Real.pi, Real.cos, Real.sin, Real.sqrt⟩ 1) = .ok 3 := by
    simp only [required_pmts, fdiv, photocathode_area, bind, Except.bind]
    rw [if_neg (by simpa using hpi.ne')]
    simp only [pure, Except.pure, math_h.ceil, hq, Int.ceil_intCast]
    norm_num
  have hps : pmt_space ⟨Real.pi, Real.cos, Real.sin, Real.sqrt⟩ (6 * Real.pi) (3 : ℝ)
      = .ok (Real.sqrt (6 * Real.pi / 3)) := by
    have hpos : ¬ (6 * Real.pi / 3 < 0) := not_lt.mpr (by positivity)
    simp only [pmt_space, fdiv, fsqrt, bind, Except.bind]
    rw [if_neg (by norm_num)]
    simp only [if_neg hpos]
  have hcols : cols ⟨Real.pi, Real.cos, Real.sin, Real.sqrt⟩ (-3 : ℝ)
      (Real.sqrt (6 * Real.pi / 3)) = .error .undefined := by
    have hs0 : 0 < Real.sqrt (6 * Real.pi / 3) := Real.sqrt_pos.mpr (by positivity)
    have hs4 : Real.sqrt (6 * Real.pi / 3) < 4 := by
      rw [Real.sqrt_lt' (by norm_num)]
      have := Real.pi_lt_d2
      norm_num at this ⊢
      linarith
    generalize Real.sqrt (6 * Real.pi / 3) = s at hs0 hs4 ⊢
    have hqneg : 2 * Real.pi * (-3) / s ≤ -1 := by
      rw [div_le_iff₀ hs0]
      have := Real.pi_gt_three
      nlinarith
    have hround : math_h.round (2 * Real.pi * (-3) / s) ≤ -1 := by
      unfold math_h.round
      rw [if_neg (by linarith)]
      have : ⌈2 * Real.pi * (-3) / s - 1 / 2⌉ ≤ -1 := Int.ceil_le.mpr (by push_cast; linarith)
      exact_mod_cast this
    have htr : trunc (math_h.round (2 * Real.pi * (-3) / s)) < 0 := by
      unfold trunc
      rw [if_neg (by linarith)]
      have : ⌈math_h.round (2 * Real.pi * (-3) / s)⌉ ≤ -1 :=
        Int.ceil_le.mpr (by push_cast; linarith)
      omega
    simp only [cols, fdiv, bind, Except.bind, if_neg hs0.ne', toSizeT]
    rw [if_neg (by intro h; omega)]
  simp only [layout, bind, Except.bind, hR, hT, hS, hreq, hps, hcols]

/-- C10 as stated fails in both directions. With the template loaded, every key present
and an empty `rho_edge` array, the run does not end in `Log::Die` or an accessor error:
line 25 reads `rho_edge[0]`, which is undefined. With the template loaded, every key
present and a non-empty `rho_edge`, but `pmt_radius = -3`, line 45 converts a negative
number to `size_t`, and none of the output keys is written. -/
theorem all_or_nothing_counterexamples :
    (¬ LoadFails (exampleLoad ℝ) (emptyRhoDB ℝ) ∧
      ¬ MissingKey (exampleLoad ℝ) exampleDetector (emptyRhoDB ℝ) ∧
      EmptyRhoEdge (exampleLoad ℝ) (emptyRhoDB ℝ) ∧
      DefineDetector ⟨Real.pi, Real.cos, Real.sin, Real.sqrt⟩ (exampleLoad ℝ) exampleDetector
        (emptyRhoDB ℝ) = (.error .undefined, emptyRhoDB ℝ)) ∧
    (¬ LoadFails (exampleLoad ℝ) (degenerateDB ℝ) ∧
      ¬ MissingKey (exampleLoad ℝ) exampleDetector (degenerateDB ℝ) ∧
      ¬ EmptyRhoEdge (exampleLoad ℝ) (degenerateDB ℝ) ∧
      DefineDetector ⟨Real.pi, Real.cos, Real.sin, Real.sqrt⟩ (exampleLoad ℝ) exampleDetector
        (degenerateDB ℝ) = (.error .undefined, degenerateDB ℝ) ∧
      degenerateDB ℝ ⟨"PMTINFO", "", "x"⟩ = none) := by
  constructor
  · have e1 : emptyRhoDB ℝ ⟨"DETECTOR", "", "photocathode_coverage"⟩ = some (.D (7 / 8)) := by
      simp [emptyRhoDB, exampleDB]
    have e2 : emptyRhoDB ℝ ⟨"GEO", "inner_pmts", "pmt_type"⟩ = some (.S "r7081") := by
      simp [emptyRhoDB, exampleDB]
    have e3 : emptyRhoDB ℝ ⟨"PMT", "r7081", "rho_edge"⟩ = some (.DArray []) := by
      simp [emptyRhoDB]
    have e4 : emptyRhoDB ℝ ⟨"GEO", "shield", "steel_thickness"⟩ = some (.D (1 / 8)) := by
      simp [emptyRhoDB, exampleDB]
    have e5 : emptyRhoDB ℝ ⟨"GEO", "shield", "shield_thickness"⟩ = some (.D (1 / 2)) := by
      simp [emptyRhoDB, exampleDB]
    have e6 : emptyRhoDB ℝ ⟨"GEO", "shield", "detector_size"⟩ = some (.D 4) := by
      simp [emptyRhoDB, exampleDB]
    have hnot := present_not_missing (exampleLoad ℝ) exampleDetector (emptyRhoDB ℝ) (7 / 8)
      "r7081" [] (1 / 8) (1 / 2) 4 e1 (by simp [exampleLoad]) e2 e3 e4 e5 e6
    refine ⟨fun h => hnot (Or.inl h), fun h => hnot (Or.inr h), ⟨"r7081", e2, e3⟩, ?_⟩
    simp [DefineDetector, bind, Run.bind, GetD, GetS, GetDArray, GetLink, LoadTemplate,
      exampleLoad, exampleDetector, Die, Run.lift, e1, e2, e3, photocathode_radius, pure]
  · have e1 : degenerateDB ℝ ⟨"DETECTOR", "", "photocathode_coverage"⟩
        = some (.D (1 / 2)) := by
      simp [degenerateDB]
    have e2 : degenerateDB ℝ ⟨"GEO", "inner_pmts", "pmt_type"⟩ = some (.S "r7081") := by
      simp [degenerateDB]
    have e3 : degenerateDB ℝ ⟨"PMT", "r7081", "rho_edge"⟩ = some (.DArray [1]) := by
      simp [degenerateDB]
    have e4 : degenerateDB ℝ ⟨"GEO", "shield", "steel_thickness"⟩ = some (.D 1) := by
      simp [degenerateDB]
    have e5 : degenerateDB ℝ ⟨"GEO", "shield", "shield_thickness"⟩ = some (.D 0) := by
      simp [degenerateDB]
    have e6 : degenerateDB ℝ ⟨"GEO", "shield", "detector_size"⟩ = some (.D 2) := by
      simp [degenerateDB]
    have hnot := present_not_missing (exampleLoad ℝ) exampleDetector (degenerateDB ℝ) (1 / 2)
      "r7081" [1] 1 0 2 e1 (by simp [exampleLoad]) e2 e3 e4 e5 e6
    refine ⟨fun h => hnot (Or.inl h), fun h => hnot (Or.inr h), ?_, ?_, by simp [degenerateDB]⟩
    · rintro ⟨t, ht, hrho⟩
      have ht1 : (exampleLoad ℝ geo_template (degenerateDB ℝ)).2 = degenerateDB ℝ := rfl
      rw [ht1, e2] at ht
      cases ht
      rw [ht1, e3] at hrho
      cases hrho
    · have hl : layout ⟨Real.pi, Real.cos, Real.sin, Real.sqrt⟩ (2⁻¹ : ℝ) 1 1 0 2
          = .error .undefined := by
        have := degenerate_layout
        rwa [one_div] at this
      simp [DefineDetector, bind, Run.bind, GetD, GetS, GetDArray, GetLink, LoadTemplate,
        exampleLoad, exampleDetector, Die, Run.lift, e1, e2, e3, e4, e5, e6,
        photocathode_radius, pure, hl]

end Claims

/-! ## Lemmas on the lattice loops, the inputs and the frame -/

section LatticeLemmas

variable {R : Type} [LinearOrderedField R] [FloorRing R]

theorem intRange_eq (lo hi : ℤ) :
    intRange lo hi = (List.range (hi + 1 - lo).toNat).map (fun k : ℕ => lo + (k : ℤ)) := by
  unfold intRange
  simp only [List.bind_eq_flatMap, List.pure_def, List.map_flatMap, List.map_cons, List.map_nil]
  induction List.range (hi + 1 - lo).toNat with
  | nil => rfl
  | cons a l ih => rw [List.flatMap_cons, ih]; rfl

theorem mem_intRange (lo hi k : ℤ) : k ∈ intRange lo hi ↔ lo ≤ k ∧ k ≤ hi := by
  rw [intRange_eq]
  simp only [List.mem_map, List.mem_range]
  constructor
  · rintro ⟨n, hn, rfl⟩
    omega
  · rintro ⟨h1, h2⟩
    exact ⟨(k - lo).toNat, by omega, by omega⟩

theorem intRange_pairwise (lo hi : ℤ) : (intRange lo hi).Pairwise (· < ·) := by
  rw [intRange_eq, List.pairwise_map]
  refine List.Pairwise.imp ?_ (List.pairwise_lt_range _)
  intro a b hab
  omega

theorem intRange_length (lo hi : ℤ) : (intRange lo hi).length = (hi + 1 - lo).toNat := by
  simp [intRange_eq]

theorem checkInt_ok_iff (v w : ℤ) :
    checkInt v = .ok w ↔ (-(2 : ℤ) ^ 31 ≤ v ∧ v < (2 : ℤ) ^ 31) ∧ w = v := by
  unfold checkInt
  split
  · rename_i h
    simp only [Except.ok.injEq, h, true_and]
    exact eq_comm
  · rename_i h
    constructor
    · intro h1; cases h1
    · rintro ⟨h1, -⟩; exact absurd h1 h

theorem topbotStep_ok (m : Libm R) (pmt_radius pmt_space : R) (i j : ℤ)
    (tb tb1 : List (ℤ × ℤ)) (h : topbotStep m pmt_radius pmt_space i j tb = .ok tb1) :
    tb1 = tb ++ (if Accepts m pmt_radius pmt_space i j then [(i, j)] else []) := by
  simp only [topbotStep, bind_ok_iff, checkInt_ok_iff] at h
  obtain ⟨ii, ⟨-, rfl⟩, jj, ⟨-, rfl⟩, n, ⟨-, rfl⟩, h⟩ := h
  unfold Accepts
  split at h <;> rename_i hc
  · rw [if_pos hc]; cases h; rfl
  · rw [if_neg hc]; cases h; simp

theorem foldlM_append_ok {α β : Type} (step : List β → α → Except Err (List β))
    (F : α → List β) (l : List α)
    (hstep : ∀ a ∈ l, ∀ acc acc1, step acc a = .ok acc1 → acc1 = acc ++ F a)
    (acc r : List β) (h : l.foldlM step acc = .ok r) : r = acc ++ l.flatMap F := by
  induction l generalizing acc with
  | nil =>
    simp only [List.foldlM_nil, pure, Except.pure, Except.ok.injEq] at h
    simp [h]
  | cons a l ih =>
    rw [List.foldlM_cons, bind_ok_iff] at h
    obtain ⟨acc1, h1, h2⟩ := h
    have e1 := hstep a (List.mem_cons_self a l) acc acc1 h1
    have e2 := ih (fun b hb => hstep b (List.mem_cons_of_mem a hb)) acc1 h2
    rw [e2, e1, List.flatMap_cons, List.append_assoc]

/-- The enumeration of lines 59–65 as a list expression. -/
theorem topbot_ok_eq (m : Libm R) (pmt_radius pmt_space : R) (rdim : ℤ) (tb : List (ℤ × ℤ))
    (h : topbot m pmt_radius pmt_space rdim = .ok tb) :
    tb = (intRange (-rdim) rdim).flatMap (fun i => (intRange (-rdim) rdim).flatMap
      (fun j => if Accepts m pmt_radius pmt_space i j then [(i, j)] else [])) := by
  simp only [topbot, bind_ok_iff, checkInt_ok_iff] at h
  obtain ⟨lo, ⟨-, rfl⟩, h⟩ := h
  have := foldlM_append_ok _ (fun i => (intRange (-rdim) rdim).flatMap
      (fun j => if Accepts m pmt_radius pmt_space i j then [(i, j)] else []))
    (intRange (-rdim) rdim) ?_ [] tb h
  · simpa using this
  · intro i _ acc acc1 hi
    exact foldlM_append_ok _ _ _
      (fun j _ a a1 hj => topbotStep_ok m pmt_radius pmt_space i j a a1 hj) acc acc1 hi

theorem mem_topbot_iff (m : Libm R) (pmt_radius pmt_space : R) (rdim : ℤ) (tb : List (ℤ × ℤ))
    (h : topbot m pmt_radius pmt_space rdim = .ok tb) (i j : ℤ) :
    (i, j) ∈ tb ↔ (-rdim ≤ i ∧ i ≤ rdim) ∧ (-rdim ≤ j ∧ j ≤ rdim) ∧
      Accepts m pmt_radius pmt_space i j := by
  rw [topbot_ok_eq m pmt_radius pmt_space rdim tb h]
  simp only [List.mem_flatMap, mem_intRange]
  constructor
  · rintro ⟨a, ha, b, hb, hab⟩
    split at hab <;> rename_i hc
    · simp only [List.mem_singleton, Prod.mk.injEq] at hab
      obtain ⟨rfl, rfl⟩ := hab
      exact ⟨ha, hb, hc⟩
    · simp at hab
  · rintro ⟨ha, hb, hc⟩
    exact ⟨i, ha, j, hb, by rw [if_pos hc]; simp⟩

theorem topbot_pairwise (m : Libm R) (pmt_radius pmt_space : R) (rdim : ℤ)
    (tb : List (ℤ × ℤ)) (h : topbot m pmt_radius pmt_space rdim = .ok tb) :
    tb.Pairwise (fun p q => p.1 < q.1 ∨ (p.1 = q.1 ∧ p.2 < q.2)) := by
  rw [topbot_ok_eq m pmt_radius pmt_space rdim tb h]
  rw [List.pairwise_flatMap]
  constructor
  · intro i _
    rw [List.pairwise_flatMap]
    constructor
    · intro j _
      split <;> simp
    · refine List.Pairwise.imp ?_ (intRange_pairwise _ _)
      intro a b hab x hx y hy
      split at hx <;> simp at hx
      split at hy <;> simp at hy
      subst hx hy
      exact Or.inr ⟨rfl, hab⟩
  · refine List.Pairwise.imp ?_ (intRange_pairwise _ _)
    intro a b hab x hx y hy
    simp only [List.mem_flatMap] at hx hy
    obtain ⟨j, _, hx⟩ := hx
    obtain ⟨k, _, hy⟩ := hy
    split at hx <;> simp at hx
    split at hy <;> simp at hy
    subst hx hy
    exact Or.inl hab

theorem topbot_nodup (m : Libm R) (pmt_radius pmt_space : R) (rdim : ℤ)
    (tb : List (ℤ × ℤ)) (h : topbot m pmt_radius pmt_space rdim = .ok tb) : tb.Nodup := by
  refine List.Pairwise.imp ?_ (topbot_pairwise m pmt_radius pmt_space rdim tb h)
  rintro a b (hab | ⟨-, hab⟩) rfl <;> exact lt_irrefl _ hab

theorem foldl_max_spec (rest : List R) (r0 : R) :
    (rest.foldl (fun acc r => if acc < r then r else acc) r0) ∈ r0 :: rest ∧
    ∀ r ∈ r0 :: rest, r ≤ rest.foldl (fun acc r => if acc < r then r else acc) r0 := by
  induction rest generalizing r0 with
  | nil => simp
  | cons a rest ih =>
    rw [List.foldl_cons]
    obtain ⟨h1, h2⟩ := ih (if r0 < a then a else r0)
    constructor
    · rcases List.mem_cons.mp h1 with h | h
      · rw [h]
        split
        · simp
        · simp
      · exact List.mem_cons_of_mem _ (List.mem_cons_of_mem _ h)
    · intro r hr
      rcases List.mem_cons.mp hr with h | h
      · have := h2 _ (List.mem_cons_self _ _)
        rw [h]
        refine le_trans ?_ this
        split
        · rename_i hlt; exact le_of_lt hlt
        · exact le_refl _
      · rcases List.mem_cons.mp h with h | h
        · have := h2 _ (List.mem_cons_self _ _)
          rw [h]
          refine le_trans ?_ this
          split
          · exact le_refl _
          · rename_i hlt; exact not_lt.mp hlt
        · exact h2 r (List.mem_cons_of_mem _ h)

theorem trunc_intCast (k : ℤ) : trunc (k : R) = k := by
  unfold trunc
  split
  · exact Int.floor_intCast k
  · exact Int.ceil_intCast k

/-- A successful conversion of `round(q)` to `size_t`, for `q ≥ 0`, yields the floor of
`q + 1/2`. -/
theorem toSizeT_round_ok (q : R) (hq : 0 ≤ q) (n : ℕ)
    (h : toSizeT (math_h.round q) = .ok n) : (n : ℤ) = ⌊q + 1 / 2⌋ := by
  unfold math_h.round at h
  rw [if_pos hq] at h
  unfold toSizeT at h
  rw [trunc_intCast] at h
  split at h
  · rename_i hc
    cases h
    exact Int.toNat_of_nonneg hc.1
  · cases h

theorem toSizeT_round_eq (q : R) (hq : 0 ≤ q) (hlt : ⌊q + 1 / 2⌋ < (SIZE_RANGE : ℤ)) :
    toSizeT (math_h.round q) = .ok ⌊q + 1 / 2⌋.toNat := by
  have h0 : 0 ≤ ⌊q + 1 / 2⌋ := Int.floor_nonneg.mpr (by linarith)
  unfold math_h.round
  rw [if_pos hq]
  exact toSizeT_intCast _ h0 hlt

theorem fdiv_ok_iff (a b q : R) : fdiv a b = .ok q ↔ b ≠ 0 ∧ q = a / b := by
  unfold fdiv
  split
  · rename_i h
    constructor
    · intro h1; cases h1
    · rintro ⟨h1, -⟩; exact absurd h h1
  · rename_i h
    simp only [Except.ok.injEq, ne_eq, h, not_false_eq_true, true_and]
    exact eq_comm

/-- The row count is at most `2 * topbot_offset / pmt_space + 1/2`, and at least 1 only
when `pmt_space ≤ 4 * topbot_offset`. -/
theorem rows_ok_bound (T s : R) (n : ℕ) (hs : 0 < s) (hT : 0 < T)
    (h : rows T s = .ok n) :
    (n : R) ≤ 2 * T / s + 1 / 2 ∧ 2 * T / s - 1 / 2 < (n : R) := by
  simp only [rows, bind_ok_iff, fdiv_ok_iff] at h
  obtain ⟨q, ⟨-, rfl⟩, h⟩ := h
  have hq : 0 ≤ 2 * T / s := by positivity
  have hn := toSizeT_round_ok _ hq n h
  have hcast : (n : R) = ((⌊2 * T / s + 1 / 2⌋ : ℤ) : R) := by
    rw [← hn]; simp
  rw [hcast]
  constructor
  · exact Int.floor_le _
  · have := Int.lt_floor_add_one (2 * T / s + 1 / 2)
    linarith

theorem OfRun_stages (g : Locals R) (m : Libm R) (Load : String → DB R → ℤ × DB R)
    (det : DBLink) (db db2 : DB R) (hg : g.OfRun m Load det db db2) :
    g.photocathode_area = photocathode_area m g.photocathode_radius ∧
    g.surface_area = surface_area m g.pmt_radius g.topbot_offset ∧
    pmt_space m g.surface_area g.required_pmts = .ok g.pmt_space ∧
    cols m g.pmt_radius g.pmt_space = .ok g.cols ∧
    rows g.topbot_offset g.pmt_space = .ok g.rows ∧
    rdim g.pmt_radius g.pmt_space = .ok g.rdim ∧
    topbot m g.pmt_radius g.pmt_space g.rdim = .ok g.topbot := by
  obtain ⟨cov, st, sh, ds, hl⟩ := OfRun_layout g m Load det db db2 hg
  obtain ⟨-, h2, -, -, -, h6, -, h8, h9, h10, h11, h12, -⟩ :=
    (layout_ok_iff _ _ _ _ _ _ _).mp hl
  exact ⟨h2, h6, h8, h9, h10, h11, h12⟩

theorem Accepts_neg_left (m : Libm R) (pmt_radius pmt_space : R) (i j : ℤ) :
    Accepts m pmt_radius pmt_space (-i) j ↔ Accepts m pmt_radius pmt_space i j := by
  unfold Accepts
  rw [neg_mul_neg]

theorem Accepts_neg_right (m : Libm R) (pmt_radius pmt_space : R) (i j : ℤ) :
    Accepts m pmt_radius pmt_space i (-j) ↔ Accepts m pmt_radius pmt_space i j := by
  unfold Accepts
  rw [neg_mul_neg]

theorem Accepts_swap (m : Libm R) (pmt_radius pmt_space : R) (i j : ℤ) :
    Accepts m pmt_radius pmt_space j i ↔ Accepts m pmt_radius pmt_space i j := by
  unfold Accepts
  rw [add_comm]

/-- Over the reals the spacing of a completed computation is positive: it is a square
root, and the divisions by it succeeded. -/
theorem real_pmt_space_pos (S N s R_ : ℝ) (c : ℕ)
    (hs : pmt_space ⟨Real.pi, Real.cos, Real.sin, Real.sqrt⟩ S N = .ok s)
    (hc : cols ⟨Real.pi, Real.cos, Real.sin, Real.sqrt⟩ R_ s = .ok c) : 0 < s := by
  simp only [pmt_space, bind_ok_iff, fdiv_ok_iff] at hs
  obtain ⟨q, -, hq⟩ := hs
  simp only [cols, bind_ok_iff, fdiv_ok_iff] at hc
  obtain ⟨q2, ⟨hne, -⟩, -⟩ := hc
  unfold fsqrt at hq
  split at hq
  · cases hq
  · cases hq
    exact lt_of_le_of_ne (Real.sqrt_nonneg _) (Ne.symm hne)

/-- The window bound: an accepted point has both coordinates strictly inside the window
computed by line 58. -/
theorem accepted_in_window (R_ s : ℝ) (d : ℤ) (hs : 0 < s) (hd : rdim R_ s = .ok d)
    (i j : ℤ) (h : Accepts ⟨Real.pi, Real.cos, Real.sin, Real.sqrt⟩ R_ s i j) :
    |i| < d ∧ |j| < d := by
  unfold Accepts at h
  simp only at h
  simp only [rdim, bind_ok_iff, fdiv_ok_iff] at hd
  obtain ⟨q, ⟨-, rfl⟩, hd⟩ := hd
  have hi : |(i : ℝ)| ≤ Real.sqrt ((i * i + j * j : ℤ) : ℝ) := by
    apply Real.abs_le_sqrt
    push_cast
    nlinarith [sq_nonneg (j : ℝ)]
  have hj : |(j : ℝ)| ≤ Real.sqrt ((i * i + j * j : ℤ) : ℝ) := by
    apply Real.abs_le_sqrt
    push_cast
    nlinarith [sq_nonneg (i : ℝ)]
  have hn : Real.sqrt ((i * i + j * j : ℤ) : ℝ) ≤ R_ / s - 1 / 2 := by
    rw [le_sub_iff_add_le, le_div_iff₀ hs]
    linarith
  have hq : 0 ≤ R_ / s := by
    have := Real.sqrt_nonneg ((i * i + j * j : ℤ) : ℝ)
    linarith
  unfold math_h.round toInt at hd
  rw [if_pos hq, trunc_intCast, checkInt_ok_iff] at hd
  obtain ⟨-, rfl⟩ := hd
  have key : ∀ k : ℤ, |(k : ℝ)| ≤ R_ / s - 1 / 2 → |k| < ⌊R_ / s + 1 / 2⌋ := by
    intro k hk
    have : ((|k| + 1 : ℤ) : ℝ) ≤ R_ / s + 1 / 2 := by
      push_cast
      linarith
    have := Int.le_floor.mpr this
    omega
  exact ⟨key i (le_trans hi hn), key j (le_trans hj hn)⟩

/-- A run whose template loads, that reads the five inputs and whose layout computation
completes, completes and publishes the layout. -/
theorem OfRun_of_reads (m : Libm R) (Load : String → DB R → ℤ × DB R) (det : DBLink)
    (db : DB R) (cov : R) (rho : List R) (st sh ds : R) (g : Locals R)
    (hload : (Load geo_template db).1 ≠ 0)
    (hr : ReadsInputs Load det db cov rho st sh ds)
    (hpr : photocathode_radius rho = .ok g.photocathode_radius)
    (hl : layout m cov g.photocathode_radius st sh ds = .ok g) :
    g.OfRun m Load det db (published g (Load geo_template db).2) := by
  obtain ⟨h1, ⟨t, h2, h3⟩, h4, h5, h6⟩ := hr
  refine ⟨?_, cov, t, rho, st, sh, ds, h1, h2, h3, hpr, h4, h5, h6, hl⟩
  rw [DefineDetector_ok_iff]
  exact ⟨cov, t, rho, g.photocathode_radius, st, sh, ds, g, h1, hload, h2, h3, hpr, h4, h5,
    h6, hl, rfl⟩

/-- The locals of a completed run are those of the layout computed from the inputs it
read. -/
theorem OfRun_reads_layout (g : Locals R) (m : Libm R) (Load : String → DB R → ℤ × DB R)
    (det : DBLink) (db db2 : DB R) (cov : R) (rho : List R) (st sh ds : R)
    (hg : g.OfRun m Load det db db2) (hr : ReadsInputs Load det db cov rho st sh ds) :
    photocathode_radius rho = .ok g.photocathode_radius ∧
    layout m cov g.photocathode_radius st sh ds = .ok g := by
  obtain ⟨-, cov1, t1, rho1, st1, sh1, ds1, k1, k2, k3, k4, k5, k6, k7, k8⟩ := hg
  obtain ⟨h1, ⟨t, h2, h3⟩, h4, h5, h6⟩ := hr
  rw [h1] at k1
  rw [h2] at k2
  cases k1
  cases k2
  rw [h3] at k3
  rw [h4] at k5
  rw [h5] at k6
  rw [h6] at k7
  cases k3
  cases k5
  cases k6
  cases k7
  exact ⟨k4, k8⟩

theorem published_outputKeys (g : Locals R) (db db1 : DB R) (k : Key) (hk : k ∈ outputKeys) :
    published g db k = published g db1 k := by
  simp only [outputKeys, List.mem_cons, List.mem_singleton, List.not_mem_nil, or_false] at hk
  rcases hk with h | h | h | h | h | h | h | h | h | h | h | h | h | h | h | h | h | h | h |
    h | h | h <;> subst h <;> simp [published, DB.write]

theorem published_frame (g : Locals R) (db : DB R) (k : Key) (hk : k ∉ outputKeys) :
    published g db k = db k := by
  simp only [outputKeys, List.mem_cons, List.mem_singleton, List.not_mem_nil, or_false,
    not_or] at hk
  obtain ⟨h1, h2, h3, h4, h5, h6, h7, h8, h9, h10, h11, h12, h13, h14, h15, h16, h17, h18,
    h19, h20, h21, h22⟩ := hk
  simp only [published, DB.write, if_neg h1, if_neg h2, if_neg h3, if_neg h4, if_neg h5,
    if_neg h6, if_neg h7, if_neg h8, if_neg h9, if_neg h10, if_neg h11, if_neg h12,
    if_neg h13, if_neg h14, if_neg h15, if_neg h16, if_neg h17, if_neg h18, if_neg h19,
    if_neg h20, if_neg h21, if_neg h22]

theorem sizeToInt_of_lt (n : ℕ) (h : n < 2 ^ 31) : sizeToInt n = (n : ℤ) := by
  unfold sizeToInt
  omega

theorem sizeToInt_lt (n : ℕ) : sizeToInt n < 2 ^ 31 := by
  unfold sizeToInt
  omega

theorem foldlM_succeeds {α σ : Type} (step : σ → α → Except Err σ) (l : List α)
    (hstep : ∀ a ∈ l, ∀ acc, ∃ acc1, step acc a = .ok acc1) (acc : σ) :
    ∃ r, l.foldlM step acc = .ok r := by
  induction l generalizing acc with
  | nil => exact ⟨acc, rfl⟩
  | cons a l ih =>
    obtain ⟨acc1, h1⟩ := hstep a (List.mem_cons_self a l) acc
    obtain ⟨r, h2⟩ := ih (fun b hb => hstep b (List.mem_cons_of_mem a hb)) acc1
    exact ⟨r, by rw [List.foldlM_cons, h1]; exact h2⟩

theorem length_flatMap_le {α β : Type} (l : List α) (F : α → List β) (k : ℕ)
    (h : ∀ a ∈ l, (F a).length ≤ k) : (l.flatMap F).length ≤ l.length * k := by
  induction l with
  | nil => simp
  | cons a l ih =>
    rw [List.flatMap_cons, List.length_append, List.length_cons, Nat.succ_mul]
    have h1 := h a (List.mem_cons_self a l)
    have h2 := ih (fun b hb => h b (List.mem_cons_of_mem a hb))
    omega

/-- The lattice loops complete whenever the window is small enough for `i*i + j*j` to fit
an `int`, and they accept at most `(2*rdim + 1)²` points. -/
theorem topbot_succeeds (m : Libm R) (pmt_radius pmt_space : R) (rdim : ℤ)
    (h0 : 0 ≤ rdim) (h1 : rdim ≤ 32767) :
    ∃ tb, topbot m pmt_radius pmt_space rdim = .ok tb ∧
      tb.length ≤ (2 * rdim + 1).toNat * (2 * rdim + 1).toNat := by
  have c0 : checkInt (-rdim) = .ok (-rdim) := by
    rw [checkInt_ok_iff]; exact ⟨⟨by omega, by omega⟩, rfl⟩
  have hex : ∃ tb, topbot m pmt_radius pmt_space rdim = .ok tb := by
    simp only [topbot, bind, Except.bind, c0]
    apply foldlM_succeeds
    intro i hi acc
    apply foldlM_succeeds
    intro j hj acc1
    rw [mem_intRange] at hi hj
    have hi2 : i * i ≤ 32767 * 32767 := by nlinarith
    have hj2 : j * j ≤ 32767 * 32767 := by nlinarith
    exact ⟨_, topbotStep_eq m pmt_radius pmt_space i j acc1 (by omega)⟩
  obtain ⟨tb, htb⟩ := hex
  refine ⟨tb, htb, ?_⟩
  rw [topbot_ok_eq m pmt_radius pmt_space rdim tb htb]
  have hlen : (intRange (-rdim) rdim).length = (2 * rdim + 1).toNat := by
    rw [intRange_length]; congr 1; ring
  refine le_trans (length_flatMap_le _ _ (2 * rdim + 1).toNat ?_) (by rw [hlen])
  intro i _
  refine le_trans (length_flatMap_le _ _ 1 ?_) (by rw [hlen, Nat.mul_one])
  intro j _
  split <;> simp

/-- Rounding a quotient known to lie in `[lo, hi]` and converting it to `size_t`. -/
theorem toSizeT_round_bounds (q : R) (lo hi : ℕ) (h1 : (lo : R) ≤ q) (h2 : q ≤ (hi : R))
    (hhi : hi + 1 < SIZE_RANGE) :
    ∃ n, toSizeT (math_h.round q) = .ok n ∧ lo ≤ n ∧ n ≤ hi + 1 := by
  have hq : 0 ≤ q := le_trans (Nat.cast_nonneg lo) h1
  have hlo : (lo : ℤ) ≤ ⌊q + 1 / 2⌋ := by
    apply Int.le_floor.mpr
    push_cast
    linarith
  have hup : ⌊q + 1 / 2⌋ < (hi : ℤ) + 1 := by
    apply Int.floor_lt.mpr
    push_cast
    linarith
  refine ⟨⌊q + 1 / 2⌋.toNat, toSizeT_round_eq q hq ?_, by omega, by omega⟩
  have : ((hi + 1 : ℕ) : ℤ) < (SIZE_RANGE : ℤ) := by exact_mod_cast hhi
  push_cast at this
  omega

/-- Rounding a quotient known to lie in `[lo, hi]` and converting it to `int`. -/
theorem toInt_round_bounds (q : R) (lo hi : ℕ) (h1 : (lo : R) ≤ q) (h2 : q ≤ (hi : R))
    (hhi : hi + 1 < 2 ^ 31) :
    ∃ d, toInt (math_h.round q) = .ok d ∧ (lo : ℤ) ≤ d ∧ d ≤ (hi : ℤ) + 1 := by
  have hq : 0 ≤ q := le_trans (Nat.cast_nonneg lo) h1
  have hlo : (lo : ℤ) ≤ ⌊q + 1 / 2⌋ := by
    apply Int.le_floor.mpr
    push_cast
    linarith
  have hup : ⌊q + 1 / 2⌋ < (hi : ℤ) + 1 := by
    apply Int.floor_lt.mpr
    push_cast
    linarith
  refine ⟨⌊q + 1 / 2⌋, ?_, hlo, by omega⟩
  unfold math_h.round
  rw [if_pos hq]
  exact toInt_intCast _ (by omega) (by omega)

end LatticeLemmas

/-! ## Further runs over the reals -/

section RealRuns

theorem example_reads (R : Type) [LinearOrderedField R] [FloorRing R] :
    ReadsInputs (exampleLoad R) exampleDetector (exampleDB R) (7 / 8) [0, 1] (1 / 8) (1 / 2)
      4 := by
  obtain ⟨e1, e2, e3, e4, e5, e6⟩ := exampleDB_lookup R
  exact ⟨e1, ⟨"r7081", e2, e3⟩, e4, e5, e6⟩

theorem stale_reads (R : Type) [LinearOrderedField R] [FloorRing R] :
    ReadsInputs (exampleLoad R) exampleDetector (staleDB R) (7 / 8) [0, 1] (1 / 8) (1 / 2)
      4 := by
  refine ⟨?_, ⟨"r7081", ?_, ?_⟩, ?_, ?_, ?_⟩ <;> simp [staleDB, exampleDB, exampleLoad,
    exampleDetector]

theorem dense_reads (R : Type) [LinearOrderedField R] [FloorRing R] :
    ReadsInputs (exampleLoad R) exampleDetector (denseDB R) (7 / 8) [1 / 32768] (1 / 8)
      (1 / 2) 4 := by
  refine ⟨?_, ⟨"r7081", ?_, ?_⟩, ?_, ?_, ?_⟩ <;> simp [denseDB, exampleDB, exampleLoad,
    exampleDetector]

/-- The run on `staleDB` completes with the layout of the worked configuration. -/
theorem stale_run :
    ∃ (g : Locals ℝ) (db2 : DB ℝ),
      g.OfRun ⟨Real.pi, Real.cos, Real.sin, Real.sqrt⟩ (exampleLoad ℝ) exampleDetector
        (staleDB ℝ) db2 ∧ g.cols = 3 ∧ g.rows = 2 ∧ g.topbot = [(0, 0)] := by
  obtain ⟨g, hg, -, -, hc, hr, -, htb⟩ := example_layout
  have hpr : g.photocathode_radius = 1 := ((layout_ok_iff _ _ _ _ _ _ _).mp hg).1
  refine ⟨g, _, OfRun_of_reads _ _ _ _ _ _ _ _ _ g (by simp [exampleLoad]) (stale_reads ℝ)
    ?_ ?_, hc, hr, htb⟩
  · rw [hpr]; exact example_photocathode_radius
  · rw [hpr]; exact hg

theorem dense_pmt_space_bounds :
    (189 / 100 / 32768 : ℝ) < Real.sqrt (8 * Real.pi / 7516192768) ∧
    Real.sqrt (8 * Real.pi / 7516192768) < 19 / 10 / 32768 := by
  have h1 := Real.pi_gt_d2
  have h2 := Real.pi_lt_d2
  constructor
  · rw [Real.lt_sqrt (by norm_num)]
    norm_num at h1 ⊢
    linarith
  · rw [Real.sqrt_lt' (by norm_num)]
    norm_num at h2 ⊢
    linarith

theorem dense_photocathode_radius :
    photocathode_radius ([1 / 32768] : List ℝ) = .ok (1 / 32768) := by
  simp [photocathode_radius]

theorem dense_required_pmts :
    required_pmts (7 / 8 : ℝ) (8 * Real.pi)
      (photocathode_area ⟨Real.pi, Real.cos, Real.sin, Real.sqrt⟩ (1 / 32768))
      = .ok 7516192768 := by
  have hpi : Real.pi ≠ 0 := Real.pi_ne_zero
  have hq : (7 / 8 : ℝ) * (8 * Real.pi) / (Real.pi * (1 / 32768) * (1 / 32768))
      = ((7516192768 : ℤ) : ℝ) := by
    field_simp
    ring
  simp only [required_pmts, fdiv, photocathode_area, bind, Except.bind]
  rw [if_neg (by simpa using hpi)]
  simp only [pure, Except.pure, math_h.ceil, hq, Int.ceil_intCast]
  norm_num

theorem dense_pmt_space :
    pmt_space ⟨Real.pi, Real.cos, Real.sin, Real.sqrt⟩ (8 * Real.pi) (7516192768 : ℝ)
      = .ok (Real.sqrt (8 * Real.pi / 7516192768)) := by
  have hpos : ¬ (8 * Real.pi / 7516192768 < 0) := not_lt.mpr (by positivity)
  simp only [pmt_space, fdiv, fsqrt, bind, Except.bind]
  rw [if_neg (by norm_num)]
  simp only [if_neg hpos]

theorem dense_cols :
    ∃ c, cols ⟨Real.pi, Real.cos, Real.sin, Real.sqrt⟩ (1 : ℝ)
        (Real.sqrt (8 * Real.pi / 7516192768)) = .ok c ∧ 108306 ≤ c ∧ c ≤ 109228 := by
  obtain ⟨hlo, hhi⟩ := dense_pmt_space_bounds
  have h1 := Real.pi_gt_d2
  have h2 := Real.pi_lt_d2
  generalize Real.sqrt (8 * Real.pi / 7516192768) = s at hlo hhi ⊢
  have hspos : 0 < s := lt_trans (by norm_num) hlo
  have hs : s ≠ 0 := ne_of_gt hspos
  obtain ⟨n, hn, hn1, hn2⟩ := toSizeT_round_bounds (2 * Real.pi * 1 / s) 108306 109227
    (by rw [le_div_iff₀ hspos]; norm_num at h1 hhi ⊢; linarith)
    (by rw [div_le_iff₀ hspos]; norm_num at h2 hlo ⊢; linarith)
    (by norm_num [SIZE_RANGE])
  refine ⟨n, ?_, hn1, hn2⟩
  simp only [cols, fdiv, bind, Except.bind, if_neg hs]
  exact hn

theorem dense_rows :
    ∃ r, rows (3 / 2 : ℝ) (Real.sqrt (8 * Real.pi / 7516192768)) = .ok r ∧
      51738 ≤ r ∧ r ≤ 52014 := by
  obtain ⟨hlo, hhi⟩ := dense_pmt_space_bounds
  generalize Real.sqrt (8 * Real.pi / 7516192768) = s at hlo hhi ⊢
  have hspos : 0 < s := lt_trans (by norm_num) hlo
  have hs : s ≠ 0 := ne_of_gt hspos
  obtain ⟨n, hn, hn1, hn2⟩ := toSizeT_round_bounds (2 * (3 / 2) / s) 51738 52013
    (by rw [le_div_iff₀ hspos]; norm_num at hhi ⊢; linarith)
    (by rw [div_le_iff₀ hspos]; norm_num at hlo ⊢; linarith)
    (by norm_num [SIZE_RANGE])
  refine ⟨n, ?_, hn1, hn2⟩
  simp only [rows, fdiv, bind, Except.bind, if_neg hs]
  exact hn

theorem dense_rdim :
    ∃ d, rdim (1 : ℝ) (Real.sqrt (8 * Real.pi / 7516192768)) = .ok d ∧
      17246 ≤ d ∧ d ≤ 17339 := by
  obtain ⟨hlo, hhi⟩ := dense_pmt_space_bounds
  generalize Real.sqrt (8 * Real.pi / 7516192768) = s at hlo hhi ⊢
  have hspos : 0 < s := lt_trans (by norm_num) hlo
  have hs : s ≠ 0 := ne_of_gt hspos
  obtain ⟨n, hn, hn1, hn2⟩ := toInt_round_bounds (1 / s) 17246 17338
    (by rw [le_div_iff₀ hspos]; norm_num at hhi ⊢; linarith)
    (by rw [div_le_iff₀ hspos]; norm_num at hlo ⊢; linarith)
    (by norm_num)
  refine ⟨n, ?_, by exact_mod_cast hn1, by exact_mod_cast hn2⟩
  simp only [rdim, fdiv, bind, Except.bind, if_neg hs]
  exact hn

/-- The run on `denseDB` over the reals completes, and it places at least `2^31`
sensors. -/
theorem dense_run :
    ∃ (g : Locals ℝ) (db2 : DB ℝ),
      g.OfRun ⟨Real.pi, Real.cos, Real.sin, Real.sqrt⟩ (exampleLoad ℝ) exampleDetector
        (denseDB ℝ) db2 ∧
      g.required_pmts = 7516192768 ∧ 108306 ≤ g.cols ∧ 51738 ≤ g.rows ∧ g.rdim ≤ 17339 ∧
      2 ^ 31 ≤ g.num_pmts := by
  obtain ⟨c, hc, hc1, hc2⟩ := dense_cols
  obtain ⟨r, hr, hr1, hr2⟩ := dense_rows
  obtain ⟨d, hd, hd1, hd2⟩ := dense_rdim
  obtain ⟨tb, htb, hlen⟩ := topbot_succeeds ⟨Real.pi, Real.cos, Real.sin, Real.sqrt⟩ (1 : ℝ)
    (Real.sqrt (8 * Real.pi / 7516192768)) d (by omega) (by omega)
  have hside : (2 * d + 1).toNat ≤ 34679 := by omega
  have hlen2 : tb.length ≤ 34679 * 34679 := le_trans hlen (Nat.mul_le_mul hside hside)
  have hcr : c * r ≤ 109228 * 52014 := Nat.mul_le_mul hc2 hr2
  have hcr2 : 108306 * 51738 ≤ c * r := Nat.mul_le_mul hc1 hr1
  obtain ⟨g, hg, hN, hs, hgc, hgr, hgd, hgtb⟩ := layout_succeeds
    ⟨Real.pi, Real.cos, Real.sin, Real.sqrt⟩ (7 / 8 : ℝ) (1 / 32768) (1 / 8) (1 / 2) 4
    7516192768 (Real.sqrt (8 * Real.pi / 7516192768)) c r d tb
    (by rw [example_pmt_radius, example_topbot_offset, example_surface_area]
        exact dense_required_pmts)
    (by rw [example_pmt_radius, example_topbot_offset, example_surface_area]
        exact dense_pmt_space)
    (by rw [example_pmt_radius]; exact hc)
    (by rw [example_topbot_offset]; exact hr)
    (by rw [example_pmt_radius]; exact hd)
    (by rw [example_pmt_radius]; exact htb)
    (by norm_num [SIZE_RANGE] at hcr hlen2 ⊢; omega)
  have hpr : g.photocathode_radius = 1 / 32768 := ((layout_ok_iff _ _ _ _ _ _ _).mp hg).1
  have hrun : g.OfRun ⟨Real.pi, Real.cos, Real.sin, Real.sqrt⟩ (exampleLoad ℝ)
      exampleDetector (denseDB ℝ) _ :=
    OfRun_of_reads _ _ _ _ _ _ _ _ _ g (by simp [exampleLoad]) (dense_reads ℝ)
      (by rw [hpr]; exact dense_photocathode_radius) (by rw [hpr]; exact hg)
  refine ⟨g, _, hrun, hN, by omega, by omega, by omega, ?_⟩
  rw [(OfRun_records g _ _ _ _ _ hrun).2.1, hgc, hgr]
  norm_num at hcr2 ⊢
  omega

end RealRuns

/-! ## Claims, continued -/

section ClaimsContinued

variable {R : Type} [LinearOrderedField R] [FloorRing R]

/-- C11, counterexample. The run on `denseDB` (coverage 7/8, edge radii `[1/32768]`, steel
thickness 1/8, shield thickness 1/2, detector size 4) completes over the reals with
`num_pmts ≥ 2^31`, and neither `GEO/shield/inner_len` nor `GEO/inner_pmts/max_pmts` then
holds `num_pmts`: the `int` argument of `SetI` cannot represent it. -/
theorem inner_len_not_num_pmts :
    ∃ (g : Locals ℝ) (db2 : DB ℝ),
      g.OfRun ⟨Real.pi, Real.cos, Real.sin, Real.sqrt⟩ (exampleLoad ℝ) exampleDetector
        (denseDB ℝ) db2 ∧
      2 ^ 31 ≤ g.num_pmts ∧
      db2 ⟨"GEO", "shield", "inner_len"⟩ ≠ some (.I (g.num_pmts : ℤ)) ∧
      db2 ⟨"GEO", "inner_pmts", "max_pmts"⟩ ≠ some (.I (g.num_pmts : ℤ)) := by
  obtain ⟨g, db2, hg, -, -, -, -, hn⟩ := dense_run
  have hpub := OfRun_published g _ _ _ _ _ hg
  obtain ⟨-, -, -, -, -, -, -, -, -, -, -, -, -, p14, -, p16, -⟩ :=
    published_lookup g (exampleLoad ℝ geo_template (denseDB ℝ)).2
  rw [← hpub] at p14 p16
  have hlt := sizeToInt_lt g.num_pmts
  have hne : sizeToInt g.num_pmts ≠ (g.num_pmts : ℤ) := by
    have : ((2 ^ 31 : ℕ) : ℤ) ≤ (g.num_pmts : ℤ) := by exact_mod_cast hn
    push_cast at this
    omega
  refine ⟨g, db2, hg, hn, ?_, ?_⟩
  · rw [p14]
    intro h
    exact hne (Value.I.inj (Option.some.inj h))
  · rw [p16]
    intro h
    exact hne (Value.I.inj (Option.some.inj h))

/-- C11, as amended. After a completed run the store holds `GEO/veto_pmts/enable = 0`,
`GEO/shield/veto_start = 0`, `GEO/shield/veto_len = 0`, `GEO/shield/inner_start = 0`,
`GEO/inner_pmts/start_num = 0`, and in `GEO/shield/cols`, `GEO/shield/rows`,
`GEO/shield/inner_len` and `GEO/inner_pmts/max_pmts` the values of `cols`, `rows`,
`num_pmts` and `num_pmts` converted to a 32-bit `int`, which are those numbers themselves
whenever they are below `2^31`; this holds whatever the store held before. Every key
outside the 22 output keys, in particular each key the run read, holds what it held after
the template was loaded. -/
theorem published_scalars_and_frame (g : Locals R) (m : Libm R)
    (Load : String → DB R → ℤ × DB R) (detector : DBLink) (db db2 : DB R)
    (hg : g.OfRun m Load detector db db2) :
    (db2 ⟨"GEO", "veto_pmts", "enable"⟩ = some (.I 0) ∧
      db2 ⟨"GEO", "shield", "veto_start"⟩ = some (.I 0) ∧
      db2 ⟨"GEO", "shield", "veto_len"⟩ = some (.I 0) ∧
      db2 ⟨"GEO", "shield", "cols"⟩ = some (.I (sizeToInt g.cols)) ∧
      db2 ⟨"GEO", "shield", "rows"⟩ = some (.I (sizeToInt g.rows)) ∧
      db2 ⟨"GEO", "shield", "inner_start"⟩ = some (.I 0) ∧
      db2 ⟨"GEO", "shield", "inner_len"⟩ = some (.I (sizeToInt g.num_pmts)) ∧
      db2 ⟨"GEO", "inner_pmts", "start_num"⟩ = some (.I 0) ∧
      db2 ⟨"GEO", "inner_pmts", "max_pmts"⟩ = some (.I (sizeToInt g.num_pmts))) ∧
    ((g.cols < 2 ^ 31 → sizeToInt g.cols = (g.cols : ℤ)) ∧
      (g.rows < 2 ^ 31 → sizeToInt g.rows = (g.rows : ℤ)) ∧
      (g.num_pmts < 2 ^ 31 → sizeToInt g.num_pmts = (g.num_pmts : ℤ))) ∧
    (∀ k, k ∉ outputKeys → db2 k = (Load geo_template db).2 k) ∧
    (db2 ⟨detector.table, detector.index, "photocathode_coverage"⟩
        = (Load geo_template db).2 ⟨detector.table, detector.index, "photocathode_coverage"⟩ ∧
      db2 ⟨"GEO", "inner_pmts", "pmt_type"⟩
        = (Load geo_template db).2 ⟨"GEO", "inner_pmts", "pmt_type"⟩ ∧
      (∀ t, db2 ⟨"PMT", t, "rho_edge"⟩ = (Load geo_template db).2 ⟨"PMT", t, "rho_edge"⟩) ∧
      db2 ⟨"GEO", "shield", "steel_thickness"⟩
        = (Load geo_template db).2 ⟨"GEO", "shield", "steel_thickness"⟩ ∧
      db2 ⟨"GEO", "shield", "shield_thickness"⟩
        = (Load geo_template db).2 ⟨"GEO", "shield", "shield_thickness"⟩ ∧
      db2 ⟨"GEO", "shield", "detector_size"⟩
        = (Load geo_template db).2 ⟨"GEO", "shield", "detector_size"⟩) := by
  have hpub := OfRun_published g m Load detector db db2 hg
  obtain ⟨-, -, -, -, -, -, -, p8, p9, p10, p11, p12, p13, p14, p15, p16, -⟩ :=
    published_lookup g (Load geo_template db).2
  rw [← hpub] at p8 p9 p10 p11 p12 p13 p14 p15 p16
  have hframe : ∀ k, k ∉ outputKeys → db2 k = (Load geo_template db).2 k := by
    intro k hk
    rw [hpub]
    exact published_frame g _ k hk
  refine ⟨⟨p8, p9, p10, p11, p12, p13, p14, p15, p16⟩,
    ⟨sizeToInt_of_lt _, sizeToInt_of_lt _, sizeToInt_of_lt _⟩, hframe, ?_, ?_, ?_, ?_, ?_, ?_⟩
  · exact hframe _ (by simp [outputKeys])
  · exact hframe _ (by simp [outputKeys])
  · intro t
    exact hframe _ (by simp [outputKeys])
  · exact hframe _ (by simp [outputKeys])
  · exact hframe _ (by simp [outputKeys])
  · exact hframe _ (by simp [outputKeys])

/-- Witness for C11 as amended: the run on `staleDB`, where `GEO/shield/cols` held 99
before, ends with `cols = 3`, `rows = 2`, `inner_len = max_pmts = 8` in the store, and with
the coverage, the edge radii and the three shield values as they were. -/
theorem published_scalars_and_frame_witness :
    ∃ (g : Locals ℝ) (db2 : DB ℝ),
      g.OfRun ⟨Real.pi, Real.cos, Real.sin, Real.sqrt⟩ (exampleLoad ℝ) exampleDetector
        (staleDB ℝ) db2 ∧
      staleDB ℝ ⟨"GEO", "shield", "cols"⟩ = some (.I 99) ∧
      db2 ⟨"GEO", "veto_pmts", "enable"⟩ = some (.I 0) ∧
      db2 ⟨"GEO", "shield", "cols"⟩ = some (.I 3) ∧
      db2 ⟨"GEO", "shield", "rows"⟩ = some (.I 2) ∧
      db2 ⟨"GEO", "shield", "inner_len"⟩ = some (.I 8) ∧
      db2 ⟨"GEO", "inner_pmts", "max_pmts"⟩ = some (.I 8) ∧
      db2 ⟨"DETECTOR", "", "photocathode_coverage"⟩ = some (.D (7 / 8)) ∧
      db2 ⟨"PMT", "r7081", "rho_edge"⟩ = some (.DArray [0, 1]) ∧
      db2 ⟨"GEO", "shield", "steel_thickness"⟩ = some (.D (1 / 8)) ∧
      db2 ⟨"GEO", "shield", "shield_thickness"⟩ = some (.D (1 / 2)) ∧
      db2 ⟨"GEO", "shield", "detector_size"⟩ = some (.D 4) := by
  obtain ⟨g, db2, hg, hc, hr, htb⟩ := stale_run
  obtain ⟨⟨p8, -, -, p11, p12, -, p14, -, p16⟩, ⟨s1, s2, s3⟩, -, f1, -, f3, f4, f5, f6⟩ :=
    published_scalars_and_frame g _ _ _ _ _ hg
  have hn : g.num_pmts = 8 := by
    rw [(OfRun_records g _ _ _ _ _ hg).2.1, hc, hr, htb]; rfl
  rw [s1 (by rw [hc]; norm_num), hc] at p11
  rw [s2 (by rw [hr]; norm_num), hr] at p12
  rw [s3 (by rw [hn]; norm_num), hn] at p14 p16
  obtain ⟨r1, ⟨t, r2, r3⟩, r4, r5, r6⟩ := stale_reads ℝ
  have r3' : staleDB ℝ ⟨"PMT", "r7081", "rho_edge"⟩ = some (.DArray [0, 1]) := by
    simp [staleDB, exampleDB]
  refine ⟨g, db2, hg, by simp [staleDB], p8, p11, p12, p14, p16, ?_, ?_, ?_, ?_, ?_⟩
  · exact f1.trans r1
  · exact (f3 "r7081").trans r3'
  · exact f4.trans r4
  · exact f5.trans r5
  · exact f6.trans r6

/-- C12. For every non-empty `rho_edge` array the scan of lines 25–28 returns a value that
is an element of the array and is at least every element, that is, its maximum; and
`photocathode_area` is `pi` times the square of that radius. -/
theorem photocathode_radius_is_max (m : Libm R) (rho_edge : List R) (h : rho_edge ≠ []) :
    ∃ pr, photocathode_radius rho_edge = .ok pr ∧ pr ∈ rho_edge ∧
      (∀ r ∈ rho_edge, r ≤ pr) ∧ photocathode_area m pr = m.pi * pr ^ 2 := by
  cases rho_edge with
  | nil => exact absurd rfl h
  | cons r0 rest =>
    obtain ⟨h1, h2⟩ := foldl_max_spec rest r0
    refine ⟨_, rfl, h1, h2, ?_⟩
    unfold photocathode_area
    ring

/-- Witness for C12: for the edge radii `[0, 1]` the radius is 1 and the area is `π`. -/
theorem photocathode_radius_is_max_witness :
    ([0, 1] : List ℝ) ≠ [] ∧
    ∃ pr : ℝ, photocathode_radius ([0, 1] : List ℝ) = .ok pr ∧ pr ∈ ([0, 1] : List ℝ) ∧
      (∀ r ∈ ([0, 1] : List ℝ), r ≤ pr) ∧
      photocathode_area ⟨Real.pi, Real.cos, Real.sin, Real.sqrt⟩ pr = Real.pi * pr ^ 2 :=
  ⟨by simp, photocathode_radius_is_max ⟨Real.pi, Real.cos, Real.sin, Real.sqrt⟩ [0, 1]
    (by simp)⟩

/-- C14. Two completed runs, against any two stores, detector links and template loaders,
that read the same five inputs (coverage, edge radii, steel thickness, shield thickness,
detector size) compute the same locals and leave the same value under each of the 22
output keys: the `PMTINFO` arrays, the `cable_pos` arrays and the scalar `GEO` fields. What
the stores held before under the output keys plays no part. -/
theorem published_depends_only_on_inputs (m : Libm R) (ga gb : Locals R)
    (LoadA LoadB : String → DB R → ℤ × DB R) (detectorA detectorB : DBLink)
    (dbA dbA2 dbB dbB2 : DB R) (cov : R) (rho_edge : List R) (st sh ds : R)
    (hga : ga.OfRun m LoadA detectorA dbA dbA2) (hgb : gb.OfRun m LoadB detectorB dbB dbB2)
    (hra : ReadsInputs LoadA detectorA dbA cov rho_edge st sh ds)
    (hrb : ReadsInputs LoadB detectorB dbB cov rho_edge st sh ds) :
    ga = gb ∧ ∀ k ∈ outputKeys, dbA2 k = dbB2 k := by
  obtain ⟨ha1, ha2⟩ := OfRun_reads_layout ga m LoadA detectorA dbA dbA2 cov rho_edge st sh ds
    hga hra
  obtain ⟨hb1, hb2⟩ := OfRun_reads_layout gb m LoadB detectorB dbB dbB2 cov rho_edge st sh ds
    hgb hrb
  have hpr : ga.photocathode_radius = gb.photocathode_radius := by
    rw [ha1] at hb1
    exact Except.ok.inj hb1
  have hgg : ga = gb := by
    rw [hpr, hb2] at ha2
    exact (Except.ok.inj ha2).symm
  refine ⟨hgg, ?_⟩
  intro k hk
  rw [OfRun_published ga m LoadA detectorA dbA dbA2 hga,
    OfRun_published gb m LoadB detectorB dbB dbB2 hgb, hgg]
  exact published_outputKeys gb _ _ k hk

/-- Witness for C14: the runs on `exampleDB` and on `staleDB`, which holds stale values
under three output keys, read the same inputs and end with the same value under every
output key. -/
theorem published_depends_only_on_inputs_witness :
    ∃ (ga gb : Locals ℝ) (dbA2 dbB2 : DB ℝ),
      ga.OfRun ⟨Real.pi, Real.cos, Real.sin, Real.sqrt⟩ (exampleLoad ℝ) exampleDetector
        (exampleDB ℝ) dbA2 ∧
      gb.OfRun ⟨Real.pi, Real.cos, Real.sin, Real.sqrt⟩ (exampleLoad ℝ) exampleDetector
        (staleDB ℝ) dbB2 ∧
      ReadsInputs (exampleLoad ℝ) exampleDetector (exampleDB ℝ) (7 / 8) [0, 1] (1 / 8)
        (1 / 2) 4 ∧
      ReadsInputs (exampleLoad ℝ) exampleDetector (staleDB ℝ) (7 / 8) [0, 1] (1 / 8)
        (1 / 2) 4 ∧
      exampleDB ℝ ⟨"PMTINFO", "", "x"⟩ = none ∧
      staleDB ℝ ⟨"PMTINFO", "", "x"⟩ = some (.DArray [42]) ∧
      ga = gb ∧ ∀ k ∈ outputKeys, dbA2 k = dbB2 k := by
  obtain ⟨ga, dbA2, hga, -⟩ := example_run
  obtain ⟨gb, dbB2, hgb, -⟩ := stale_run
  exact ⟨ga, gb, dbA2, dbB2, hga, hgb, example_reads ℝ, stale_reads ℝ,
    by simp [exampleDB], by simp [staleDB],
    published_depends_only_on_inputs _ ga gb _ _ _ _ _ _ _ _ _ _ _ _ _ hga hgb
      (example_reads ℝ) (stale_reads ℝ)⟩

/-- C15. In a completed run with `pmt_space > 0` and `topbot_offset > 0`, where
`rows = round(2 * topbot_offset / pmt_space)`, every barrel sensor of a row `r < rows`
(so `rows ≥ 1`) has its published `z`, namely
`r * 2 * topbot_offset / rows + pmt_space / 2 - topbot_offset`, between `-topbot_offset`
and `topbot_offset`. -/
theorem barrel_z_within_wall (g : Locals R) (m : Libm R)
    (Load : String → DB R → ℤ × DB R) (detector : DBLink) (db db2 : DB R)
    (hg : g.OfRun m Load detector db db2)
    (hs : 0 < g.pmt_space) (hT : 0 < g.topbot_offset)
    (c r : ℕ) (hc : c < g.cols) (hr : r < g.rows) :
    rows g.topbot_offset g.pmt_space = .ok g.rows ∧ 1 ≤ g.rows ∧
    db2 ⟨"PMTINFO", "", "z"⟩ = some (.DArray g.pmt.z) ∧
    g.pmt.z[r + c * g.rows]? = some ((r : R) * 2 * g.topbot_offset / (g.rows : R)
      + g.pmt_space / 2 - g.topbot_offset) ∧
    -g.topbot_offset ≤ (r : R) * 2 * g.topbot_offset / (g.rows : R)
      + g.pmt_space / 2 - g.topbot_offset ∧
    (r : R) * 2 * g.topbot_offset / (g.rows : R) + g.pmt_space / 2 - g.topbot_offset
      ≤ g.topbot_offset := by
  obtain ⟨cov, st, sh, ds, hl⟩ := OfRun_layout g m Load detector db db2 hg
  have hrows := ((layout_ok_iff _ _ _ _ _ _ _).mp hl).2.2.2.2.2.2.2.2.2.1
  obtain ⟨-, -, -, hbar, -⟩ := OfRun_records g m Load detector db db2 hg
  have hpub := OfRun_published g m Load detector db db2 hg
  obtain ⟨-, -, p3, -⟩ := published_lookup g (Load geo_template db).2
  rw [← hpub] at p3
  obtain ⟨hub, -⟩ := rows_ok_bound _ _ _ hs hT hrows
  have hn1 : (1 : R) ≤ (g.rows : R) := by exact_mod_cast (show 1 ≤ g.rows by omega)
  have hnpos : (0 : R) < (g.rows : R) := by linarith
  have hrn : (r : R) + 1 ≤ (g.rows : R) := by exact_mod_cast hr
  have hr0 : (0 : R) ≤ (r : R) := Nat.cast_nonneg r
  -- `pmt_space * rows ≤ 4 * topbot_offset`
  have hq : (1 : R) / 2 ≤ 2 * g.topbot_offset / g.pmt_space := by linarith
  have hs4 : g.pmt_space ≤ 4 * g.topbot_offset := by
    rw [le_div_iff₀ hs] at hq; linarith
  have hsn : g.pmt_space * (g.rows : R) ≤ 4 * g.topbot_offset := by
    have : (g.rows : R) * g.pmt_space ≤ (2 * g.topbot_offset / g.pmt_space + 1 / 2)
        * g.pmt_space := mul_le_mul_of_nonneg_right hub (le_of_lt hs)
    rw [add_mul, div_mul_cancel₀ _ (ne_of_gt hs)] at this
    linarith
  refine ⟨hrows, by omega, p3, (hbar c hc r hr).2.2.1, ?_, ?_⟩
  · have : (0 : R) ≤ (r : R) * 2 * g.topbot_offset / (g.rows : R) := by positivity
    linarith
  · have h1 : (r : R) * 2 * g.topbot_offset / (g.rows : R)
        ≤ 2 * g.topbot_offset - 2 * g.topbot_offset / (g.rows : R) := by
      rw [div_le_iff₀ hnpos, sub_mul, div_mul_cancel₀ _ (ne_of_gt hnpos)]
      nlinarith
    have h2 : g.pmt_space / 2 ≤ 2 * g.topbot_offset / (g.rows : R) := by
      rw [le_div_iff₀ hnpos]; linarith
    linarith

/-- Witness for C15: in the worked configuration (`pmt_space = √(8π/7)`,
`topbot_offset = 3/2`, 2 rows) the sensor of column 0 and row 1 has `z = pmt_space/2`,
which lies between `-3/2` and `3/2`. -/
theorem barrel_z_within_wall_witness :
    ∃ (g : Locals ℝ) (db2 : DB ℝ),
      g.OfRun ⟨Real.pi, Real.cos, Real.sin, Real.sqrt⟩ (exampleLoad ℝ) exampleDetector
        (exampleDB ℝ) db2 ∧
      g.rows = 2 ∧ g.topbot_offset = 3 / 2 ∧ g.pmt_space = Real.sqrt (8 * Real.pi / 7) ∧
      0 < g.pmt_space ∧ g.pmt.z[1]? = some (g.pmt_space / 2) ∧
      -(3 / 2 : ℝ) ≤ g.pmt_space / 2 ∧ g.pmt_space / 2 ≤ 3 / 2 := by
  obtain ⟨g, db2, hg, -, hT, -, hs, hc, hr, -⟩ := example_run
  have hspos : 0 < g.pmt_space := by
    rw [hs]; linarith [example_pmt_space_bounds.1]
  obtain ⟨-, -, -, h4, h5, h6⟩ := barrel_z_within_wall g _ _ _ _ _ hg hspos
    (by rw [hT]; norm_num) 0 1 (by rw [hc]; norm_num) (by rw [hr]; norm_num)
  rw [hr, hT] at h4 h5 h6
  have e : ((1 : ℕ) : ℝ) * 2 * (3 / 2) / ((2 : ℕ) : ℝ) + g.pmt_space / 2 - 3 / 2
      = g.pmt_space / 2 := by
    norm_num
  rw [e] at h4 h5 h6
  exact ⟨g, db2, hg, hr, hT, hs, hspos, by simpa using h4, h5, h6⟩

/-- C16. Over the reals, in a completed run with `rdim = round(pmt_radius/pmt_space)`:
a pair `(i, j)` is in `topbot` exactly when `-rdim ≤ i, j ≤ rdim` and
`pmt_space*sqrt(i²+j²) ≤ pmt_radius - pmt_space/2`; the list has no repetition and is in
strictly increasing lexicographic order; and both records of every footprint have
`(x, y)` within distance `pmt_radius - pmt_space/2` of the axis. -/
theorem topbot_exact_window (g : Locals ℝ) (Load : String → DB ℝ → ℤ × DB ℝ)
    (detector : DBLink) (db db2 : DB ℝ)
    (hg : g.OfRun ⟨Real.pi, Real.cos, Real.sin, Real.sqrt⟩ Load detector db db2) :
    rdim g.pmt_radius g.pmt_space = .ok g.rdim ∧
    (∀ i j : ℤ, (i, j) ∈ g.topbot ↔
      (-g.rdim ≤ i ∧ i ≤ g.rdim) ∧ (-g.rdim ≤ j ∧ j ≤ g.rdim) ∧
      g.pmt_space * Real.sqrt ((i * i + j * j : ℤ) : ℝ) ≤ g.pmt_radius - g.pmt_space / 2) ∧
    g.topbot.Nodup ∧
    g.topbot.Pairwise (fun p q => p.1 < q.1 ∨ (p.1 = q.1 ∧ p.2 < q.2)) ∧
    (∀ k p, g.topbot[k]? = some p → ∀ n, n = g.rows * g.cols + 2 * k ∨
        n = g.rows * g.cols + 2 * k + 1 →
      ∃ x y, g.pmt.x[n]? = some x ∧ g.pmt.y[n]? = some y ∧
        Real.sqrt (x ^ 2 + y ^ 2) ≤ g.pmt_radius - g.pmt_space / 2) := by
  obtain ⟨-, -, hsp, hcols, -, hrd, htb⟩ := OfRun_stages g _ Load detector db db2 hg
  obtain ⟨-, -, -, -, hend⟩ := OfRun_records g _ Load detector db db2 hg
  have hs := real_pmt_space_pos _ _ _ _ _ hsp hcols
  have hmem := mem_topbot_iff _ _ _ _ _ htb
  refine ⟨hrd, hmem, topbot_nodup _ _ _ _ _ htb, topbot_pairwise _ _ _ _ _ htb, ?_⟩
  intro k p hp n hn
  have hin : (p.1, p.2) ∈ g.topbot := List.getElem?_mem hp
  have hacc : g.pmt_space * Real.sqrt ((p.1 * p.1 + p.2 * p.2 : ℤ) : ℝ)
      ≤ g.pmt_radius - g.pmt_space / 2 := ((hmem p.1 p.2).mp hin).2.2
  have hdist : Real.sqrt ((g.pmt_space * (p.1 : ℝ)) ^ 2 + (g.pmt_space * (p.2 : ℝ)) ^ 2)
      ≤ g.pmt_radius - g.pmt_space / 2 := by
    have e : (g.pmt_space * (p.1 : ℝ)) ^ 2 + (g.pmt_space * (p.2 : ℝ)) ^ 2
        = g.pmt_space ^ 2 * ((p.1 * p.1 + p.2 * p.2 : ℤ) : ℝ) := by
      push_cast; ring
    rw [e, Real.sqrt_mul (sq_nonneg _), Real.sqrt_sq (le_of_lt hs)]
    exact hacc
  obtain ⟨htop, hbot⟩ := hend k p hp
  rcases hn with rfl | rfl
  · exact ⟨_, _, htop.1, htop.2.1, hdist⟩
  · exact ⟨_, _, hbot.1, hbot.2.1, hdist⟩

/-- Witness for C16: in the worked configuration (`rdim = 1`) the accepted list is
`[(0, 0)]`, and the two records of its footprint, at indices 6 and 7, sit on the axis. -/
theorem topbot_exact_window_witness :
    ∃ (g : Locals ℝ) (db2 : DB ℝ),
      g.OfRun ⟨Real.pi, Real.cos, Real.sin, Real.sqrt⟩ (exampleLoad ℝ) exampleDetector
        (exampleDB ℝ) db2 ∧
      g.topbot = [(0, 0)] ∧ rdim g.pmt_radius g.pmt_space = .ok g.rdim ∧
      ((0, 0) ∈ g.topbot ↔ (-g.rdim ≤ 0 ∧ 0 ≤ g.rdim) ∧ (-g.rdim ≤ 0 ∧ 0 ≤ g.rdim) ∧
        g.pmt_space * Real.sqrt ((0 * 0 + 0 * 0 : ℤ) : ℝ) ≤ g.pmt_radius - g.pmt_space / 2) ∧
      g.topbot.Nodup ∧
      ∃ x y, g.pmt.x[6]? = some x ∧ g.pmt.y[6]? = some y ∧
        Real.sqrt (x ^ 2 + y ^ 2) ≤ g.pmt_radius - g.pmt_space / 2 := by
  obtain ⟨g, db2, hg, -, -, -, -, hc, hr, htb⟩ := example_run
  obtain ⟨h1, h2, h3, -, h5⟩ := topbot_exact_window g _ _ _ _ hg
  have h6 := h5 0 (0, 0) (by rw [htb]; rfl) 6 (Or.inl (by rw [hc, hr]))
  exact ⟨g, db2, hg, htb, h1, h2 0 0, h3, h6⟩

/-- C17. Over the reals, in a completed run (where `pmt_space > 0` holds) with
`rdim = round(pmt_radius/pmt_space)`: every pair of integers `(i, j)` with
`pmt_space*sqrt(i²+j²) ≤ pmt_radius - pmt_space/2` has `|i| ≤ rdim` and `|j| ≤ rdim` and is
in `topbot`; so `topbot` holds exactly the integer lattice points that meet the criterion. -/
theorem window_loses_no_point (g : Locals ℝ) (Load : String → DB ℝ → ℤ × DB ℝ)
    (detector : DBLink) (db db2 : DB ℝ)
    (hg : g.OfRun ⟨Real.pi, Real.cos, Real.sin, Real.sqrt⟩ Load detector db db2) :
    0 < g.pmt_space ∧ rdim g.pmt_radius g.pmt_space = .ok g.rdim ∧
    (∀ i j : ℤ,
      g.pmt_space * Real.sqrt ((i * i + j * j : ℤ) : ℝ) ≤ g.pmt_radius - g.pmt_space / 2 →
      |i| ≤ g.rdim ∧ |j| ≤ g.rdim ∧ (i, j) ∈ g.topbot) ∧
    (∀ i j : ℤ, (i, j) ∈ g.topbot ↔
      g.pmt_space * Real.sqrt ((i * i + j * j : ℤ) : ℝ) ≤ g.pmt_radius - g.pmt_space / 2) := by
  obtain ⟨-, -, hsp, hcols, -, hrd, htb⟩ := OfRun_stages g _ Load detector db db2 hg
  have hs := real_pmt_space_pos _ _ _ _ _ hsp hcols
  have hmem := mem_topbot_iff _ _ _ _ _ htb
  have hwin : ∀ i j : ℤ,
      g.pmt_space * Real.sqrt ((i * i + j * j : ℤ) : ℝ) ≤ g.pmt_radius - g.pmt_space / 2 →
      |i| ≤ g.rdim ∧ |j| ≤ g.rdim ∧ (i, j) ∈ g.topbot := by
    intro i j h
    obtain ⟨hi, hj⟩ := accepted_in_window _ _ _ hs hrd i j h
    have hi2 := abs_lt.mp hi
    have hj2 := abs_lt.mp hj
    exact ⟨le_of_lt hi, le_of_lt hj,
      (hmem i j).mpr ⟨⟨by omega, by omega⟩, ⟨by omega, by omega⟩, h⟩⟩
  exact ⟨hs, hrd, hwin, fun i j => ⟨fun h => ((hmem i j).mp h).2.2, fun h => (hwin i j h).2.2⟩⟩

/-- Witness for C17: in the worked configuration `(0, 0)` meets the criterion, lies in the
window and is accepted, while `(1, 0)` fails the criterion and is not accepted. -/
theorem window_loses_no_point_witness :
    ∃ (g : Locals ℝ) (db2 : DB ℝ),
      g.OfRun ⟨Real.pi, Real.cos, Real.sin, Real.sqrt⟩ (exampleLoad ℝ) exampleDetector
        (exampleDB ℝ) db2 ∧
      0 < g.pmt_space ∧
      (|(0 : ℤ)| ≤ g.rdim ∧ |(0 : ℤ)| ≤ g.rdim ∧ ((0 : ℤ), (0 : ℤ)) ∈ g.topbot) ∧
      ((1, 0) ∈ g.topbot ↔
        g.pmt_space * Real.sqrt ((1 * 1 + 0 * 0 : ℤ) : ℝ) ≤ g.pmt_radius - g.pmt_space / 2) ∧
      ((1 : ℤ), (0 : ℤ)) ∉ g.topbot := by
  obtain ⟨g, db2, hg, hR, -, -, hs, -, -, htb⟩ := example_run
  obtain ⟨h1, -, h3, h4⟩ := window_loses_no_point g _ _ _ _ hg
  have hlt : g.pmt_space < 19 / 10 := by rw [hs]; exact example_pmt_space_bounds.2
  refine ⟨g, db2, hg, h1, h3 0 0 ?_, h4 1 0, ?_⟩
  · rw [hR]
    norm_num
    linarith
  · rw [htb]
    simp

/-- The index layout of lines 81 and 99: `(c, r) ↦ r + c*rows` is a bijection from
`[0, cols) × [0, rows)` onto `[0, cols*rows)`, and the end-cap indices `rows*cols + 2k` and
`rows*cols + 2k + 1`, `k < |topbot|`, fill `[cols*rows, num_pmts)`. -/
theorem index_layout_partition (g : Locals R) (m : Libm R)
    (Load : String → DB R → ℤ × DB R) (detector : DBLink) (db db2 : DB R)
    (hg : g.OfRun m Load detector db db2) :
    g.num_pmts = g.cols * g.rows + 2 * g.topbot.length ∧
    (∀ c < g.cols, ∀ r < g.rows, r + c * g.rows < g.cols * g.rows) ∧
    (∀ c < g.cols, ∀ r < g.rows, ∀ c1 < g.cols, ∀ r1 < g.rows,
      r + c * g.rows = r1 + c1 * g.rows → c = c1 ∧ r = r1) ∧
    (∀ n < g.cols * g.rows, ∃ c < g.cols, ∃ r < g.rows, n = r + c * g.rows) ∧
    (∀ k < g.topbot.length, g.cols * g.rows ≤ g.rows * g.cols + 2 * k ∧
      g.rows * g.cols + 2 * k + 1 < g.num_pmts) ∧
    (∀ n, g.cols * g.rows ≤ n → n < g.num_pmts → ∃ k < g.topbot.length,
      n = g.rows * g.cols + 2 * k ∨ n = g.rows * g.cols + 2 * k + 1) := by
  obtain ⟨-, hnum, -, -, -⟩ := OfRun_records g m Load detector db db2 hg
  have hcomm : g.rows * g.cols = g.cols * g.rows := Nat.mul_comm _ _
  refine ⟨hnum, ?_, ?_, ?_, ?_, ?_⟩
  · intro c hc r hr
    have hle : (c + 1) * g.rows ≤ g.cols * g.rows := Nat.mul_le_mul_right g.rows hc
    rw [Nat.add_mul] at hle
    omega
  · intro c _ r hr c1 _ r1 hr1 h
    have hpos : 0 < g.rows := by omega
    have e1 : (r + c * g.rows) / g.rows = c := by
      rw [Nat.add_mul_div_right _ _ hpos, Nat.div_eq_of_lt hr, Nat.zero_add]
    have e2 : (r1 + c1 * g.rows) / g.rows = c1 := by
      rw [Nat.add_mul_div_right _ _ hpos, Nat.div_eq_of_lt hr1, Nat.zero_add]
    have hc : c = c1 := by rw [← e1, ← e2, h]
    subst hc
    exact ⟨rfl, by omega⟩
  · intro n hn
    have hpos : 0 < g.rows := by
      rcases Nat.eq_zero_or_pos g.rows with h0 | h0
      · rw [h0] at hn; simp at hn
      · exact h0
    refine ⟨n / g.rows, (Nat.div_lt_iff_lt_mul hpos).mpr hn, n % g.rows,
      Nat.mod_lt n hpos, ?_⟩
    rw [Nat.mod_add_div']
  · intro k hk
    rw [hnum, hcomm]
    omega
  · intro n h1 h2
    rw [hnum] at h2
    rw [hcomm]
    refine ⟨(n - g.cols * g.rows) / 2, by omega, ?_⟩
    omega

/-- C18, evaluation. The body of the end-cap loop, run for footprint 0 of the worked
configuration (3 columns, 2 rows, `topbot_offset = 3/2`, lattice point `(0, 0)`) on seven
vectors of 8 entries pre-filled with 9, writes slots 6 and 7 of `x`, `y`, `z`, `dir_x`,
`dir_z` and `type`, but only slot 6 of `dir_y`: line 115 assigns `dir_y[6]` a second time
and slot 7 of `dir_y` keeps the value 9. -/
theorem endcapStep_skips_bottom_dir_y :
    endcapStep 3 2 (3 / 2 : ℝ) (Real.sqrt (8 * Real.pi / 7)) 0 (0, 0)
      { x := List.replicate 8 9, y := List.replicate 8 9, z := List.replicate 8 9
        dir_x := List.replicate 8 9, dir_y := List.replicate 8 9
        dir_z := List.replicate 8 9, type := List.replicate 8 9 }
    = .ok { x := [9, 9, 9, 9, 9, 9, 0, 0], y := [9, 9, 9, 9, 9, 9, 0, 0]
            z := [9, 9, 9, 9, 9, 9, 3 / 2, -(3 / 2)]
            dir_x := [9, 9, 9, 9, 9, 9, 0, 0], dir_y := [9, 9, 9, 9, 9, 9, 0, 9]
            dir_z := [9, 9, 9, 9, 9, 9, -1, 1], type := [9, 9, 9, 9, 9, 9, 1, 1] } := by
  simp [endcapStep, vset, SIZE_RANGE, bind, Except.bind, pure, Except.pure, List.replicate]

/-- C19. Over the reals, in a completed run and for every column `c < cols`: the cable
anchor `c` is published at azimuth `θ = c*2π/cols` (radius `cable_radius`), every sensor of
barrel column `c` sits at azimuth `φ = 2π(c + 1/2)/cols` (radius `pmt_radius`), and
`φ - θ = π/cols`, so the anchor is half a cell before its column and the two directions
differ; the column before it, `(c + cols - 1) mod cols`, sits in the direction of
`θ - π/cols`, so the anchor is midway in azimuth between the two columns. -/
theorem cable_half_cell_before_column (g : Locals ℝ) (Load : String → DB ℝ → ℤ × DB ℝ)
    (detector : DBLink) (db db2 : DB ℝ)
    (hg : g.OfRun ⟨Real.pi, Real.cos, Real.sin, Real.sqrt⟩ Load detector db db2)
    (c : ℕ) (hc : c < g.cols) :
    (db2 ⟨"cable_pos", "", "x"⟩ = some (.DArray g.cable_x) ∧
      db2 ⟨"cable_pos", "", "y"⟩ = some (.DArray g.cable_y) ∧
      g.cable_x[c]? = some (g.cable_radius * Real.cos ((c : ℝ) * 2 * Real.pi / (g.cols : ℝ))) ∧
      g.cable_y[c]? = some (g.cable_radius * Real.sin ((c : ℝ) * 2 * Real.pi / (g.cols : ℝ)))) ∧
    (∀ r < g.rows,
      g.pmt.x[r + c * g.rows]? = some (g.pmt_radius *
        Real.cos (2 * Real.pi * ((c : ℝ) + 1 / 2) / (g.cols : ℝ))) ∧
      g.pmt.y[r + c * g.rows]? = some (g.pmt_radius *
        Real.sin (2 * Real.pi * ((c : ℝ) + 1 / 2) / (g.cols : ℝ)))) ∧
    2 * Real.pi * ((c : ℝ) + 1 / 2) / (g.cols : ℝ) - (c : ℝ) * 2 * Real.pi / (g.cols : ℝ)
      = Real.pi / (g.cols : ℝ) ∧
    (Real.cos ((c : ℝ) * 2 * Real.pi / (g.cols : ℝ)),
        Real.sin ((c : ℝ) * 2 * Real.pi / (g.cols : ℝ))) ≠
      (Real.cos (2 * Real.pi * ((c : ℝ) + 1 / 2) / (g.cols : ℝ)),
        Real.sin (2 * Real.pi * ((c : ℝ) + 1 / 2) / (g.cols : ℝ))) ∧
    Real.cos (2 * Real.pi * ((((c + g.cols - 1) % g.cols : ℕ) : ℝ) + 1 / 2) / (g.cols : ℝ))
      = Real.cos ((c : ℝ) * 2 * Real.pi / (g.cols : ℝ) - Real.pi / (g.cols : ℝ)) ∧
    Real.sin (2 * Real.pi * ((((c + g.cols - 1) % g.cols : ℕ) : ℝ) + 1 / 2) / (g.cols : ℝ))
      = Real.sin ((c : ℝ) * 2 * Real.pi / (g.cols : ℝ) - Real.pi / (g.cols : ℝ)) := by
  obtain ⟨cov, st, sh, ds, hl⟩ := OfRun_layout g _ Load detector db db2 hg
  have hcab := ((layout_ok_iff _ _ _ _ _ _ _).mp hl).2.2.2.2.2.2.2.2.2.2.2.2.2.2
  obtain ⟨-, -, hcable⟩ := cable_ok _ _ _ _ hcab
  obtain ⟨-, -, -, hbar, -⟩ := OfRun_records g _ Load detector db db2 hg
  have hpub := OfRun_published g _ Load detector db db2 hg
  obtain ⟨-, -, -, -, -, -, -, -, -, -, -, -, -, -, -, -, p17, p18, -⟩ :=
    published_lookup g (Load geo_template db).2
  rw [← hpub] at p17 p18
  have hn : (0 : ℝ) < (g.cols : ℝ) := by exact_mod_cast (show 0 < g.cols by omega)
  have hn1 : (1 : ℝ) ≤ (g.cols : ℝ) := by exact_mod_cast (show 1 ≤ g.cols by omega)
  have hpi := Real.pi_pos
  have hdiff : 2 * Real.pi * ((c : ℝ) + 1 / 2) / (g.cols : ℝ)
      - (c : ℝ) * 2 * Real.pi / (g.cols : ℝ) = Real.pi / (g.cols : ℝ) := by
    field_simp
    ring
  have hprev : ∃ k : ℤ, 2 * Real.pi * ((((c + g.cols - 1) % g.cols : ℕ) : ℝ) + 1 / 2)
      / (g.cols : ℝ) = (c : ℝ) * 2 * Real.pi / (g.cols : ℝ) - Real.pi / (g.cols : ℝ)
        + (k : ℝ) * (2 * Real.pi) := by
    rcases Nat.eq_zero_or_pos c with h0 | h0
    · refine ⟨1, ?_⟩
      have e : (c + g.cols - 1) % g.cols = g.cols - 1 := by
        rw [h0, Nat.zero_add]; exact Nat.mod_eq_of_lt (by omega)
      rw [e, Nat.cast_sub (by omega), h0]
      field_simp
      ring
    · refine ⟨0, ?_⟩
      have e : (c + g.cols - 1) % g.cols = c - 1 := by
        have : c + g.cols - 1 = (c - 1) + g.cols := by omega
        rw [this, Nat.add_mod_right]; exact Nat.mod_eq_of_lt (by omega)
      rw [e, Nat.cast_sub (by omega)]
      field_simp
      ring
  refine ⟨⟨p17, p18, (hcable c hc).1, (hcable c hc).2⟩, ?_, hdiff, ?_, ?_, ?_⟩
  · intro r hr
    exact ⟨(hbar c hc r hr).1, (hbar c hc r hr).2.1⟩
  · intro heq
    have h1 := congrArg Prod.fst heq
    have h2 := congrArg Prod.snd heq
    simp only at h1 h2
    have hcos : Real.cos (Real.pi / (g.cols : ℝ)) = 1 := by
      rw [← hdiff, Real.cos_sub, ← h1, ← h2]
      have := Real.sin_sq_add_cos_sq ((c : ℝ) * 2 * Real.pi / (g.cols : ℝ))
      nlinarith
    have hle : Real.pi / (g.cols : ℝ) ≤ Real.pi := div_le_self (le_of_lt hpi) hn1
    have hpos : 0 < Real.pi / (g.cols : ℝ) := by positivity
    have := (Real.cos_eq_one_iff_of_lt_of_lt (by linarith) (by linarith)).mp hcos
    linarith
  · obtain ⟨k, hk⟩ := hprev
    rw [hk, Real.cos_add_int_mul_two_pi]
  · obtain ⟨k, hk⟩ := hprev
    rw [hk, Real.sin_add_int_mul_two_pi]

/-- Witness for C19: in the worked configuration (3 columns, `pmt_radius = 1`,
`cable_radius = 2`) anchor 1 sits at azimuth `2π/3` and the sensors of column 1 at
azimuth `π`, a difference of `π/3`. -/
theorem cable_half_cell_before_column_witness :
    ∃ (g : Locals ℝ) (db2 : DB ℝ),
      g.OfRun ⟨Real.pi, Real.cos, Real.sin, Real.sqrt⟩ (exampleLoad ℝ) exampleDetector
        (exampleDB ℝ) db2 ∧
      g.cols = 3 ∧ g.rows = 2 ∧
      g.cable_x[1]? = some (2 * Real.cos (2 * Real.pi / 3)) ∧
      g.pmt.x[2]? = some (Real.cos Real.pi) ∧ g.pmt.x[3]? = some (Real.cos Real.pi) ∧
      Real.pi - 2 * Real.pi / 3 = Real.pi / 3 := by
  obtain ⟨g, db2, hg, hR, -, hC, -, hc, hr, -⟩ := example_run
  obtain ⟨⟨-, -, h1, -⟩, h2, -⟩ :=
    cable_half_cell_before_column g _ _ _ _ hg 1 (by rw [hc]; norm_num)
  have h20 := (h2 0 (by rw [hr]; norm_num)).1
  have h21 := (h2 1 (by rw [hr]; norm_num)).1
  rw [hc, hC] at h1
  rw [hc, hr, hR] at h20 h21
  have e1 : ((1 : ℕ) : ℝ) * 2 * Real.pi / ((3 : ℕ) : ℝ) = 2 * Real.pi / 3 := by norm_num
  have e2 : 2 * Real.pi * (((1 : ℕ) : ℝ) + 1 / 2) / ((3 : ℕ) : ℝ) = Real.pi := by
    field_simp; ring
  rw [e1] at h1
  rw [e2] at h20 h21
  exact ⟨g, db2, hg, hc, hr, h1, by simpa using h20, by simpa using h21, by ring⟩

/-- C20. In a completed run the accepted set is invariant under `i ↦ -i`, `j ↦ -j` and the
exchange of `i` and `j`; the number of accepted points is odd whenever `(0, 0)` is
accepted; and the footprint coordinates `pmt_space * i` and `pmt_space * j`, summed over
the accepted points, each give zero. -/
theorem topbot_symmetric (g : Locals R) (m : Libm R)
    (Load : String → DB R → ℤ × DB R) (detector : DBLink) (db db2 : DB R)
    (hg : g.OfRun m Load detector db db2) :
    (∀ i j : ℤ, ((i, j) ∈ g.topbot ↔ (-i, j) ∈ g.topbot) ∧
      ((-i, j) ∈ g.topbot ↔ (i, -j) ∈ g.topbot) ∧
      ((i, -j) ∈ g.topbot ↔ (j, i) ∈ g.topbot)) ∧
    ((0, 0) ∈ g.topbot → Odd g.topbot.length) ∧
    (g.topbot.map (fun p => g.pmt_space * (p.1 : R))).sum = 0 ∧
    (g.topbot.map (fun p => g.pmt_space * (p.2 : R))).sum = 0 := by
  obtain ⟨-, -, -, -, -, -, htb⟩ := OfRun_stages g m Load detector db db2 hg
  have hmem := mem_topbot_iff _ _ _ _ _ htb
  have hnd := topbot_nodup _ _ _ _ _ htb
  have hnegl : ∀ i j : ℤ, (i, j) ∈ g.topbot ↔ (-i, j) ∈ g.topbot := by
    intro i j
    rw [hmem, hmem, Accepts_neg_left]
    constructor <;> rintro ⟨⟨h1, h2⟩, h3, h4⟩ <;> exact ⟨⟨by omega, by omega⟩, h3, h4⟩
  have hnegr : ∀ i j : ℤ, (i, j) ∈ g.topbot ↔ (i, -j) ∈ g.topbot := by
    intro i j
    rw [hmem, hmem, Accepts_neg_right]
    constructor <;> rintro ⟨h3, ⟨h1, h2⟩, h4⟩ <;> exact ⟨h3, ⟨by omega, by omega⟩, h4⟩
  have hswap : ∀ i j : ℤ, (i, j) ∈ g.topbot ↔ (j, i) ∈ g.topbot := by
    intro i j
    rw [hmem, hmem, Accepts_swap]
    constructor <;> rintro ⟨h1, h2, h4⟩ <;> exact ⟨h2, h1, h4⟩
  refine ⟨fun i j => ⟨hnegl i j, (hnegl i j).symm.trans (hnegr i j),
    (hnegr i j).symm.trans (hswap i j)⟩, ?_, ?_, ?_⟩
  · intro h0
    have hcard : g.topbot.length = (g.topbot.toFinset.erase (0, 0)).card + 1 := by
      rw [Finset.card_erase_add_one (List.mem_toFinset.mpr h0),
        List.toFinset_card_of_nodup hnd]
    have hsum : ∑ p ∈ g.topbot.toFinset.erase (0, 0), (1 : ZMod 2) = 0 := by
      refine Finset.sum_involution (fun p _ => (-p.1, -p.2)) ?_ ?_ ?_ ?_
      · intro p _
        decide
      · intro p hp _ heq
        have hne := (Finset.mem_erase.mp hp).1
        have h1 := congrArg Prod.fst heq
        have h2 := congrArg Prod.snd heq
        simp only at h1 h2
        exact hne (Prod.ext (by simp only; omega) (by simp only; omega))
      · intro p hp
        obtain ⟨hne, hin⟩ := Finset.mem_erase.mp hp
        rw [List.mem_toFinset] at hin
        refine Finset.mem_erase.mpr ⟨?_, List.mem_toFinset.mpr ?_⟩
        · intro heq
          have h1 := congrArg Prod.fst heq
          have h2 := congrArg Prod.snd heq
          simp only at h1 h2
          exact hne (Prod.ext (by simp only; omega) (by simp only; omega))
        · exact (hnegr (-p.1) p.2).mp ((hnegl p.1 p.2).mp hin)
      · intro p _
        simp
    rw [Finset.sum_const, nsmul_eq_mul, mul_one] at hsum
    have heven : Even (g.topbot.toFinset.erase (0, 0)).card :=
      (ZMod.eq_zero_iff_even).mp hsum
    rw [hcard]
    exact heven.add_one
  · rw [← List.sum_toFinset _ hnd]
    refine Finset.sum_involution (fun p _ => (-p.1, p.2)) ?_ ?_ ?_ ?_
    · intro p _
      push_cast
      ring
    · intro p _ hne heq
      have h1 := congrArg Prod.fst heq
      simp only at h1
      have : p.1 = 0 := by omega
      rw [this] at hne
      simp at hne
    · intro p hp
      rw [List.mem_toFinset] at hp ⊢
      exact (hnegl p.1 p.2).mp hp
    · intro p _
      simp
  · rw [← List.sum_toFinset _ hnd]
    refine Finset.sum_involution (fun p _ => (p.1, -p.2)) ?_ ?_ ?_ ?_
    · intro p _
      push_cast
      ring
    · intro p _ hne heq
      have h1 := congrArg Prod.snd heq
      simp only at h1
      have : p.2 = 0 := by omega
      rw [this] at hne
      simp at hne
    · intro p hp
      rw [List.mem_toFinset] at hp ⊢
      exact (hnegr p.1 p.2).mp hp
    · intro p _
      simp

/-- Witness for C20: in the worked configuration the accepted list is `[(0, 0)]`: it
contains `(0, 0)`, its length 1 is odd, and its footprint coordinates sum to zero. -/
theorem topbot_symmetric_witness :
    ∃ (g : Locals ℝ) (db2 : DB ℝ),
      g.OfRun ⟨Real.pi, Real.cos, Real.sin, Real.sqrt⟩ (exampleLoad ℝ) exampleDetector
        (exampleDB ℝ) db2 ∧
      g.topbot = [(0, 0)] ∧
      (((1 : ℤ), (0 : ℤ)) ∈ g.topbot ↔ (-(1 : ℤ), (0 : ℤ)) ∈ g.topbot) ∧
      Odd g.topbot.length ∧
      (g.topbot.map (fun p => g.pmt_space * (p.1 : ℝ))).sum = 0 ∧
      (g.topbot.map (fun p => g.pmt_space * (p.2 : ℝ))).sum = 0 := by
  obtain ⟨g, db2, hg, -, -, -, -, -, -, htb⟩ := example_run
  obtain ⟨h1, h2, h3, h4⟩ := topbot_symmetric g _ _ _ _ _ hg
  exact ⟨g, db2, hg, htb, (h1 1 0).1, h2 (by rw [htb]; simp), h3, h4⟩

end ClaimsContinued

/-! ## Double precision: rounding lemmas and the required sensor count -/

section DoublePrecision

namespace Binary64

theorem exponent_eq (x : ℚ) (e : ℤ) (h1 : (2 : ℚ) ^ e ≤ |x|) (h2 : |x| < (2 : ℚ) ^ (e + 1)) :
    exponent x = e := by
  have hpos : 0 < |x| := lt_of_lt_of_le (zpow_pos (by norm_num) e) h1
  have a1 : e ≤ Int.log 2 |x| := by
    rw [← Int.zpow_le_iff_le_log (by norm_num) hpos]
    exact_mod_cast h1
  have a2 : Int.log 2 |x| < e + 1 := by
    rw [← Int.lt_zpow_iff_log_lt (by norm_num) hpos]
    exact_mod_cast h2
  unfold exponent
  omega

theorem exponent_spec (x : ℚ) (hx : x ≠ 0) :
    (2 : ℚ) ^ exponent x ≤ |x| ∧ |x| < (2 : ℚ) ^ (exponent x + 1) := by
  have hpos : 0 < |x| := abs_pos.mpr hx
  constructor
  · have := Int.zpow_log_le_self (by norm_num : 1 < 2) hpos
    exact_mod_cast this
  · have := Int.lt_zpow_succ_log_self (by norm_num : 1 < 2) |x|
    exact_mod_cast this

theorem roundTiesEven_down (x : ℚ) (k : ℤ) (h1 : (k : ℚ) ≤ x) (h2 : x - k < 1 / 2) :
    roundTiesEven x = k := by
  have hf : ⌊x⌋ = k := by
    rw [Int.floor_eq_iff]; constructor <;> linarith
  unfold roundTiesEven
  rw [hf, if_pos h2]

theorem roundTiesEven_up (x : ℚ) (k : ℤ) (h1 : (k : ℚ) + 1 / 2 < x) (h2 : x < k + 1) :
    roundTiesEven x = k + 1 := by
  have hf : ⌊x⌋ = k := by
    rw [Int.floor_eq_iff]; constructor <;> linarith
  unfold roundTiesEven
  rw [hf, if_neg (by linarith), if_pos (by linarith)]

theorem roundTiesEven_tie_odd (x : ℚ) (k : ℤ) (h1 : x = (k : ℚ) + 1 / 2) (h2 : k % 2 = 1) :
    roundTiesEven x = k + 1 := by
  have hf : ⌊x⌋ = k := by
    rw [Int.floor_eq_iff]; constructor <;> linarith
  unfold roundTiesEven
  rw [hf, if_neg (by linarith), if_neg (by linarith), if_neg (by omega)]

theorem roundTiesEven_intCast (k : ℤ) : roundTiesEven (k : ℚ) = k :=
  roundTiesEven_down _ k (le_refl _) (by norm_num)

theorem roundTiesEven_bounds (x : ℚ) :
    ((⌊x⌋ : ℤ) : ℚ) ≤ roundTiesEven x ∧ |(roundTiesEven x : ℚ) - x| ≤ 1 / 2 := by
  have h1 := Int.floor_le x
  have h2 := Int.lt_floor_add_one x
  unfold roundTiesEven
  split
  · rename_i h
    refine ⟨le_refl _, ?_⟩
    rw [abs_le]; constructor <;> linarith
  · rename_i h
    split
    · rename_i h3
      push_cast
      refine ⟨by linarith, ?_⟩
      rw [abs_le]; constructor <;> linarith
    · rename_i h3
      have he : x - ⌊x⌋ = 1 / 2 := le_antisymm (not_lt.mp h3) (not_lt.mp h)
      split
      · refine ⟨le_refl _, ?_⟩
        rw [abs_le]; constructor <;> linarith
      · push_cast
        refine ⟨by linarith, ?_⟩
        rw [abs_le]; constructor <;> linarith

/-- Evaluation of `fl` from the exponent and the rounded significand. -/
theorem fl_eq (x : ℚ) (e n : ℤ) (hx : x ≠ 0) (h1 : (2 : ℚ) ^ e ≤ |x|)
    (h2 : |x| < (2 : ℚ) ^ (e + 1)) (hlo : -1022 ≤ e)
    (hn : roundTiesEven (x / 2 ^ (e - 52)) = n)
    (hhi : |(n : ℚ) * 2 ^ (e - 52)| < (2 : ℚ) ^ (1024 : ℤ)) :
    fl x = .ok ((n : ℚ) * 2 ^ (e - 52)) := by
  have he := exponent_eq x e h1 h2
  unfold fl
  rw [if_neg hx, he, if_neg (by omega), hn, if_neg (not_le.mpr hhi)]

/-- A rounded positive number is positive and within relative distance `2^-53` of the
exact one. -/
theorem fl_pos_rel (x y : ℚ) (hx : 0 < x) (h : fl x = .ok y) :
    0 < y ∧ |y - x| ≤ x / 2 ^ 53 := by
  have hx0 : x ≠ 0 := ne_of_gt hx
  obtain ⟨e1, e2⟩ := exponent_spec x hx0
  rw [abs_of_pos hx] at e1 e2
  unfold fl at h
  rw [if_neg hx0] at h
  split at h
  · cases h
  split at h
  · cases h
  cases h
  generalize exponent x = e at e1 e2 ⊢
  have hu : (0 : ℚ) < 2 ^ (e - 52) := zpow_pos (by norm_num) _
  have hsplit : (2 : ℚ) ^ e = 2 ^ (52 : ℕ) * 2 ^ (e - 52) := by
    rw [← zpow_natCast, ← zpow_add₀ (by norm_num)]
    congr 1
    omega
  obtain ⟨b1, b2⟩ := roundTiesEven_bounds (x / 2 ^ (e - 52))
  have hz : (2 : ℚ) ^ (52 : ℕ) ≤ x / 2 ^ (e - 52) := by
    rw [le_div_iff₀ hu, ← hsplit]; exact e1
  have hfl : (1 : ℚ) ≤ ((⌊x / 2 ^ (e - 52)⌋ : ℤ) : ℚ) := by
    have : (1 : ℤ) ≤ ⌊x / 2 ^ (e - 52)⌋ := by
      apply Int.le_floor.mpr
      push_cast
      refine le_trans ?_ hz
      norm_num
    exact_mod_cast this
  constructor
  · exact mul_pos (by linarith) hu
  · have hd : (roundTiesEven (x / 2 ^ (e - 52)) : ℚ) * 2 ^ (e - 52) - x
        = ((roundTiesEven (x / 2 ^ (e - 52)) : ℚ) - x / 2 ^ (e - 52)) * 2 ^ (e - 52) := by
      field_simp
    rw [hd, abs_mul, abs_of_pos hu]
    have h3 : |(roundTiesEven (x / 2 ^ (e - 52)) : ℚ) - x / 2 ^ (e - 52)| * 2 ^ (e - 52)
        ≤ 1 / 2 * 2 ^ (e - 52) := mul_le_mul_of_nonneg_right b2 (le_of_lt hu)
    refine le_trans h3 ?_
    rw [le_div_iff₀ (by positivity)]
    have h4 : (1 : ℚ) / 2 * 2 ^ (e - 52) * 2 ^ 53 = 2 ^ (52 : ℕ) * 2 ^ (e - 52) := by
      ring
    rw [h4, ← hsplit]
    exact e1

/-- Evaluation of `fl` at a positive number from its exponent and rounded significand. -/
theorem fl_of_pos (x y : ℚ) (e n : ℤ) (hx : 0 < x) (h1 : (2 : ℚ) ^ e ≤ x)
    (h2 : x < (2 : ℚ) ^ (e + 1)) (hlo : -1022 ≤ e) (hhi : e ≤ 1022)
    (hn : roundTiesEven (x / 2 ^ (e - 52)) = n) (hy : y = (n : ℚ) * 2 ^ (e - 52)) :
    fl x = .ok y := by
  have hu : (0 : ℚ) < 2 ^ (e - 52) := zpow_pos (by norm_num) _
  have hsplit : (2 : ℚ) ^ (e + 1) = 2 ^ (53 : ℕ) * 2 ^ (e - 52) := by
    rw [← zpow_natCast, ← zpow_add₀ (by norm_num)]
    congr 1
    omega
  obtain ⟨b1, b2⟩ := roundTiesEven_bounds (x / 2 ^ (e - 52))
  rw [hn] at b1 b2
  have hz : x / 2 ^ (e - 52) < 2 ^ (53 : ℕ) := by
    rw [div_lt_iff₀ hu, ← hsplit]; exact h2
  have hz0 : 0 < x / 2 ^ (e - 52) := div_pos hx hu
  have hn0 : (0 : ℚ) ≤ (n : ℚ) := by
    have : (0 : ℤ) ≤ ⌊x / 2 ^ (e - 52)⌋ := Int.floor_nonneg.mpr (le_of_lt hz0)
    have : (0 : ℚ) ≤ ((⌊x / 2 ^ (e - 52)⌋ : ℤ) : ℚ) := by exact_mod_cast this
    linarith
  have hn1 : (n : ℚ) < 2 ^ (54 : ℕ) := by
    have := (abs_le.mp b2).2
    norm_num at hz ⊢
    linarith
  rw [hy]
  refine fl_eq x e n (ne_of_gt hx) (by rwa [abs_of_pos hx]) (by rwa [abs_of_pos hx]) hlo hn ?_
  rw [abs_of_nonneg (mul_nonneg hn0 (le_of_lt hu))]
  have h3 : (n : ℚ) * 2 ^ (e - 52) < 2 ^ (54 : ℕ) * 2 ^ (e - 52) :=
    mul_lt_mul_of_pos_right hn1 hu
  refine lt_of_lt_of_le h3 ?_
  rw [← zpow_natCast, ← zpow_add₀ (by norm_num)]
  exact zpow_le_zpow_right₀ (by norm_num) (by push_cast; omega)

/-- Evaluation of `fl` at a positive number that is a `double`. -/
theorem fl_of_exact (x y : ℚ) (e n : ℤ) (hxy : x = y) (hy : y = (n : ℚ) * 2 ^ (e - 52))
    (hx : 0 < y) (h1 : (2 : ℚ) ^ e ≤ y) (h2 : y < (2 : ℚ) ^ (e + 1)) (hlo : -1022 ≤ e)
    (hhi : e ≤ 1022) : fl x = .ok y := by
  subst hxy
  refine fl_of_pos x x e n hx h1 h2 hlo hhi ?_ hy
  have hu : (2 : ℚ) ^ (e - 52) ≠ 0 := ne_of_gt (zpow_pos (by norm_num) _)
  have : x / 2 ^ (e - 52) = (n : ℚ) := by
    rw [hy]; field_simp
  rw [this]
  exact roundTiesEven_intCast n

theorem example_pmt_radius_binary64 : pmt_radius (1 / 8) (1 / 2) 4 = .ok 1 := by
  have a1 : fl ((4 : ℚ) / 2) = .ok 2 :=
    fl_of_exact _ _ 1 4503599627370496 (by norm_num) (by norm_num) (by norm_num)
      (by norm_num) (by norm_num) (by norm_num) (by norm_num)
  have a2 : fl ((2 : ℚ) - 1 / 2) = .ok (3 / 2) :=
    fl_of_exact _ _ 0 6755399441055744 (by norm_num) (by norm_num) (by norm_num)
      (by norm_num) (by norm_num) (by norm_num) (by norm_num)
  have a3 : fl ((4 : ℚ) * (1 / 8)) = .ok (1 / 2) :=
    fl_of_exact _ _ (-1) 4503599627370496 (by norm_num) (by norm_num) (by norm_num)
      (by norm_num) (by norm_num) (by norm_num) (by norm_num)
  have a4 : fl ((3 : ℚ) / 2 - 1 / 2) = .ok 1 :=
    fl_of_exact _ _ 0 4503599627370496 (by norm_num) (by norm_num) (by norm_num)
      (by norm_num) (by norm_num) (by norm_num) (by norm_num)
  simp only [pmt_radius, bind, Except.bind, a1, a2, a3, a4]

theorem example_topbot_offset_binary64 : topbot_offset (1 / 2) 4 = .ok (3 / 2) := by
  have a1 : fl ((4 : ℚ) / 2) = .ok 2 :=
    fl_of_exact _ _ 1 4503599627370496 (by norm_num) (by norm_num) (by norm_num)
      (by norm_num) (by norm_num) (by norm_num) (by norm_num)
  have a2 : fl ((2 : ℚ) - 1 / 2) = .ok (3 / 2) :=
    fl_of_exact _ _ 0 6755399441055744 (by norm_num) (by norm_num) (by norm_num)
      (by norm_num) (by norm_num) (by norm_num) (by norm_num)
  simp only [topbot_offset, bind, Except.bind, a1, a2]

theorem example_photocathode_area_binary64 :
    photocathode_area (1 / 2) = .ok (884279719003555 / 1125899906842624) := by
  have a1 : fl (M_PI * (1 / 2)) = .ok (884279719003555 / 562949953421312) :=
    fl_of_exact _ _ 0 7074237752028440 (by norm_num [M_PI]) (by norm_num) (by norm_num)
      (by norm_num) (by norm_num) (by norm_num) (by norm_num)
  have a2 : fl ((884279719003555 / 562949953421312 : ℚ) * (1 / 2))
      = .ok (884279719003555 / 1125899906842624) :=
    fl_of_exact _ _ (-1) 7074237752028440 (by norm_num) (by norm_num) (by norm_num)
      (by norm_num) (by norm_num) (by norm_num) (by norm_num)
  simp only [photocathode_area, bind, Except.bind, a1, a2]

theorem example_surface_area_binary64 :
    surface_area 1 (3 / 2) = .ok (884279719003555 / 35184372088832) := by
  have a1 : fl (2 * M_PI) = .ok (884279719003555 / 140737488355328) :=
    fl_of_exact _ _ 2 7074237752028440 (by norm_num [M_PI]) (by norm_num) (by norm_num)
      (by norm_num) (by norm_num) (by norm_num) (by norm_num)
  have a2 : fl ((884279719003555 / 140737488355328 : ℚ) * 1)
      = .ok (884279719003555 / 140737488355328) :=
    fl_of_exact _ _ 2 7074237752028440 (by norm_num) (by norm_num) (by norm_num)
      (by norm_num) (by norm_num) (by norm_num) (by norm_num)
  have b1 : fl ((2 : ℚ) * (3 / 2)) = .ok 3 :=
    fl_of_exact _ _ 1 6755399441055744 (by norm_num) (by norm_num) (by norm_num)
      (by norm_num) (by norm_num) (by norm_num) (by norm_num)
  have b2 : fl ((3 : ℚ) * 2) = .ok 6 :=
    fl_of_exact _ _ 2 6755399441055744 (by norm_num) (by norm_num) (by norm_num)
      (by norm_num) (by norm_num) (by norm_num) (by norm_num)
  have b3 : fl ((6 : ℚ) * M_PI) = .ok (2652839157010665 / 140737488355328) :=
    fl_of_exact _ _ 4 5305678314021330 (by norm_num [M_PI]) (by norm_num) (by norm_num)
      (by norm_num) (by norm_num) (by norm_num) (by norm_num)
  have b4 : fl ((2652839157010665 / 140737488355328 : ℚ) * 1)
      = .ok (2652839157010665 / 140737488355328) :=
    fl_of_exact _ _ 4 5305678314021330 (by norm_num) (by norm_num) (by norm_num)
      (by norm_num) (by norm_num) (by norm_num) (by norm_num)
  have c1 : fl ((884279719003555 / 140737488355328 : ℚ)
      + 2652839157010665 / 140737488355328) = .ok (884279719003555 / 35184372088832) :=
    fl_of_exact _ _ 4 7074237752028440 (by norm_num) (by norm_num) (by norm_num)
      (by norm_num) (by norm_num) (by norm_num) (by norm_num)
  simp only [surface_area, bind, Except.bind, a1, a2, b1, b2, b3, b4, c1]

theorem example_required_pmts_binary64 :
    required_pmts (13 / 16) (884279719003555 / 35184372088832)
      (884279719003555 / 1125899906842624) = .ok 27 := by
  have a1 : fl ((13 / 16 : ℚ) * (884279719003555 / 35184372088832))
      = .ok (1436954543380777 / 70368744177664) :=
    fl_of_pos _ _ 4 5747818173523108 (by norm_num) (by norm_num) (by norm_num)
      (by norm_num) (by norm_num)
      (roundTiesEven_tie_odd _ 5747818173523107 (by norm_num) (by norm_num))
      (by norm_num)
  have a2 : fl ((1436954543380777 / 70368744177664 : ℚ)
      / (884279719003555 / 1125899906842624))
      = .ok (7318349394477057 / 281474976710656) :=
    fl_of_pos _ _ 4 7318349394477057 (by norm_num) (by norm_num) (by norm_num)
      (by norm_num) (by norm_num)
      (roundTiesEven_up _ 7318349394477056 (by norm_num) (by norm_num))
      (by norm_num)
  have hc : ⌈(7318349394477057 / 281474976710656 : ℚ)⌉ = 27 := by
    rw [Int.ceil_eq_iff]
    norm_num
  simp only [required_pmts, bind, Except.bind, a1, a2, hc, pure, Except.pure]
  norm_num

end Binary64

/-- C7 as stated fails in double precision. For coverage 13/16, edge radius 1/2, steel
thickness 1/8, shield thickness 1/2 and detector size 4, lines 29–40 give
`pmt_radius = 1`, `topbot_offset = 3/2`, `photocathode_area = M_PI/4` and
`surface_area = 8*M_PI` without rounding error, so
`26 * photocathode_area = coverage * surface_area`; but line 41 rounds the product
`coverage * surface_area` up (a tie) and the quotient to `26 + 2^-48`, and returns 27. -/
theorem required_pmts_not_least :
    Binary64.pmt_radius (1 / 8) (1 / 2) 4 = .ok 1 ∧
    Binary64.topbot_offset (1 / 2) 4 = .ok (3 / 2) ∧
    Binary64.photocathode_area (1 / 2) = .ok (Binary64.M_PI / 4) ∧
    Binary64.surface_area 1 (3 / 2) = .ok (8 * Binary64.M_PI) ∧
    Binary64.required_pmts (13 / 16) (8 * Binary64.M_PI) (Binary64.M_PI / 4) = .ok 27 ∧
    (13 / 16 : ℚ) * (8 * Binary64.M_PI) ≤ 26 * (Binary64.M_PI / 4) ∧ (26 : ℚ) < 27 := by
  have eA : Binary64.M_PI / 4 = 884279719003555 / 1125899906842624 := by
    norm_num [Binary64.M_PI]
  have eS : 8 * Binary64.M_PI = 884279719003555 / 35184372088832 := by
    norm_num [Binary64.M_PI]
  rw [eA, eS]
  exact ⟨Binary64.example_pmt_radius_binary64, Binary64.example_topbot_offset_binary64,
    Binary64.example_photocathode_area_binary64, Binary64.example_surface_area_binary64,
    Binary64.example_required_pmts_binary64, by norm_num, by norm_num⟩

/-- C7, as amended. In double precision, for positive coverage, `pmt_radius`,
`topbot_offset` and `photocathode_radius`, when lines 29, 40 and 41 stay in the normal
range: `surface_area` and `photocathode_area` are positive, and
`required_pmts = ceil(q)`, where `q` is the quotient of line 41 with the product
`p = coverage * surface_area` and the quotient `p / photocathode_area` each rounded to
nearest. It is an integer `n ≥ 1`, the least integer with `n ≥ q`; it satisfies
`n * photocathode_area ≥ (1 - 2^-52) * coverage * surface_area` and
`(n - 1) * photocathode_area < (1 + 2^-51) * coverage * surface_area`; and when neither
the product nor the quotient is rounded it is the least integer with
`n * photocathode_area ≥ coverage * surface_area`. -/
theorem required_pmts_rounded (cov R_ T r S A N : ℚ)
    (hcov : 0 < cov) (hR : 0 < R_) (hT : 0 < T) (hr : 0 < r)
    (hS : Binary64.surface_area R_ T = .ok S)
    (hA : Binary64.photocathode_area r = .ok A)
    (hN : Binary64.required_pmts cov S A = .ok N) :
    0 < S ∧ 0 < A ∧
    ∃ (p q : ℚ) (n : ℤ),
      Binary64.fl (cov * S) = .ok p ∧ Binary64.fl (p / A) = .ok q ∧
      N = (n : ℚ) ∧ n = ⌈q⌉ ∧ 1 ≤ n ∧ q ≤ (n : ℚ) ∧ (∀ k : ℤ, q ≤ (k : ℚ) → n ≤ k) ∧
      (1 - 1 / 2 ^ 52) * (cov * S) ≤ (n : ℚ) * A ∧
      ((n : ℚ) - 1) * A < (1 + 1 / 2 ^ 51) * (cov * S) ∧
      (p = cov * S → q = p / A →
        cov * S ≤ (n : ℚ) * A ∧ ∀ k : ℤ, cov * S ≤ (k : ℚ) * A → n ≤ k) := by
  have hpi : (0 : ℚ) < Binary64.M_PI := by norm_num [Binary64.M_PI]
  have hSpos : 0 < S := by
    simp only [Binary64.surface_area, bind_ok_iff] at hS
    obtain ⟨a1, h1, a2, h2, a3, h3, b1, h4, b2, h5, b3, h6, b4, h7, h8⟩ := hS
    have p1 := (Binary64.fl_pos_rel _ _ (by positivity) h1).1
    have p2 := (Binary64.fl_pos_rel _ _ (by positivity) h2).1
    have p3 := (Binary64.fl_pos_rel _ _ (by positivity) h3).1
    have p4 := (Binary64.fl_pos_rel _ _ (by positivity) h4).1
    have p5 := (Binary64.fl_pos_rel _ _ (by positivity) h5).1
    have p6 := (Binary64.fl_pos_rel _ _ (by positivity) h6).1
    have p7 := (Binary64.fl_pos_rel _ _ (by positivity) h7).1
    exact (Binary64.fl_pos_rel _ _ (by positivity) h8).1
  have hApos : 0 < A := by
    simp only [Binary64.photocathode_area, bind_ok_iff] at hA
    obtain ⟨t, h1, h2⟩ := hA
    have p1 := (Binary64.fl_pos_rel _ _ (by positivity) h1).1
    exact (Binary64.fl_pos_rel _ _ (by positivity) h2).1
  refine ⟨hSpos, hApos, ?_⟩
  unfold Binary64.required_pmts at hN
  rw [bind_ok_iff] at hN
  obtain ⟨p, hp, hN⟩ := hN
  rw [if_neg (ne_of_gt hApos), bind_ok_iff] at hN
  obtain ⟨q, hq, hN⟩ := hN
  simp only [pure, Except.pure, Except.ok.injEq] at hN
  have hcS : 0 < cov * S := mul_pos hcov hSpos
  obtain ⟨pp, pe⟩ := Binary64.fl_pos_rel _ _ hcS hp
  obtain ⟨qp, qe⟩ := Binary64.fl_pos_rel _ _ (div_pos pp hApos) hq
  rw [abs_le] at pe qe
  have hn1 : 1 ≤ ⌈q⌉ := Int.one_le_ceil_iff.mpr qp
  have hqn : q ≤ ((⌈q⌉ : ℤ) : ℚ) := Int.le_ceil q
  have hnq : ((⌈q⌉ : ℤ) : ℚ) < q + 1 := Int.ceil_lt_add_one q
  have hqA : q * A ≤ p + p / 2 ^ 53 ∧ p - p / 2 ^ 53 ≤ q * A := by
    have e1 : p / A * A = p := div_mul_cancel₀ _ (ne_of_gt hApos)
    have e2 : p / A / 2 ^ 53 * A = p / 2 ^ 53 := by
      field_simp
      ring
    constructor
    · have := mul_le_mul_of_nonneg_right (show q ≤ p / A + p / A / 2 ^ 53 by linarith)
        (le_of_lt hApos)
      rw [add_mul, e1, e2] at this
      exact this
    · have := mul_le_mul_of_nonneg_right (show p / A - p / A / 2 ^ 53 ≤ q by linarith)
        (le_of_lt hApos)
      rw [sub_mul, e1, e2] at this
      exact this
  refine ⟨p, q, ⌈q⌉, hp, hq, hN.symm, rfl, hn1, hqn, fun k hk => Int.ceil_le.mpr hk,
    ?_, ?_, ?_⟩
  · have h1 : q * A ≤ ((⌈q⌉ : ℤ) : ℚ) * A := mul_le_mul_of_nonneg_right hqn (le_of_lt hApos)
    have h2 : (1 - 1 / 2 ^ 52) * (cov * S) ≤ p - p / 2 ^ 53 := by
      have : cov * S - cov * S / 2 ^ 53 ≤ p := by linarith
      nlinarith
    linarith [hqA.2]
  · have h1 : (((⌈q⌉ : ℤ) : ℚ) - 1) * A < q * A :=
      mul_lt_mul_of_pos_right (by linarith) hApos
    have h2 : p + p / 2 ^ 53 < (1 + 1 / 2 ^ 51) * (cov * S) := by
      have : p ≤ cov * S + cov * S / 2 ^ 53 := by linarith
      nlinarith
    linarith [hqA.1]
  · intro e1 e2
    have e3 : q * A = cov * S := by
      rw [e2, e1, div_mul_cancel₀ _ (ne_of_gt hApos)]
    constructor
    · rw [← e3]
      exact mul_le_mul_of_nonneg_right hqn (le_of_lt hApos)
    · intro k hk
      apply Int.ceil_le.mpr
      rw [e2, e1, div_le_iff₀ hApos]
      exact hk

/-- Witness for C7 as amended: coverage 13/16 on the vessel with `pmt_radius = 1`,
`topbot_offset = 3/2`, photocathode radius 1/2, where `required_pmts = 27`. -/
theorem required_pmts_rounded_witness :
    (0 : ℚ) < 13 / 16 ∧ (0 : ℚ) < 1 ∧ (0 : ℚ) < 3 / 2 ∧ (0 : ℚ) < 1 / 2 ∧
    Binary64.surface_area 1 (3 / 2) = .ok (884279719003555 / 35184372088832) ∧
    Binary64.photocathode_area (1 / 2) = .ok (884279719003555 / 1125899906842624) ∧
    Binary64.required_pmts (13 / 16) (884279719003555 / 35184372088832)
      (884279719003555 / 1125899906842624) = .ok 27 ∧
    ∃ (p q : ℚ) (n : ℤ),
      Binary64.fl (13 / 16 * (884279719003555 / 35184372088832)) = .ok p ∧
      Binary64.fl (p / (884279719003555 / 1125899906842624)) = .ok q ∧
      (27 : ℚ) = (n : ℚ) ∧ n = ⌈q⌉ ∧ 1 ≤ n ∧ q ≤ (n : ℚ) ∧
      (1 - 1 / 2 ^ 52) * (13 / 16 * (884279719003555 / 35184372088832))
        ≤ (n : ℚ) * (884279719003555 / 1125899906842624) ∧
      ((n : ℚ) - 1) * (884279719003555 / 1125899906842624)
        < (1 + 1 / 2 ^ 51) * (13 / 16 * (884279719003555 / 35184372088832)) := by
  obtain ⟨-, -, p, q, n, h1, h2, h3, h4, h5, h6, -, h8, h9, -⟩ :=
    required_pmts_rounded (13 / 16) 1 (3 / 2) (1 / 2) _ _ 27 (by norm_num) (by norm_num)
      (by norm_num) (by norm_num) Binary64.example_surface_area_binary64
      Binary64.example_photocathode_area_binary64 Binary64.example_required_pmts_binary64
  exact ⟨by norm_num, by norm_num, by norm_num, by norm_num,
    Binary64.example_surface_area_binary64, Binary64.example_photocathode_area_binary64,
    Binary64.example_required_pmts_binary64, p, q, n, h1, h2, h3, h4, h5, h6, h8, h9⟩

end DoublePrecision

/-! ## Lattice points in a disc and the achieved coverage -/

section LatticeCount

end LatticeCount

end RAT
